import Mathlib

/-!
Verification of the provider-adapter layer of aioncli.

This development shallowly embeds the pure conversion / normalization
logic of the provider adapters
(`packages/core/src/core/openaiContentGenerator.ts`,
`packages/core/src/core/bedrockContentGenerator.ts` — which contains two
revisions of the Bedrock adapter, called V1 and V2 below —
`packages/core/src/utils/safeJsonParse.ts`, and the Anthropic adapter)
and proves the spec's testable properties about it.

Modelling conventions:
* JavaScript values flowing through the adapters are modelled by the
  `Json` inductive; JavaScript truthiness by `Json.truthy` and, for
  strings, by comparison with `""`.
* `JSON.parse` is modelled by the executable `parseJson` (JSON numbers
  are modelled as integers — the claims under study only involve
  integer-valued and string-valued JSON); `JSON.stringify` by
  `Json.stringify`.
* The external `jsonrepair` library is an external collaborator; it is
  modelled as an oracle parameter `rep : String → Option String`
  (`none` models a throw).
* Optional / possibly-absent JavaScript fields are `Option`s.
-/

namespace Aion

/-- JSON/JavaScript data values (numbers modelled as integers). -/
inductive Json where
  | null : Json
  | bool (b : Bool) : Json
  | num (n : Int) : Json
  | str (s : String) : Json
  | arr (elems : List Json) : Json
  | obj (fields : List (String × Json)) : Json

/-- JavaScript truthiness of a value. -/
def Json.truthy : Json → Bool
  | .null => false
  | .bool b => b
  | .num n => n != 0
  | .str s => s != ""
  | .arr _ => true
  | .obj _ => true

/-- Property lookup in an object\'s field list (first match). -/
def lookupF : List (String × Json) → String → Option Json
  | [], _ => none
  | (k2, v) :: rest, k => if k2 = k then some v else lookupF rest k

/-- JavaScript property lookup on an object value. -/
def Json.getField : Json → String → Option Json
  | .obj fields, k => lookupF fields k
  | _, _ => none

theorem band_intro {a b : Bool} (ha : a = true) (hb : b = true) : (a && b) = true := by
  rw [ha, hb]
  rfl

theorem band_left {a b : Bool} (h : (a && b) = true) : a = true := by
  cases a with
  | false => exact Bool.noConfusion h
  | true => rfl

theorem band_right {a b : Bool} (h : (a && b) = true) : b = true := by
  cases a with
  | false => exact Bool.noConfusion h
  | true => exact h

theorem bnot_true {b : Bool} (h : (!b) = true) : b = false := by
  cases b with
  | false => rfl
  | true => exact Bool.noConfusion h

theorem bnot_of_false {b : Bool} (h : b = false) : (!b) = true := by
  rw [h]
  rfl

theorem bor_false_left {a b : Bool} (h : (a || b) = false) : a = false := by
  cases a with
  | false => rfl
  | true => exact Bool.noConfusion h

theorem bor_false_right {a b : Bool} (h : (a || b) = false) : b = false := by
  cases b with
  | false => rfl
  | true => cases a <;> exact Bool.noConfusion h

theorem bne_of_ne {a b : String} (h : a ≠ b) : (a != b) = true := bne_iff_ne.mpr h

theorem ne_of_bne {a b : String} (h : (a != b) = true) : a ≠ b := bne_iff_ne.mp h

theorem isEmpty_false_of_mem {α : Type} {a : α} {l : List α} (h : a ∈ l) :
    l.isEmpty = false := by
  cases l with
  | nil => cases h
  | cons x t => rfl

theorem ne_nil_of_isEmpty_false {α : Type} {l : List α} (h : (!l.isEmpty) = true) :
    l ≠ [] := by
  cases l with
  | nil => exact Bool.noConfusion h
  | cons x t => exact List.cons_ne_nil x t

/-- The double-quote character. -/
def quoteC : Char := Char.ofNat 34

/-- The left-brace character. -/
def lbC : Char := Char.ofNat 123

/-- The right-brace character. -/
def rbC : Char := Char.ofNat 125

/-- Skip JSON whitespace. -/
def skipWs : List Char → List Char
  | c :: rest =>
    if c = ' ' ∨ c = '\t' ∨ c = '\n' ∨ c = '\r' then skipWs rest else c :: rest
  | [] => []

/-- Parse the body of a JSON string literal (after the opening quote),
returning the decoded characters and the input after the closing quote. -/
def parseStrAux : List Char → Option (List Char × List Char)
  | [] => none
  | c :: rest =>
    if c = quoteC then some ([], rest)
    else if c = '\\' then
      match rest with
      | [] => none
      | e :: rest2 =>
        let esc : Option Char :=
          if e = quoteC then some quoteC
          else if e = '\\' then some '\\'
          else if e = '/' then some '/'
          else if e = 'n' then some '\n'
          else if e = 't' then some '\t'
          else if e = 'r' then some '\r'
          else none
        match esc with
        | some ec => (parseStrAux rest2).map (fun p => (ec :: p.1, p.2))
        | none => none
    else (parseStrAux rest).map (fun p => (c :: p.1, p.2))

/-- Match a literal character sequence. -/
def stripLit : List Char → List Char → Option (List Char)
  | [], cs => some cs
  | l :: ls, c :: cs => if c = l then stripLit ls cs else none
  | _ :: _, [] => none

/-- Longest prefix of decimal digits. -/
def spanDigits : List Char → List Char × List Char
  | c :: rest =>
    if c.isDigit then
      let p := spanDigits rest
      (c :: p.1, p.2)
    else ([], c :: rest)
  | [] => ([], [])

/-- Decimal digits to a natural number. -/
def digitsToNat (ds : List Char) : Nat :=
  ds.foldl (fun acc c => 10 * acc + (c.toNat - 48)) 0

/-- Reader mode: a top-level value, the members of an object (with the
members read so far), or the elements of an array. -/
inductive PMode where
  | val : PMode
  | members (acc : List (String × Json)) : PMode
  | elems (acc : List Json) : PMode

/-- Fueled JSON reader modelling `JSON.parse` (integer numerals only). -/
def parseCore : Nat → PMode → List Char → Option (Json × List Char)
  | 0, _, _ => none
  | fuel + 1, .val, cs =>
    match skipWs cs with
    | [] => none
    | c :: rest =>
      if c = quoteC then
        (parseStrAux rest).map (fun p => (Json.str (String.mk p.1), p.2))
      else if c = lbC then
        match skipWs rest with
        | d :: r1 => if d = rbC then some (Json.obj [], r1) else parseCore fuel (.members []) (skipWs rest)
        | [] => none
      else if c = '[' then
        match skipWs rest with
        | d :: r1 => if d = ']' then some (Json.arr [], r1) else parseCore fuel (.elems []) (skipWs rest)
        | [] => none
      else if c = 't' then
        (stripLit ['r', 'u', 'e'] rest).map (fun r => (Json.bool true, r))
      else if c = 'f' then
        (stripLit ['a', 'l', 's', 'e'] rest).map (fun r => (Json.bool false, r))
      else if c = 'n' then
        (stripLit ['u', 'l', 'l'] rest).map (fun r => (Json.null, r))
      else if c = '-' then
        match spanDigits rest with
        | ([], _) => none
        | (ds, r) => some (Json.num (-(digitsToNat ds : Int)), r)
      else if c.isDigit then
        let p := spanDigits (c :: rest)
        some (Json.num (digitsToNat p.1), p.2)
      else none
  | fuel + 1, .members acc, cs =>
    match skipWs cs with
    | [] => none
    | c :: rest =>
      if c = quoteC then
        match parseStrAux rest with
        | none => none
        | some (kcs, r1) =>
          match skipWs r1 with
          | c2 :: r3 =>
            if c2 = ':' then
              match parseCore fuel .val r3 with
              | none => none
              | some (v, r4) =>
                match skipWs r4 with
                | c3 :: r6 =>
                  if c3 = ',' then parseCore fuel (.members (acc ++ [(String.mk kcs, v)])) r6
                  else if c3 = rbC then some (Json.obj (acc ++ [(String.mk kcs, v)]), r6)
                  else none
                | [] => none
            else none
          | [] => none
      else none
  | fuel + 1, .elems acc, cs =>
    match parseCore fuel .val cs with
    | none => none
    | some (v, r1) =>
      match skipWs r1 with
      | c :: r2 =>
        if c = ',' then parseCore fuel (.elems (acc ++ [v])) r2
        else if c = ']' then some (Json.arr (acc ++ [v]), r2)
        else none
      | [] => none

/-- Model of `JSON.parse`: `none` models a thrown `SyntaxError`. -/
def parseJson (s : String) : Option Json :=
  match parseCore (2 * s.length + 4) .val s.toList with
  | some (v, rest) => if skipWs rest = [] then some v else none
  | none => none

/-- JSON string-literal escaping of one character (as in `JSON.stringify`). -/
def escapeChar (c : Char) : List Char :=
  if c = quoteC then ['\\', quoteC]
  else if c = '\\' then ['\\', '\\']
  else if c = '\n' then ['\\', 'n']
  else if c = '\t' then ['\\', 't']
  else if c = '\r' then ['\\', 'r']
  else [c]

/-- JSON string-literal rendering, including the surrounding quotes. -/
def escapeStringJs (s : String) : String :=
  String.mk (quoteC :: s.toList.flatMap escapeChar ++ [quoteC])

mutual

/-- Model of `JSON.stringify` (compact form, insertion order). -/
def Json.stringify : Json → String
  | .null => "null"
  | .bool b => if b then "true" else "false"
  | .num n => toString n
  | .str s => escapeStringJs s
  | .arr es => "[" ++ stringifyElems es ++ "]"
  | .obj fs => String.singleton lbC ++ stringifyFields fs ++ String.singleton rbC

/-- Comma-separated rendering of array elements. -/
def stringifyElems : List Json → String
  | [] => ""
  | [j] => Json.stringify j
  | j :: rest => Json.stringify j ++ "," ++ stringifyElems rest

/-- Comma-separated rendering of object members. -/
def stringifyFields : List (String × Json) → String
  | [] => ""
  | [(k, v)] => escapeStringJs k ++ ":" ++ Json.stringify v
  | (k, v) :: rest => escapeStringJs k ++ ":" ++ Json.stringify v ++ "," ++ stringifyFields rest

end

/-- Embedding of `safeJsonParse` (`packages/core/src/utils/safeJsonParse.ts`).
`rep` is the `jsonrepair` oracle; the `none` input models a non-string
argument (the `typeof jsonString !== 'string'` guard). -/
def safeJsonParse (rep : String → Option String) (jsonString : Option String)
    (fallback : Json) : Json :=
  match jsonString with
  | none => fallback
  | some s =>
    if s = "" then fallback
    else
      match parseJson s with
      | some v => v
      | none =>
        match rep s with
        | some r =>
          match parseJson r with
          | some v => v
          | none => fallback
        | none => fallback

example : parseJson "\x7b\"path\": \"/src\"\x7d" = some (Json.obj [("path", Json.str "/src")]) :=
  rfl

example : parseJson "\x7b\"x\":5\x7d" = some (Json.obj [("x", Json.num 5)]) := rfl

example : (Json.obj [("x", Json.num 5)]).stringify = "\x7b\"x\":5\x7d" := rfl

example : parseJson "\x7bbad" = none := rfl

/-! ## Canonical finish reasons and their provider mappings -/

/-- The canonical finish-reason enumeration (`FinishReason` of
`@google/genai`, restricted to the members this layer produces;
`UNSPECIFIED` stands for `FINISH_REASON_UNSPECIFIED`). -/
inductive FinishReason where
  | STOP : FinishReason
  | MAX_TOKENS : FinishReason
  | SAFETY : FinishReason
  | UNSPECIFIED : FinishReason
deriving DecidableEq

/-- Property names a plain object literal inherits from
`Object.prototype` (the ECMAScript standard set, accessor `__proto__`
included); every one of them holds a truthy function or object value. -/
def objectProtoKeys : List String :=
  ["constructor", "hasOwnProperty", "isPrototypeOf", "propertyIsEnumerable",
    "toLocaleString", "toString", "valueOf", "__defineGetter__", "__defineSetter__",
    "__lookupGetter__", "__lookupSetter__", "__proto__"]

/-- A value the OpenAI `mapFinishReason` can actually return: a member of
the canonical enumeration, or the truthy value `mapping[openaiReason]`
inherits from `Object.prototype` when the reason string names one of its
properties (bracket lookup traverses the prototype chain, and `||` passes
any truthy result through). -/
inductive JsFinishValue where
  | enum (f : FinishReason) : JsFinishValue
  | inherited (name : String) : JsFinishValue
deriving DecidableEq

/-- Embedding of `OpenAIContentGenerator.mapFinishReason`
(`openaiContentGenerator.ts`, lines 1934-1944):
`mapping[openaiReason] || FINISH_REASON_UNSPECIFIED` over the object
literal with own keys `stop`, `length`, `content_filter`,
`function_call`, `tool_calls`; null/empty reasons short-circuit to
`FINISH_REASON_UNSPECIFIED`, a reason naming an `Object.prototype`
property yields that truthy inherited value, and any other reason falls
back to `FINISH_REASON_UNSPECIFIED`. -/
def mapFinishReason (openaiReason : Option String) : JsFinishValue :=
  match openaiReason with
  | none => .enum .UNSPECIFIED
  | some r =>
    if r = "" then .enum .UNSPECIFIED
    else if r = "stop" then .enum .STOP
    else if r = "length" then .enum .MAX_TOKENS
    else if r = "content_filter" then .enum .SAFETY
    else if r = "function_call" then .enum .STOP
    else if r = "tool_calls" then .enum .STOP
    else if r ∈ objectProtoKeys then .inherited r
    else .enum .UNSPECIFIED

/-- Embedding of `BedrockContentGenerator.mapStopReason`
(`bedrockContentGenerator.ts`, lines 1679-1698): a switch with default
`FINISH_REASON_UNSPECIFIED`. -/
def mapStopReason (stopReason : Option String) : FinishReason :=
  match stopReason with
  | none => .UNSPECIFIED
  | some r =>
    if r = "end_turn" then .STOP
    else if r = "tool_use" then .STOP
    else if r = "max_tokens" then .MAX_TOKENS
    else if r = "stop_sequence" then .STOP
    else if r = "content_filtered" then .SAFETY
    else if r = "guardrail_intervened" then .SAFETY
    else .UNSPECIFIED

/-- Embedding of `AnthropicContentGenerator.mapStopReason`
(`src/unnamed/part_005`, lines 317-330): switch whose default (including
`null`) is `STOP`. -/
def anthropicMapStopReason (stopReason : Option String) : FinishReason :=
  match stopReason with
  | none => .STOP
  | some r =>
    if r = "end_turn" then .STOP
    else if r = "max_tokens" then .MAX_TOKENS
    else if r = "stop_sequence" then .STOP
    else if r = "tool_use" then .STOP
    else .STOP

/-! ## Usage normalization -/

/-- Provider usage record as read by the OpenAI adapter
(`usage.prompt_tokens`, `usage.completion_tokens`, `usage.total_tokens`,
`usage.prompt_tokens_details?.cached_tokens`); absent fields are `none`. -/
structure OAUsage where
  prompt_tokens : Option Nat
  completion_tokens : Option Nat
  total_tokens : Option Nat
  cached_tokens : Option Nat
deriving DecidableEq

/-- The canonical usage record (`usageMetadata`). -/
structure UsageMeta where
  promptTokenCount : Nat
  candidatesTokenCount : Nat
  totalTokenCount : Nat
  cachedContentTokenCount : Nat
deriving DecidableEq

/-- `Math.round` on a nonnegative value (JavaScript rounds half towards
positive infinity); JS double arithmetic is modelled over `ℚ`. -/
def mathRound (q : ℚ) : ℤ := ⌊q + 1 / 2⌋

/-- Embedding of the usage-normalization block shared verbatim by
`convertToGeminiFormat` (lines 1648-1673) and
`convertStreamChunkToGeminiFormat` (lines 1832-1857) of
`openaiContentGenerator.ts`: `x || 0` reads, then a 70/30 split estimate
when only a positive total is reported. -/
def normalizeOpenAIUsage (u : OAUsage) : UsageMeta :=
  let promptTokens := u.prompt_tokens.getD 0
  let completionTokens := u.completion_tokens.getD 0
  let totalTokens := u.total_tokens.getD 0
  let cachedTokens := u.cached_tokens.getD 0
  let estimate := 0 < totalTokens ∧ promptTokens = 0 ∧ completionTokens = 0
  let finalPromptTokens :=
    if estimate then (mathRound ((totalTokens : ℚ) * (7 / 10))).toNat else promptTokens
  let finalCompletionTokens :=
    if estimate then (mathRound ((totalTokens : ℚ) * (3 / 10))).toNat else completionTokens
  ⟨finalPromptTokens, finalCompletionTokens, totalTokens, cachedTokens⟩

example :
    normalizeOpenAIUsage ⟨none, none, some 100, none⟩ = ⟨70, 30, 100, 0⟩ := by
  norm_num [normalizeOpenAIUsage, mathRound]
  decide

example :
    normalizeOpenAIUsage ⟨some 11, some 22, some 33, some 4⟩ = ⟨11, 22, 33, 4⟩ := by
  norm_num [normalizeOpenAIUsage]

/-! ## Schema sanitizers / parameter-schema converters -/

/-- Truthiness of a possibly-absent property. -/
def jsTruthyOpt (o : Option Json) : Bool :=
  match o with
  | some v => v.truthy
  | none => false

/-- `typeof v === 'object'` (true for `null`, arrays and objects). -/
def isObjectTypeof (v : Json) : Bool :=
  match v with
  | .null => true
  | .arr _ => true
  | .obj _ => true
  | _ => false

/-- JavaScript property assignment `o[k] = v`: replace in place if the key
exists, otherwise append. -/
def setField : List (String × Json) → String → Json → List (String × Json)
  | [], k, v => [(k, v)]
  | (k', v') :: rest, k, v =>
    if k' = k then (k, v) :: rest else (k', v') :: setField rest k v

/-- JavaScript `delete o[k]`. -/
def delField : List (String × Json) → String → List (String × Json)
  | [], _ => []
  | (k', v') :: rest, k => if k' = k then delField rest k else (k', v') :: delField rest k

/-- Model of `String.prototype.toLowerCase` (basic-latin lowering, which
is all these code paths rely on). -/
def jsToLower (s : String) : String := String.mk (s.data.map Char.toLower)

/-- Parse an optionally-signed decimal integer string. This models
`Number(s)` / `parseInt(s, 10)` for the integer-valued strings observed
here (consistent with JSON numbers being modelled as integers); other
strings are treated as uncoercible. -/
def decStrToInt (s : String) : Option Int :=
  match s.toList with
  | [] => none
  | '-' :: ds =>
    if ds ≠ [] ∧ ds.all Char.isDigit then some (-(digitsToNat ds : Int)) else none
  | ds => if ds.all Char.isDigit then some (digitsToNat ds) else none

/-- Coerce a numeric-looking string to a number (the
`minimum`/`maximum`/`multipleOf` and `minLength`/`maxLength`/`minItems`/
`maxItems` branches of `convertGeminiParametersToOpenAI`; `Number` and
`parseInt` coincide on the integer strings of this model). -/
def numCoerce (v : Json) : Json :=
  match v with
  | .str s =>
    match decStrToInt s with
    | some n => .num n
    | none => .str s
  | _ => v

/-- The `key === 'type'` branch of `convertGeminiParametersToOpenAI`
(lines 847-876) and `convertGeminiParametersToBedrock` (lines 1581-1595):
null/undefined becomes `"object"`, an array type is replaced by its first
entry that is a string whose lowercase form is not `"null"` (lowercased;
`"object"` if none), and a string type is lowercased (the
`integer`/`number` special cases of the OpenAI variant reduce to
lowercasing). -/
def convertTypeValue (v : Json) : Json :=
  match v with
  | .null => .str "object"
  | .arr es =>
    match es.find? (fun t =>
      match t with
      | .str s => jsToLower s ≠ "null"
      | _ => false) with
    | some (.str s) => .str (jsToLower s)
    | _ => .str "object"
  | .str s => .str (jsToLower s)
  | other => other

mutual

/-- The recursive `convertTypes` helper of
`convertGeminiParametersToOpenAI` (`openaiContentGenerator.ts`,
lines 836-913). -/
def convTypesO : Json → Json
  | .obj fields =>
    let newFields := convFieldsO fields
    .obj
      (if jsTruthyOpt (lookupF newFields "properties") && !jsTruthyOpt (lookupF newFields "type") then
        setField newFields "type" (.str "object")
      else newFields)
  | .arr es => .arr (convElemsO es)
  | other => other

/-- Per-entry handling of `convertTypes` (OpenAI variant). -/
def convFieldsO : List (String × Json) → List (String × Json)
  | [] => []
  | (k, v) :: rest =>
    let v' :=
      if k = "type" then convertTypeValue v
      else if k = "minimum" ∨ k = "maximum" ∨ k = "multipleOf" then numCoerce v
      else if k = "minLength" ∨ k = "maxLength" ∨ k = "minItems" ∨ k = "maxItems" then
        numCoerce v
      else if isObjectTypeof v then convTypesO v
      else v
    (k, v') :: convFieldsO rest

/-- Array elements are mapped through `convertTypes` (OpenAI variant). -/
def convElemsO : List Json → List Json
  | [] => []
  | e :: rest => convTypesO e :: convElemsO rest

end

/-- Embedding of `convertGeminiParametersToOpenAI`
(`openaiContentGenerator.ts`, lines 825-938), taking the fields of the
parameter-schema object (the TypeScript signature takes an object; the
deep copy `JSON.parse(JSON.stringify(·))` is the identity here). After
recursion the root `type` is forced to `"object"` when missing/null/array,
a spot lowercase normalization runs, and `properties` defaults to `{}`. -/
def convertGeminiParametersToOpenAI (fields : List (String × Json)) : Json :=
  match convTypesO (.obj fields) with
  | .obj newFields =>
    let t := lookupF newFields "type"
    let f1 :=
      if !jsTruthyOpt t || (match t with | some (.arr _) => true | _ => false) then
        setField newFields "type" (.str "object")
      else newFields
    let f2 :=
      match lookupF f1 "type" with
      | some (.str s) =>
        if s ≠ "object" ∧ jsToLower s = "object" then setField f1 "type" (.str "object")
        else f1
      | _ => f1
    let f3 :=
      if !jsTruthyOpt (lookupF f2 "properties") then setField f2 "properties" (.obj [])
      else f2
    .obj f3
  | j => j

mutual

/-- The recursive `convertTypes` helper of
`convertGeminiParametersToBedrock` (`bedrockContentGenerator.ts`,
lines 1570-1608); identical to the OpenAI variant except that it has no
numeric-string coercion branches. -/
def convTypesB : Json → Json
  | .obj fields =>
    let newFields := convFieldsB fields
    .obj
      (if jsTruthyOpt (lookupF newFields "properties") && !jsTruthyOpt (lookupF newFields "type") then
        setField newFields "type" (.str "object")
      else newFields)
  | .arr es => .arr (convElemsB es)
  | other => other

/-- Per-entry handling of `convertTypes` (Bedrock variant). -/
def convFieldsB : List (String × Json) → List (String × Json)
  | [] => []
  | (k, v) :: rest =>
    let v' :=
      if k = "type" then convertTypeValue v
      else if isObjectTypeof v then convTypesB v
      else v
    (k, v') :: convFieldsB rest

/-- Array elements are mapped through `convertTypes` (Bedrock variant). -/
def convElemsB : List Json → List Json
  | [] => []
  | e :: rest => convTypesB e :: convElemsB rest

end

/-- Embedding of `convertGeminiParametersToBedrock`
(`bedrockContentGenerator.ts`, lines 1561-1624), taking the fields of the
parameter-schema object. -/
def convertGeminiParametersToBedrock (fields : List (String × Json)) : Json :=
  match convTypesB (.obj fields) with
  | .obj newFields =>
    let t := lookupF newFields "type"
    let f1 :=
      if !jsTruthyOpt t || (match t with | some (.arr _) => true | _ => false) then
        setField newFields "type" (.str "object")
      else newFields
    let f2 :=
      if !jsTruthyOpt (lookupF f1 "properties") then setField f1 "properties" (.obj [])
      else f1
    .obj f2
  | j => j

/-- The `obj.type = obj.type.find((t) => t !== 'null') || 'string'` fix of
`sanitizeJsonSchema` (strict `!==` against the string `'null'`; a falsy or
absent find result yields `"string"`). -/
def findNonNullType (es : List Json) : Json :=
  match es.find? (fun t =>
    match t with
    | .str s => s ≠ "null"
    | _ => true) with
  | some v => if v.truthy then v else .str "string"
  | none => .str "string"

mutual

/-- The recursive `traverse` helper of `sanitizeJsonSchema`
(`bedrockContentGenerator.ts`, lines 730-749): fix array-valued `type`
fields (without lowercasing), delete `additionalProperties`, and recurse
into object-typed members. -/
def sanTraverse : Json → Json
  | .obj fields => .obj (sanFields fields)
  | .arr es => .arr (sanElems es)
  | other => other

/-- Per-entry handling of `traverse`. -/
def sanFields : List (String × Json) → List (String × Json)
  | [] => []
  | (k, v) :: rest =>
    if k = "additionalProperties" then sanFields rest
    else if k = "type" then
      (match v with
       | .arr es => (k, findNonNullType es)
       | _ => (k, if isObjectTypeof v then sanTraverse v else v)) :: sanFields rest
    else (k, if isObjectTypeof v then sanTraverse v else v) :: sanFields rest

/-- Array elements under `traverse` (`for..in` over indices). -/
def sanElems : List Json → List Json
  | [] => []
  | e :: rest => (if isObjectTypeof e then sanTraverse e else e) :: sanElems rest

end

/-- Embedding of `sanitizeJsonSchema` (`bedrockContentGenerator.ts`,
lines 709-753), taking the fields of the schema object. A missing/falsy
root `type` is set to `"object"` and the tree is traversed; a truthy root
`type` other than the string `"object"` causes the whole (untraversed)
schema to be wrapped under a `value` property. -/
def sanitizeJsonSchema (fields : List (String × Json)) : Json :=
  let t := lookupF fields "type"
  if !jsTruthyOpt t then .obj (sanFields (setField fields "type" (.str "object")))
  else if (match t with | some (.str s) => s == "object" | _ => false) then
    .obj (sanFields fields)
  else
    .obj
      [("type", .str "object"), ("properties", .obj [("value", .obj fields)]),
        ("required", .arr [.str "value"])]

example :
    sanitizeJsonSchema [("type", .arr [.str "string", .str "null"])] =
      .obj
        [("type", .str "object"),
          ("properties", .obj [("value", .obj [("type", .arr [.str "string", .str "null"])])]),
          ("required", .arr [.str "value"])] := rfl

example :
    sanitizeJsonSchema
        [("type", .str "object"), ("properties", .obj [("a", .obj [("type", .null)])])] =
      .obj [("type", .str "object"), ("properties", .obj [("a", .obj [("type", .null)])])] := rfl

example :
    convertGeminiParametersToOpenAI
        [("type", .arr [.str "OBJECT", .str "null"]), ("properties", .obj [])] =
      .obj [("type", .str "object"), ("properties", .obj [])] := rfl

/-! ## OpenAI-format messages and the conversation hygiene pass -/

/-- A provider-native tool call (`OpenAI.Chat.ChatCompletionMessageToolCall`,
always of `type: 'function'`): `id`, function name and raw argument string. -/
structure OAToolCall where
  id : String
  name : String
  args : String
deriving DecidableEq

/-- A provider-native chat message, as produced by `convertToOpenAIFormat`.
`assistant` carries optional string content, an optional `tool_calls`
array (an absent-or-null field is `none`; note that `some []` is truthy in
JavaScript) and optional `reasoning_details` metadata. A `tool` message
carries `tool_call_id` and content. -/
inductive OAMsg where
  | system (content : String) : OAMsg
  | user (content : String) : OAMsg
  | assistant (content : Option String) (toolCalls : Option (List OAToolCall))
      (rd : Option Json) : OAMsg
  | tool (toolCallId : String) (content : String) : OAMsg

/-- JavaScript whitespace test for the characters `trim` strips here. -/
def isWsChar (c : Char) : Bool :=
  c = ' ' ∨ c = '\t' ∨ c = '\n' ∨ c = '\r'

/-- Model of `String.prototype.trim` (common whitespace). -/
def jsTrim (s : String) : String :=
  String.mk (((s.data.dropWhile isWsChar).reverse.dropWhile isWsChar).reverse)

/-- `typeof content === 'string' && content.trim()` — the message has
non-blank string content. -/
def hasText : Option String → Bool
  | some s => jsTrim s != ""
  | none => false

/-- The truthy tool-call ids contributed by one message to the first pass
of `cleanOrphanedToolCalls` (`if (toolCall.id) toolCallIds.add(...)`). -/
def msgCallIds : OAMsg → List String
  | .assistant _ (some l) _ => (l.filter (fun tc => tc.id != "")).map (fun tc => tc.id)
  | _ => []

/-- All collected tool-call ids (first pass of `cleanOrphanedToolCalls`). -/
def toolCallIdsOf (ms : List OAMsg) : List String := ms.flatMap msgCallIds

/-- The truthy tool-response id contributed by one message. -/
def msgRespIds : OAMsg → List String
  | .tool id _ => if id != "" then [id] else []
  | _ => []

/-- All collected tool-response ids (first pass of
`cleanOrphanedToolCalls`). -/
def toolResponseIdsOf (ms : List OAMsg) : List String := ms.flatMap msgRespIds

/-- `message.tool_calls.filter((tc) => tc.id && responseIds.has(tc.id))`. -/
def validCallsOf (respIds : List String) (l : List OAToolCall) : List OAToolCall :=
  l.filter (fun tc => tc.id != "" && respIds.contains tc.id)

/-- Second pass of `cleanOrphanedToolCalls` (lines 1358-1418): filter
orphaned tool calls out of assistant messages (dropping the message when
no calls survive and it has no non-blank text), and keep a tool response
only if a matching call id exists and this `tool_call_id` has not been
kept before (`added` accumulates the kept ids). A tool message with a
falsy (empty) `tool_call_id` falls into the keep-as-is branch. -/
def pass2 (callIds respIds : List String) : List String → List OAMsg → List OAMsg
  | _, [] => []
  | added, m :: rest =>
    match m with
    | .assistant c (some l) rd =>
      let valid := validCallsOf respIds l
      if !valid.isEmpty then .assistant c (some valid) rd :: pass2 callIds respIds added rest
      else if hasText c then .assistant c none rd :: pass2 callIds respIds added rest
      else pass2 callIds respIds added rest
    | .tool id content =>
      if id != "" then
        if callIds.contains id && !added.contains id then
          .tool id content :: pass2 callIds respIds (id :: added) rest
        else pass2 callIds respIds added rest
      else .tool id content :: pass2 callIds respIds added rest
    | other => other :: pass2 callIds respIds added rest

/-- Final validation pass of `cleanOrphanedToolCalls` (lines 1420-1485):
re-filter assistant tool calls against the responses that survived the
second pass; all other messages (tool responses included) pass through. -/
def finalFilter (respIds : List String) : List OAMsg → List OAMsg
  | [] => []
  | m :: rest =>
    match m with
    | .assistant c (some l) rd =>
      let valid := validCallsOf respIds l
      if !valid.isEmpty then .assistant c (some valid) rd :: finalFilter respIds rest
      else if hasText c then .assistant c none rd :: finalFilter respIds rest
      else finalFilter respIds rest
    | other => other :: finalFilter respIds rest

/-- Embedding of `cleanOrphanedToolCalls` (`openaiContentGenerator.ts`,
lines 1326-1488). -/
def cleanOrphanedToolCalls (ms : List OAMsg) : List OAMsg :=
  let cleaned := pass2 (toolCallIdsOf ms) (toolResponseIdsOf ms) [] ms
  finalFilter (toolResponseIdsOf cleaned) cleaned

/-- Embedding of `mergeConsecutiveAssistantMessages`
(`openaiContentGenerator.ts`, lines 1493-1544): adjacent assistant
messages are merged left-associatively — contents joined with `''` after
dropping falsy pieces (`null` when the result is empty), tool-call lists
concatenated (the merged message keeps the earlier message's `tool_calls`
field when the concatenation is empty, and its `reasoning_details`).
`contentMerge` is the merged content: the pieces joined with `''` after
dropping falsy ones, or `null` when that is empty. -/
def contentMerge (c1 c2 : Option String) : Option String :=
  if String.join ([c1.getD "", c2.getD ""].filter (fun s => s != "")) = "" then none
  else some (String.join ([c1.getD "", c2.getD ""].filter (fun s => s != "")))

/-- The merged `tool_calls` field: the concatenation when it is nonempty,
otherwise the earlier message's field. -/
def callsMerge (t1 t2 : Option (List OAToolCall)) : Option (List OAToolCall) :=
  if (t1.getD [] ++ t2.getD []).isEmpty then t1 else some (t1.getD [] ++ t2.getD [])

def mergeMsgs : List OAMsg → List OAMsg
  | [] => []
  | [m] => [m]
  | .assistant c1 t1 rd1 :: .assistant c2 t2 _ :: rest =>
    mergeMsgs (.assistant (contentMerge c1 c2) (callsMerge t1 t2) rd1 :: rest)
  | m1 :: m2 :: rest => m1 :: mergeMsgs (m2 :: rest)
termination_by ms => ms.length

/-- The Conversation Hygiene Pass as run by `convertToOpenAIFormat`
(lines 1175-1178): orphan/duplicate cleanup followed by merging of
consecutive assistant messages. -/
def hygienePass (ms : List OAMsg) : List OAMsg := mergeMsgs (cleanOrphanedToolCalls ms)

example :
    cleanOrphanedToolCalls [.assistant (some "hi") (some [⟨"call_1", "t", ""⟩]) none] =
      [.assistant (some "hi") none none] := rfl

example : cleanOrphanedToolCalls [.assistant none (some [⟨"call_1", "t", ""⟩]) none] = [] := rfl

example :
    cleanOrphanedToolCalls
        [.assistant none (some [⟨"call_1", "t", ""⟩]) none, .tool "call_1" "r1",
          .tool "call_1" "r2"] =
      [.assistant none (some [⟨"call_1", "t", ""⟩]) none, .tool "call_1" "r1"] := rfl

example :
    cleanOrphanedToolCalls [.tool "" "a", .tool "" "b"] = [.tool "" "a", .tool "" "b"] := rfl

/-! Basic cons equations (all rfl). -/

theorem respIds_cons (m : OAMsg) (ms : List OAMsg) :
    toolResponseIdsOf (m :: ms) = msgRespIds m ++ toolResponseIdsOf ms := rfl

theorem callIds_cons (m : OAMsg) (ms : List OAMsg) :
    toolCallIdsOf (m :: ms) = msgCallIds m ++ toolCallIdsOf ms := rfl

theorem pass2_nil (K R : List String) (added : List String) : pass2 K R added [] = [] := rfl

theorem pass2_cons_assistant_some (K R added : List String) (c : Option String)
    (l : List OAToolCall) (rd : Option Json) (rest : List OAMsg) :
    pass2 K R added (.assistant c (some l) rd :: rest) =
      if !(validCallsOf R l).isEmpty then
        .assistant c (some (validCallsOf R l)) rd :: pass2 K R added rest
      else if hasText c then .assistant c none rd :: pass2 K R added rest
      else pass2 K R added rest := rfl

theorem pass2_cons_tool (K R added : List String) (id content : String) (rest : List OAMsg) :
    pass2 K R added (.tool id content :: rest) =
      if id != "" then
        if K.contains id && !added.contains id then
          .tool id content :: pass2 K R (id :: added) rest
        else pass2 K R added rest
      else .tool id content :: pass2 K R added rest := rfl

theorem pass2_cons_assistant_none (K R added : List String) (c : Option String)
    (rd : Option Json) (rest : List OAMsg) :
    pass2 K R added (.assistant c none rd :: rest) =
      .assistant c none rd :: pass2 K R added rest := rfl

theorem pass2_cons_system (K R added : List String) (s : String) (rest : List OAMsg) :
    pass2 K R added (.system s :: rest) = .system s :: pass2 K R added rest := rfl

theorem pass2_cons_user (K R added : List String) (s : String) (rest : List OAMsg) :
    pass2 K R added (.user s :: rest) = .user s :: pass2 K R added rest := rfl

theorem finalFilter_nil (R : List String) : finalFilter R [] = [] := rfl

theorem finalFilter_cons_assistant_some (R : List String) (c : Option String)
    (l : List OAToolCall) (rd : Option Json) (rest : List OAMsg) :
    finalFilter R (.assistant c (some l) rd :: rest) =
      if !(validCallsOf R l).isEmpty then
        .assistant c (some (validCallsOf R l)) rd :: finalFilter R rest
      else if hasText c then .assistant c none rd :: finalFilter R rest
      else finalFilter R rest := rfl

theorem finalFilter_cons_assistant_none (R : List String) (c : Option String)
    (rd : Option Json) (rest : List OAMsg) :
    finalFilter R (.assistant c none rd :: rest) =
      .assistant c none rd :: finalFilter R rest := rfl

theorem finalFilter_cons_tool (R : List String) (id content : String) (rest : List OAMsg) :
    finalFilter R (.tool id content :: rest) = .tool id content :: finalFilter R rest := rfl

theorem finalFilter_cons_system (R : List String) (s : String) (rest : List OAMsg) :
    finalFilter R (.system s :: rest) = .system s :: finalFilter R rest := rfl

theorem finalFilter_cons_user (R : List String) (s : String) (rest : List OAMsg) :
    finalFilter R (.user s :: rest) = .user s :: finalFilter R rest := rfl

theorem validCallsOf_mem {R : List String} {l : List OAToolCall} {tc : OAToolCall} :
    tc ∈ validCallsOf R l ↔ tc ∈ l ∧ (tc.id != "" && R.contains tc.id) = true := by
  simp [validCallsOf, List.mem_filter]

theorem validCallsOf_eq_self {R : List String} {l : List OAToolCall}
    (h : ∀ tc ∈ l, (tc.id != "" && R.contains tc.id) = true) :
    validCallsOf R l = l := List.filter_eq_self.mpr h

theorem finalFilter_tool_mem {R : List String} {ms : List OAMsg} {id c : String} :
    OAMsg.tool id c ∈ finalFilter R ms ↔ OAMsg.tool id c ∈ ms := by
  induction ms with
  | nil => rw [finalFilter_nil]
  | cons m rest ih =>
    cases m with
    | assistant c2 t rd =>
      cases t with
      | some l =>
        rw [finalFilter_cons_assistant_some]
        by_cases hv : (!(validCallsOf R l).isEmpty) = true
        · rw [if_pos hv]
          simp [ih]
        · rw [if_neg hv]
          by_cases htx : hasText c2 = true
          · rw [if_pos htx]
            simp [ih]
          · rw [if_neg htx]
            simp [ih]
      | none =>
        rw [finalFilter_cons_assistant_none]
        simp [ih]
    | tool id2 c3 =>
      rw [finalFilter_cons_tool]
      simp [ih]
    | system s =>
      rw [finalFilter_cons_system]
      simp [ih]
    | user s =>
      rw [finalFilter_cons_user]
      simp [ih]

theorem finalFilter_respIds (R : List String) (ms : List OAMsg) :
    toolResponseIdsOf (finalFilter R ms) = toolResponseIdsOf ms := by
  induction ms with
  | nil => rfl
  | cons m rest ih =>
    cases m with
    | assistant c2 t rd =>
      cases t with
      | some l =>
        rw [finalFilter_cons_assistant_some]
        by_cases hv : (!(validCallsOf R l).isEmpty) = true
        · rw [if_pos hv]
          rw [respIds_cons, respIds_cons]
          simp [msgRespIds, ih]
        · rw [if_neg hv]
          by_cases htx : hasText c2 = true
          · rw [if_pos htx]
            rw [respIds_cons, respIds_cons]
            simp [msgRespIds, ih]
          · rw [if_neg htx]
            rw [respIds_cons]
            simp [msgRespIds, ih]
      | none =>
        rw [finalFilter_cons_assistant_none, respIds_cons, respIds_cons]
        simp [msgRespIds, ih]
    | tool id2 c3 =>
      rw [finalFilter_cons_tool, respIds_cons, respIds_cons]
      simp [ih]
    | system s =>
      rw [finalFilter_cons_system, respIds_cons, respIds_cons]
      simp [msgRespIds, ih]
    | user s =>
      rw [finalFilter_cons_user, respIds_cons, respIds_cons]
      simp [msgRespIds, ih]

theorem pass2_tool_sub {K R : List String} :
    ∀ {ms : List OAMsg} {added : List String} {id c : String},
      OAMsg.tool id c ∈ pass2 K R added ms → id ≠ "" →
      K.contains id = true ∧ OAMsg.tool id c ∈ ms := by
  intro ms
  induction ms with
  | nil =>
    intro added id c h _
    rw [pass2_nil] at h
    cases h
  | cons m rest ih =>
    intro added id c h hne
    cases m with
    | assistant c2 t rd =>
      cases t with
      | some l =>
        rw [pass2_cons_assistant_some] at h
        by_cases hv : (!(validCallsOf R l).isEmpty) = true
        · rw [if_pos hv] at h
          rcases List.mem_cons.mp h with heq | hm
          · exact OAMsg.noConfusion heq
          · obtain ⟨h1, h2⟩ := ih hm hne
            exact ⟨h1, List.mem_cons_of_mem _ h2⟩
        · rw [if_neg hv] at h
          by_cases htx : hasText c2 = true
          · rw [if_pos htx] at h
            rcases List.mem_cons.mp h with heq | hm
            · exact OAMsg.noConfusion heq
            · obtain ⟨h1, h2⟩ := ih hm hne
              exact ⟨h1, List.mem_cons_of_mem _ h2⟩
          · rw [if_neg htx] at h
            obtain ⟨h1, h2⟩ := ih h hne
            exact ⟨h1, List.mem_cons_of_mem _ h2⟩
      | none =>
        rw [pass2_cons_assistant_none] at h
        rcases List.mem_cons.mp h with heq | hm
        · exact OAMsg.noConfusion heq
        · obtain ⟨h1, h2⟩ := ih hm hne
          exact ⟨h1, List.mem_cons_of_mem _ h2⟩
    | tool id2 c3 =>
      rw [pass2_cons_tool] at h
      by_cases h2 : (id2 != "") = true
      · rw [if_pos h2] at h
        by_cases h3 : (K.contains id2 && !added.contains id2) = true
        · rw [if_pos h3] at h
          rcases List.mem_cons.mp h with heq | hm
          · injection heq with e1 e2
            subst e1
            subst e2
            exact ⟨band_left h3, List.mem_cons_self _ _⟩
          · obtain ⟨h4, h5⟩ := ih hm hne
            exact ⟨h4, List.mem_cons_of_mem _ h5⟩
        · rw [if_neg h3] at h
          obtain ⟨h4, h5⟩ := ih h hne
          exact ⟨h4, List.mem_cons_of_mem _ h5⟩
      · rw [if_neg h2] at h
        rcases List.mem_cons.mp h with heq | hm
        · injection heq with e1 e2
          subst e1
          exfalso
          apply hne
          by_contra hne2
          exact h2 (bne_of_ne hne2)
        · obtain ⟨h4, h5⟩ := ih hm hne
          exact ⟨h4, List.mem_cons_of_mem _ h5⟩
    | system s =>
      rw [pass2_cons_system] at h
      rcases List.mem_cons.mp h with heq | hm
      · exact OAMsg.noConfusion heq
      · obtain ⟨h1, h2⟩ := ih hm hne
        exact ⟨h1, List.mem_cons_of_mem _ h2⟩
    | user s =>
      rw [pass2_cons_user] at h
      rcases List.mem_cons.mp h with heq | hm
      · exact OAMsg.noConfusion heq
      · obtain ⟨h1, h2⟩ := ih hm hne
        exact ⟨h1, List.mem_cons_of_mem _ h2⟩

theorem pass2_respIds_aux (K R : List String) :
    ∀ (ms : List OAMsg) (added : List String),
      (toolResponseIdsOf (pass2 K R added ms)).Nodup ∧
        ∀ id ∈ toolResponseIdsOf (pass2 K R added ms), added.contains id = false := by
  intro ms
  induction ms with
  | nil =>
    intro added
    refine ⟨by rw [pass2_nil]; exact List.nodup_nil, ?_⟩
    intro id h
    rw [pass2_nil] at h
    cases h
  | cons m rest ih =>
    intro added
    cases m with
    | assistant c t rd =>
      cases t with
      | some l =>
        rw [pass2_cons_assistant_some]
        by_cases hv : (!(validCallsOf R l).isEmpty) = true
        · rw [if_pos hv]
          rw [respIds_cons]
          simpa [msgRespIds] using ih added
        · rw [if_neg hv]
          by_cases htx : hasText c = true
          · rw [if_pos htx]
            rw [respIds_cons]
            simpa [msgRespIds] using ih added
          · rw [if_neg htx]
            exact ih added
      | none =>
        rw [pass2_cons_assistant_none, respIds_cons]
        simpa [msgRespIds] using ih added
    | tool id2 c3 =>
      rw [pass2_cons_tool]
      by_cases h2 : (id2 != "") = true
      · rw [if_pos h2]
        by_cases h3 : (K.contains id2 && !added.contains id2) = true
        · rw [if_pos h3]
          rw [respIds_cons]
          have hrid : msgRespIds (OAMsg.tool id2 c3) = [id2] := by
            simp [msgRespIds, h2]
          rw [hrid]
          obtain ⟨ihn, iha⟩ := ih (id2 :: added)
          constructor
          · refine List.nodup_cons.mpr ⟨?_, ihn⟩
            intro hmem
            have := iha id2 hmem
            rw [List.contains_cons] at this
            have := bor_false_left this
            simp at this
          · intro id hmem
            rcases List.mem_cons.mp hmem with heq | hm
            · subst heq
              exact bnot_true (band_right h3)
            · have := iha id hm
              rw [List.contains_cons] at this
              exact bor_false_right this
        · rw [if_neg h3]
          exact ih added
      · rw [if_neg h2]
        rw [respIds_cons]
        have hrid : msgRespIds (OAMsg.tool id2 c3) = [] := by
          simp [msgRespIds]
          by_contra hc
          exact h2 (bne_of_ne hc)
        rw [hrid]
        simpa using ih added
    | system s =>
      rw [pass2_cons_system, respIds_cons]
      simpa [msgRespIds] using ih added
    | user s =>
      rw [pass2_cons_user, respIds_cons]
      simpa [msgRespIds] using ih added

theorem finalFilter_assistant_calls {R : List String} :
    ∀ {ms : List OAMsg} {c : Option String} {l : List OAToolCall} {rd : Option Json},
      OAMsg.assistant c (some l) rd ∈ finalFilter R ms →
      l ≠ [] ∧ ∀ tc ∈ l, (tc.id != "" && R.contains tc.id) = true := by
  intro ms
  induction ms with
  | nil =>
    intro c l rd h
    rw [finalFilter_nil] at h
    cases h
  | cons m rest ih =>
    intro c l rd h
    cases m with
    | assistant c2 t rd2 =>
      cases t with
      | some l2 =>
        rw [finalFilter_cons_assistant_some] at h
        by_cases hv : (!(validCallsOf R l2).isEmpty) = true
        · rw [if_pos hv] at h
          rcases List.mem_cons.mp h with heq | hm
          · injection heq with e1 e2 e3
            injection e2 with e2
            subst e2
            refine ⟨ne_nil_of_isEmpty_false hv, ?_⟩
            intro tc htc
            exact (validCallsOf_mem.mp htc).2
          · exact ih hm
        · rw [if_neg hv] at h
          by_cases htx : hasText c2 = true
          · rw [if_pos htx] at h
            rcases List.mem_cons.mp h with heq | hm
            · injection heq with e1 e2 e3
              exact Option.noConfusion e2
            · exact ih hm
          · rw [if_neg htx] at h
            exact ih h
      | none =>
        rw [finalFilter_cons_assistant_none] at h
        rcases List.mem_cons.mp h with heq | hm
        · injection heq with e1 e2 e3
          exact Option.noConfusion e2
        · exact ih hm
    | tool id2 c3 =>
      rw [finalFilter_cons_tool] at h
      rcases List.mem_cons.mp h with heq | hm
      · exact OAMsg.noConfusion heq
      · exact ih hm
    | system s =>
      rw [finalFilter_cons_system] at h
      rcases List.mem_cons.mp h with heq | hm
      · exact OAMsg.noConfusion heq
      · exact ih hm
    | user s =>
      rw [finalFilter_cons_user] at h
      rcases List.mem_cons.mp h with heq | hm
      · exact OAMsg.noConfusion heq
      · exact ih hm

theorem mem_respIds_of_tool :
    ∀ {ms : List OAMsg} {id c : String}, OAMsg.tool id c ∈ ms → id ≠ "" →
      id ∈ toolResponseIdsOf ms := by
  intro ms
  induction ms with
  | nil =>
    intro id c h _
    cases h
  | cons m rest ih =>
    intro id c h hne
    rw [respIds_cons]
    rcases List.mem_cons.mp h with heq | hm
    · subst heq
      refine List.mem_append_left _ ?_
      simp [msgRespIds, bne_of_ne hne]
    · exact List.mem_append_right _ (ih hm hne)

theorem mem_callIds_intro :
    ∀ {ms : List OAMsg} {c : Option String} {l : List OAToolCall} {rd : Option Json}
      {tc : OAToolCall}, OAMsg.assistant c (some l) rd ∈ ms → tc ∈ l → tc.id ≠ "" →
      tc.id ∈ toolCallIdsOf ms := by
  intro ms
  induction ms with
  | nil =>
    intro c l rd tc h _ _
    cases h
  | cons m rest ih =>
    intro c l rd tc h htc hne
    rw [callIds_cons]
    rcases List.mem_cons.mp h with heq | hm
    · subst heq
      refine List.mem_append_left _ ?_
      simp only [msgCallIds]
      exact List.mem_map_of_mem _ (List.mem_filter.mpr ⟨htc, bne_of_ne hne⟩)
    · exact List.mem_append_right _ (ih hm htc hne)

theorem mem_callIds_elim :
    ∀ {ms : List OAMsg} {id : String}, id ∈ toolCallIdsOf ms →
      ∃ c l rd tc, OAMsg.assistant c (some l) rd ∈ ms ∧ tc ∈ l ∧ tc.id = id ∧ tc.id ≠ "" := by
  intro ms
  induction ms with
  | nil =>
    intro id h
    cases h
  | cons m rest ih =>
    intro id h
    rw [callIds_cons] at h
    rcases List.mem_append.mp h with hm | hm
    · cases m with
      | assistant c t rd =>
        cases t with
        | some l =>
          simp only [msgCallIds] at hm
          obtain ⟨tc, htc, hid⟩ := List.mem_map.mp hm
          obtain ⟨htcl, htcne⟩ := List.mem_filter.mp htc
          exact ⟨c, l, rd, tc, List.mem_cons_self _ _, htcl, hid, ne_of_bne htcne⟩
        | none => cases hm
      | tool id2 c3 => cases hm
      | system s => cases hm
      | user s => cases hm
    · obtain ⟨c, l, rd, tc, h1, h2, h3, h4⟩ := ih hm
      exact ⟨c, l, rd, tc, List.mem_cons_of_mem _ h1, h2, h3, h4⟩

theorem pass2_assistant_keep {K R : List String} :
    ∀ {ms : List OAMsg} {added : List String} {c : Option String} {l : List OAToolCall}
      {rd : Option Json} {tc : OAToolCall},
      OAMsg.assistant c (some l) rd ∈ ms → tc ∈ l →
      (tc.id != "" && R.contains tc.id) = true →
      ∃ l2, OAMsg.assistant c (some l2) rd ∈ pass2 K R added ms ∧ tc ∈ l2 := by
  intro ms
  induction ms with
  | nil =>
    intro added c l rd tc h _ _
    cases h
  | cons m rest ih =>
    intro added c l rd tc h htc hcond
    rcases List.mem_cons.mp h with heq | hm
    · subst heq
      rw [pass2_cons_assistant_some]
      have htv : tc ∈ validCallsOf R l := validCallsOf_mem.mpr ⟨htc, hcond⟩
      rw [if_pos (bnot_of_false (isEmpty_false_of_mem htv))]
      exact ⟨validCallsOf R l, List.mem_cons_self _ _, htv⟩
    · cases m with
      | assistant c2 t rd2 =>
        cases t with
        | some l2 =>
          rw [pass2_cons_assistant_some]
          by_cases hv : (!(validCallsOf R l2).isEmpty) = true
          · rw [if_pos hv]
            obtain ⟨l3, hmem3, htc3⟩ := ih hm htc hcond
            exact ⟨l3, List.mem_cons_of_mem _ hmem3, htc3⟩
          · rw [if_neg hv]
            by_cases htx : hasText c2 = true
            · rw [if_pos htx]
              obtain ⟨l3, hmem3, htc3⟩ := ih hm htc hcond
              exact ⟨l3, List.mem_cons_of_mem _ hmem3, htc3⟩
            · rw [if_neg htx]
              exact ih hm htc hcond
        | none =>
          rw [pass2_cons_assistant_none]
          obtain ⟨l3, hmem3, htc3⟩ := ih hm htc hcond
          exact ⟨l3, List.mem_cons_of_mem _ hmem3, htc3⟩
      | tool id2 c3 =>
        rw [pass2_cons_tool]
        by_cases h2 : (id2 != "") = true
        · rw [if_pos h2]
          by_cases h3 : (K.contains id2 && !added.contains id2) = true
          · rw [if_pos h3]
            obtain ⟨l3, hmem3, htc3⟩ := ih hm htc hcond
            exact ⟨l3, List.mem_cons_of_mem _ hmem3, htc3⟩
          · rw [if_neg h3]
            exact ih hm htc hcond
        · rw [if_neg h2]
          obtain ⟨l3, hmem3, htc3⟩ := ih hm htc hcond
          exact ⟨l3, List.mem_cons_of_mem _ hmem3, htc3⟩
      | system s =>
        rw [pass2_cons_system]
        obtain ⟨l3, hmem3, htc3⟩ := ih hm htc hcond
        exact ⟨l3, List.mem_cons_of_mem _ hmem3, htc3⟩
      | user s =>
        rw [pass2_cons_user]
        obtain ⟨l3, hmem3, htc3⟩ := ih hm htc hcond
        exact ⟨l3, List.mem_cons_of_mem _ hmem3, htc3⟩

theorem finalFilter_assistant_keep {R : List String} :
    ∀ {ms : List OAMsg} {c : Option String} {l : List OAToolCall} {rd : Option Json}
      {tc : OAToolCall},
      OAMsg.assistant c (some l) rd ∈ ms → tc ∈ l →
      (tc.id != "" && R.contains tc.id) = true →
      ∃ l2, OAMsg.assistant c (some l2) rd ∈ finalFilter R ms ∧ tc ∈ l2 := by
  intro ms
  induction ms with
  | nil =>
    intro c l rd tc h _ _
    cases h
  | cons m rest ih =>
    intro c l rd tc h htc hcond
    rcases List.mem_cons.mp h with heq | hm
    · subst heq
      rw [finalFilter_cons_assistant_some]
      have htv : tc ∈ validCallsOf R l := validCallsOf_mem.mpr ⟨htc, hcond⟩
      rw [if_pos (bnot_of_false (isEmpty_false_of_mem htv))]
      exact ⟨validCallsOf R l, List.mem_cons_self _ _, htv⟩
    · cases m with
      | assistant c2 t rd2 =>
        cases t with
        | some l2 =>
          rw [finalFilter_cons_assistant_some]
          by_cases hv : (!(validCallsOf R l2).isEmpty) = true
          · rw [if_pos hv]
            obtain ⟨l3, hmem3, htc3⟩ := ih hm htc hcond
            exact ⟨l3, List.mem_cons_of_mem _ hmem3, htc3⟩
          · rw [if_neg hv]
            by_cases htx : hasText c2 = true
            · rw [if_pos htx]
              obtain ⟨l3, hmem3, htc3⟩ := ih hm htc hcond
              exact ⟨l3, List.mem_cons_of_mem _ hmem3, htc3⟩
            · rw [if_neg htx]
              exact ih hm htc hcond
        | none =>
          rw [finalFilter_cons_assistant_none]
          obtain ⟨l3, hmem3, htc3⟩ := ih hm htc hcond
          exact ⟨l3, List.mem_cons_of_mem _ hmem3, htc3⟩
      | tool id2 c3 =>
        rw [finalFilter_cons_tool]
        obtain ⟨l3, hmem3, htc3⟩ := ih hm htc hcond
        exact ⟨l3, List.mem_cons_of_mem _ hmem3, htc3⟩
      | system s =>
        rw [finalFilter_cons_system]
        obtain ⟨l3, hmem3, htc3⟩ := ih hm htc hcond
        exact ⟨l3, List.mem_cons_of_mem _ hmem3, htc3⟩
      | user s =>
        rw [finalFilter_cons_user]
        obtain ⟨l3, hmem3, htc3⟩ := ih hm htc hcond
        exact ⟨l3, List.mem_cons_of_mem _ hmem3, htc3⟩

theorem clean_eq (ms : List OAMsg) :
    cleanOrphanedToolCalls ms =
      finalFilter
        (toolResponseIdsOf (pass2 (toolCallIdsOf ms) (toolResponseIdsOf ms) [] ms))
        (pass2 (toolCallIdsOf ms) (toolResponseIdsOf ms) [] ms) := rfl

theorem clean_respIds (ms : List OAMsg) :
    toolResponseIdsOf (cleanOrphanedToolCalls ms) =
      toolResponseIdsOf (pass2 (toolCallIdsOf ms) (toolResponseIdsOf ms) [] ms) := by
  rw [clean_eq, finalFilter_respIds]

theorem clean_nodup (ms : List OAMsg) :
    (toolResponseIdsOf (cleanOrphanedToolCalls ms)).Nodup := by
  rw [clean_respIds]
  exact (pass2_respIds_aux (toolCallIdsOf ms) (toolResponseIdsOf ms) ms []).1

theorem clean_assistant_calls {ms : List OAMsg} {c : Option String} {l : List OAToolCall}
    {rd : Option Json} (h : OAMsg.assistant c (some l) rd ∈ cleanOrphanedToolCalls ms) :
    l ≠ [] ∧ ∀ tc ∈ l, tc.id ≠ "" ∧ tc.id ∈ toolResponseIdsOf (cleanOrphanedToolCalls ms) := by
  rw [clean_eq] at h
  obtain ⟨hne, hcond⟩ := finalFilter_assistant_calls h
  refine ⟨hne, ?_⟩
  intro tc htc
  have h3 := hcond tc htc
  refine ⟨ne_of_bne (band_left h3), ?_⟩
  rw [clean_respIds]
  exact List.elem_iff.mp (band_right h3)

theorem clean_tool_matched {ms : List OAMsg} {id c : String}
    (h : OAMsg.tool id c ∈ cleanOrphanedToolCalls ms) (hne : id ≠ "") :
    id ∈ toolCallIdsOf (cleanOrphanedToolCalls ms) := by
  rw [clean_eq] at h
  have hp : OAMsg.tool id c ∈ pass2 (toolCallIdsOf ms) (toolResponseIdsOf ms) [] ms :=
    finalFilter_tool_mem.mp h
  obtain ⟨hK, hms⟩ := pass2_tool_sub hp hne
  obtain ⟨c0, l0, rd0, tc, hmem, htcl, htcid, htcne⟩ := mem_callIds_elim (List.elem_iff.mp hK)
  have hidR : tc.id ∈ toolResponseIdsOf ms := by
    rw [htcid]
    exact mem_respIds_of_tool hms hne
  have hcond : (tc.id != "" && (toolResponseIdsOf ms).contains tc.id) = true :=
    band_intro (bne_of_ne htcne) (List.elem_iff.mpr hidR)
  obtain ⟨l1, hmem1, htc1⟩ := pass2_assistant_keep hmem htcl hcond
  have hidR2 :
      tc.id ∈ toolResponseIdsOf (pass2 (toolCallIdsOf ms) (toolResponseIdsOf ms) [] ms) := by
    rw [htcid]
    exact mem_respIds_of_tool hp hne
  have hcond2 :
      (tc.id != "" &&
        (toolResponseIdsOf
          (pass2 (toolCallIdsOf ms) (toolResponseIdsOf ms) [] ms)).contains tc.id) = true :=
    band_intro (bne_of_ne htcne) (List.elem_iff.mpr hidR2)
  obtain ⟨l2, hmem2, htc2⟩ := finalFilter_assistant_keep hmem1 htc1 hcond2
  rw [clean_eq]
  have hfin := mem_callIds_intro hmem2 htc2 htcne
  rw [htcid] at hfin
  exact hfin

theorem finalFilter_eq_self (R : List String) :
    ∀ ms : List OAMsg,
      (∀ c l rd, OAMsg.assistant c (some l) rd ∈ ms → l ≠ [] ∧ validCallsOf R l = l) →
      finalFilter R ms = ms := by
  intro ms
  induction ms with
  | nil =>
    intro _
    rfl
  | cons m rest ih =>
    intro hA
    have hrest : ∀ c l rd, OAMsg.assistant c (some l) rd ∈ rest →
        l ≠ [] ∧ validCallsOf R l = l :=
      fun c l rd hm => hA c l rd (List.mem_cons_of_mem _ hm)
    cases m with
    | assistant c t rd =>
      cases t with
      | some l =>
        obtain ⟨hne, hval⟩ := hA c l rd (List.mem_cons_self _ _)
        rw [finalFilter_cons_assistant_some, hval]
        rw [if_pos (bnot_of_false (by cases l with
          | nil => exact absurd rfl hne
          | cons x t2 => rfl))]
        rw [ih hrest]
      | none =>
        rw [finalFilter_cons_assistant_none, ih hrest]
    | tool id2 c3 =>
      rw [finalFilter_cons_tool, ih hrest]
    | system s =>
      rw [finalFilter_cons_system, ih hrest]
    | user s =>
      rw [finalFilter_cons_user, ih hrest]

theorem pass2_eq_self (K R : List String) :
    ∀ (ms : List OAMsg) (added : List String),
      (∀ c l rd, OAMsg.assistant c (some l) rd ∈ ms → l ≠ [] ∧ validCallsOf R l = l) →
      (∀ id content, OAMsg.tool id content ∈ ms → id ≠ "" →
        K.contains id = true ∧ added.contains id = false) →
      (toolResponseIdsOf ms).Nodup →
      pass2 K R added ms = ms := by
  intro ms
  induction ms with
  | nil =>
    intro added _ _ _
    rfl
  | cons m rest ih =>
    intro added hA hT hN
    have hArest : ∀ c l rd, OAMsg.assistant c (some l) rd ∈ rest →
        l ≠ [] ∧ validCallsOf R l = l :=
      fun c l rd hm => hA c l rd (List.mem_cons_of_mem _ hm)
    have hNrest : (toolResponseIdsOf rest).Nodup := by
      rw [respIds_cons] at hN
      exact (List.nodup_append.mp hN).2.1
    cases m with
    | assistant c t rd =>
      cases t with
      | some l =>
        obtain ⟨hne, hval⟩ := hA c l rd (List.mem_cons_self _ _)
        rw [pass2_cons_assistant_some, hval]
        rw [if_pos (bnot_of_false (by cases l with
          | nil => exact absurd rfl hne
          | cons x t2 => rfl))]
        rw [ih added hArest
          (fun id content hm h2 => hT id content (List.mem_cons_of_mem _ hm) h2) hNrest]
      | none =>
        rw [pass2_cons_assistant_none,
          ih added hArest
            (fun id content hm h2 => hT id content (List.mem_cons_of_mem _ hm) h2) hNrest]
    | tool id2 c3 =>
      rw [pass2_cons_tool]
      by_cases h2 : (id2 != "") = true
      · rw [if_pos h2]
        obtain ⟨hK, hAdd⟩ := hT id2 c3 (List.mem_cons_self _ _) (ne_of_bne h2)
        rw [if_pos (band_intro hK (bnot_of_false hAdd))]
        have hid2out : id2 ∉ toolResponseIdsOf rest := by
          rw [respIds_cons] at hN
          have hrid : msgRespIds (OAMsg.tool id2 c3) = [id2] := by
            simp [msgRespIds, h2]
          rw [hrid] at hN
          intro hmem
          exact (List.nodup_cons.mp hN).1 hmem
        rw [ih (id2 :: added) hArest ?_ hNrest]
        intro id content hm hne2
        obtain ⟨hK2, hAdd2⟩ := hT id content (List.mem_cons_of_mem _ hm) hne2
        refine ⟨hK2, ?_⟩
        rw [List.contains_cons]
        have hne3 : id ≠ id2 := by
          intro heq
          subst heq
          exact hid2out (mem_respIds_of_tool hm hne2)
        rw [hAdd2]
        simp [hne3]
      · rw [if_neg h2]
        rw [ih added hArest
          (fun id content hm hne2 => hT id content (List.mem_cons_of_mem _ hm) hne2) hNrest]
    | system s =>
      rw [pass2_cons_system,
        ih added hArest
          (fun id content hm h2 => hT id content (List.mem_cons_of_mem _ hm) h2) hNrest]
    | user s =>
      rw [pass2_cons_user,
        ih added hArest
          (fun id content hm h2 => hT id content (List.mem_cons_of_mem _ hm) h2) hNrest]

theorem clean_eq_self {ms : List OAMsg}
    (hA : ∀ c l rd, OAMsg.assistant c (some l) rd ∈ ms →
      l ≠ [] ∧ ∀ tc ∈ l, tc.id ≠ "" ∧ tc.id ∈ toolResponseIdsOf ms)
    (hT : ∀ id content, OAMsg.tool id content ∈ ms → id ≠ "" → id ∈ toolCallIdsOf ms)
    (hN : (toolResponseIdsOf ms).Nodup) :
    cleanOrphanedToolCalls ms = ms := by
  have hA2 : ∀ c l rd, OAMsg.assistant c (some l) rd ∈ ms →
      l ≠ [] ∧ validCallsOf (toolResponseIdsOf ms) l = l := by
    intro c l rd hm
    obtain ⟨hne, hcond⟩ := hA c l rd hm
    refine ⟨hne, validCallsOf_eq_self ?_⟩
    intro tc htc
    exact band_intro (bne_of_ne (hcond tc htc).1) (List.elem_iff.mpr (hcond tc htc).2)
  have hp : pass2 (toolCallIdsOf ms) (toolResponseIdsOf ms) [] ms = ms := by
    refine pass2_eq_self _ _ ms [] hA2 ?_ hN
    intro id content hm hne
    exact ⟨List.elem_iff.mpr (hT id content hm hne), rfl⟩
  rw [clean_eq, hp]
  exact finalFilter_eq_self _ ms hA2

theorem mergeMsgs_respIds (ms : List OAMsg) :
    toolResponseIdsOf (mergeMsgs ms) = toolResponseIdsOf ms := by
  induction ms using mergeMsgs.induct with
  | case1 => rw [mergeMsgs]
  | case2 m => rw [mergeMsgs]
  | case3 c1 t1 rd1 c2 t2 x rest ih =>
    rw [mergeMsgs, ih]
    rfl
  | case4 m1 m2 rest h ih =>
    rw [mergeMsgs]
    · show msgRespIds m1 ++ toolResponseIdsOf (mergeMsgs (m2 :: rest)) =
        msgRespIds m1 ++ toolResponseIdsOf (m2 :: rest)
      rw [ih]
    · exact h

def optCallIds : Option (List OAToolCall) → List String
  | some l => (l.filter (fun tc => tc.id != "")).map (fun tc => tc.id)
  | none => []

theorem msgCallIds_assistant (c : Option String) (t : Option (List OAToolCall))
    (rd : Option Json) : msgCallIds (.assistant c t rd) = optCallIds t := by
  cases t <;> rfl

theorem optCallIds_getD (t : Option (List OAToolCall)) :
    optCallIds (some (t.getD [])) = optCallIds t := by
  cases t <;> rfl

theorem optCallIds_callsMerge (t1 t2 : Option (List OAToolCall)) :
    optCallIds (callsMerge t1 t2) = optCallIds t1 ++ optCallIds t2 := by
  unfold callsMerge
  by_cases h : (t1.getD [] ++ t2.getD []).isEmpty = true
  · rw [if_pos h]
    have hnil : t1.getD [] ++ t2.getD [] = [] := by
      cases he : t1.getD [] ++ t2.getD [] with
      | nil => rfl
      | cons a t =>
        rw [he] at h
        exact Bool.noConfusion h
    have h2 : t2.getD [] = [] := (List.append_eq_nil.mp hnil).2
    have hopt2 : optCallIds t2 = [] := by
      rw [← optCallIds_getD t2, h2]
      rfl
    rw [hopt2, List.append_nil]
  · rw [if_neg h]
    rw [← optCallIds_getD t1, ← optCallIds_getD t2]
    simp only [optCallIds]
    rw [List.filter_append, List.map_append]

theorem mergeMsgs_callIds (ms : List OAMsg) :
    toolCallIdsOf (mergeMsgs ms) = toolCallIdsOf ms := by
  induction ms using mergeMsgs.induct with
  | case1 => rw [mergeMsgs]
  | case2 m => rw [mergeMsgs]
  | case3 c1 t1 rd1 c2 t2 x rest ih =>
    rw [mergeMsgs, ih]
    rw [callIds_cons, callIds_cons, callIds_cons]
    rw [msgCallIds_assistant, msgCallIds_assistant, msgCallIds_assistant]
    rw [optCallIds_callsMerge, List.append_assoc]
  | case4 m1 m2 rest h ih =>
    rw [mergeMsgs]
    · rw [callIds_cons, callIds_cons, ih]
    · exact h

theorem mergeMsgs_tool_mem {id c : String} :
    ∀ {ms : List OAMsg}, OAMsg.tool id c ∈ mergeMsgs ms ↔ OAMsg.tool id c ∈ ms := by
  intro ms
  induction ms using mergeMsgs.induct with
  | case1 => rw [mergeMsgs]
  | case2 m => rw [mergeMsgs]
  | case3 c1 t1 rd1 c2 t2 x rest ih =>
    rw [mergeMsgs, ih]
    simp [List.mem_cons]
  | case4 m1 m2 rest h ih =>
    rw [mergeMsgs]
    · simp only [List.mem_cons, ih]
    · exact h

theorem callsMerge_mem {t1 t2 : Option (List OAToolCall)} {l : List OAToolCall}
    {tc : OAToolCall} (h : callsMerge t1 t2 = some l) (htc : tc ∈ l) :
    (∃ l1, t1 = some l1 ∧ tc ∈ l1) ∨ ∃ l2, t2 = some l2 ∧ tc ∈ l2 := by
  unfold callsMerge at h
  by_cases he : (t1.getD [] ++ t2.getD []).isEmpty = true
  · rw [if_pos he] at h
    exact Or.inl ⟨l, h, htc⟩
  · rw [if_neg he] at h
    injection h with h
    subst h
    rcases List.mem_append.mp htc with h1 | h2
    · left
      cases t1 with
      | none => cases h1
      | some l1 => exact ⟨l1, rfl, h1⟩
    · right
      cases t2 with
      | none => cases h2
      | some l2 => exact ⟨l2, rfl, h2⟩

theorem callsMerge_ne_nil {t1 t2 : Option (List OAToolCall)} {l : List OAToolCall}
    (h1 : ∀ l1, t1 = some l1 → l1 ≠ []) (h : callsMerge t1 t2 = some l) : l ≠ [] := by
  unfold callsMerge at h
  by_cases he : (t1.getD [] ++ t2.getD []).isEmpty = true
  · rw [if_pos he] at h
    exact h1 l h
  · rw [if_neg he] at h
    injection h with h
    subst h
    intro hn
    apply he
    rw [hn]
    rfl

theorem mergeMsgs_calls_sub :
    ∀ {ms : List OAMsg} {c : Option String} {l : List OAToolCall} {rd : Option Json}
      {tc : OAToolCall},
      OAMsg.assistant c (some l) rd ∈ mergeMsgs ms → tc ∈ l →
      ∃ c0 l0 rd0, OAMsg.assistant c0 (some l0) rd0 ∈ ms ∧ tc ∈ l0 := by
  intro ms
  induction ms using mergeMsgs.induct with
  | case1 =>
    intro c l rd tc h htc
    rw [mergeMsgs] at h
    cases h
  | case2 m =>
    intro c l rd tc h htc
    rw [mergeMsgs] at h
    rcases List.mem_cons.mp h with heq | hm
    · subst heq
      exact ⟨c, l, rd, List.mem_cons_self _ _, htc⟩
    · cases hm
  | case3 c1 t1 rd1 c2 t2 x rest ih =>
    intro c l rd tc h htc
    rw [mergeMsgs] at h
    obtain ⟨c0, l0, rd0, hmem, htc0⟩ := ih h htc
    rcases List.mem_cons.mp hmem with heq | hm
    · injection heq with e1 e2 e3
      rcases callsMerge_mem e2.symm htc0 with ⟨l1, ht1, htcl1⟩ | ⟨l2, ht2, htcl2⟩
      · subst ht1
        exact ⟨c1, l1, rd1, List.mem_cons_self _ _, htcl1⟩
      · subst ht2
        exact ⟨c2, l2, x, List.mem_cons_of_mem _ (List.mem_cons_self _ _), htcl2⟩
    · exact ⟨c0, l0, rd0, List.mem_cons_of_mem _ (List.mem_cons_of_mem _ hm), htc0⟩
  | case4 m1 m2 rest h4 ih =>
    intro c l rd tc h htc
    rw [mergeMsgs] at h
    · rcases List.mem_cons.mp h with heq | hm
      · subst heq
        exact ⟨c, l, rd, List.mem_cons_self _ _, htc⟩
      · obtain ⟨c0, l0, rd0, hmem, htc0⟩ := ih hm htc
        exact ⟨c0, l0, rd0, List.mem_cons_of_mem _ hmem, htc0⟩
    · exact h4

theorem mergeMsgs_no_empty :
    ∀ {ms : List OAMsg},
      (∀ c l rd, OAMsg.assistant c (some l) rd ∈ ms → l ≠ []) →
      ∀ {c l rd}, OAMsg.assistant c (some l) rd ∈ mergeMsgs ms → l ≠ [] := by
  intro ms
  induction ms using mergeMsgs.induct with
  | case1 =>
    intro _ c l rd h
    rw [mergeMsgs] at h
    cases h
  | case2 m =>
    intro hsrc c l rd h
    rw [mergeMsgs] at h
    rcases List.mem_cons.mp h with heq | hm
    · subst heq
      exact hsrc c l rd (List.mem_cons_self _ _)
    · cases hm
  | case3 c1 t1 rd1 c2 t2 x rest ih =>
    intro hsrc c l rd h
    rw [mergeMsgs] at h
    refine ih ?_ h
    intro c0 l0 rd0 hmem
    rcases List.mem_cons.mp hmem with heq | hm
    · injection heq with e1 e2 e3
      refine fun hn => ?_
      refine callsMerge_ne_nil ?_ e2.symm hn
      intro l1 ht1
      subst ht1
      exact hsrc c1 l1 rd1 (List.mem_cons_self _ _)
    · exact hsrc c0 l0 rd0 (List.mem_cons_of_mem _ (List.mem_cons_of_mem _ hm))
  | case4 m1 m2 rest h4 ih =>
    intro hsrc c l rd h
    rw [mergeMsgs] at h
    · rcases List.mem_cons.mp h with heq | hm
      · subst heq
        exact hsrc c l rd (List.mem_cons_self _ _)
      · exact ih (fun c0 l0 rd0 hm0 => hsrc c0 l0 rd0 (List.mem_cons_of_mem _ hm0)) hm
    · exact h4

def isAssistantMsg : OAMsg → Bool
  | .assistant _ _ _ => true
  | _ => false

def noConsec : List OAMsg → Bool
  | [] => true
  | [_] => true
  | m1 :: m2 :: rest => !(isAssistantMsg m1 && isAssistantMsg m2) && noConsec (m2 :: rest)

theorem mergeMsgs_head_assistant :
    ∀ (ms : List OAMsg) (m : OAMsg) (rest : List OAMsg), ms = m :: rest →
      ∃ m2 tail, mergeMsgs ms = m2 :: tail ∧ isAssistantMsg m2 = isAssistantMsg m := by
  intro ms
  induction ms using mergeMsgs.induct with
  | case1 =>
    intro m rest h
    exact List.noConfusion h
  | case2 m0 =>
    intro m rest h
    injection h with h1 h2
    subst h1
    exact ⟨m0, [], by rw [mergeMsgs], rfl⟩
  | case3 c1 t1 rd1 c2 t2 x rest ih =>
    intro m rest2 h
    injection h with h1 h2
    obtain ⟨m2, tail, heq, hass⟩ :=
      ih (.assistant (contentMerge c1 c2) (callsMerge t1 t2) rd1) rest rfl
    refine ⟨m2, tail, ?_, ?_⟩
    · rw [mergeMsgs]
      exact heq
    · subst h1
      rw [hass]
      rfl
  | case4 m1 m2 rest h4 ih =>
    intro m rest2 h
    injection h with h1 h2
    subst h1
    refine ⟨m1, mergeMsgs (m2 :: rest), ?_, rfl⟩
    rw [mergeMsgs]
    exact h4

theorem mergeMsgs_noConsec : ∀ ms : List OAMsg, noConsec (mergeMsgs ms) = true := by
  intro ms
  induction ms using mergeMsgs.induct with
  | case1 => rw [mergeMsgs]; rfl
  | case2 m => rw [mergeMsgs]; rfl
  | case3 c1 t1 rd1 c2 t2 x rest ih =>
    rw [mergeMsgs]
    exact ih
  | case4 m1 m2 rest h4 ih =>
    rw [mergeMsgs]
    · obtain ⟨m2x, tail, heq, hass⟩ := mergeMsgs_head_assistant (m2 :: rest) m2 rest rfl
      rw [heq]
      show (!(isAssistantMsg m1 && isAssistantMsg m2x) && noConsec (m2x :: tail)) = true
      refine band_intro ?_ ?_
      · rw [hass]
        cases hm1 : isAssistantMsg m1 with
        | false => rfl
        | true =>
          cases hm2 : isAssistantMsg m2 with
          | false => rfl
          | true =>
            exfalso
            cases m1 with
            | assistant a1 b1 d1 =>
              cases m2 with
              | assistant a2 b2 d2 => exact h4 a1 b1 d1 a2 b2 d2 rfl rfl
              | system s => exact Bool.noConfusion hm2
              | user s => exact Bool.noConfusion hm2
              | tool i c => exact Bool.noConfusion hm2
            | system s => exact Bool.noConfusion hm1
            | user s => exact Bool.noConfusion hm1
            | tool i c => exact Bool.noConfusion hm1
      · rw [← heq]
        exact ih
    · exact h4

theorem noConsec_merge_id : ∀ ms : List OAMsg, noConsec ms = true → mergeMsgs ms = ms := by
  intro ms
  induction ms using mergeMsgs.induct with
  | case1 =>
    intro _
    rw [mergeMsgs]
  | case2 m =>
    intro _
    rw [mergeMsgs]
  | case3 c1 t1 rd1 c2 t2 x rest ih =>
    intro h
    exfalso
    exact Bool.noConfusion (band_left h)
  | case4 m1 m2 rest h4 ih =>
    intro h
    rw [mergeMsgs]
    · rw [ih (band_right h)]
    · exact h4

theorem mergeMsgs_idem (ms : List OAMsg) : mergeMsgs (mergeMsgs ms) = mergeMsgs ms :=
  noConsec_merge_id _ (mergeMsgs_noConsec ms)

/-! ## Canonical response parts and thought-signature validation -/

/-- A canonical (Gemini-format) response part as built by the adapters: a
text part, or a `functionCall` part with optional id, name, parsed
arguments and an optional sibling `thoughtSignature`. -/
inductive GPart where
  | text (s : String) : GPart
  | functionCall (id : Option String) (name : String) (args : Json)
      (sig : Option Json) : GPart

/-- Is the part a `functionCall` part? -/
def GPart.isFC : GPart → Bool
  | .functionCall .. => true
  | _ => false

/-- Keep an optional value only when truthy (models `x && ...` guards on
possibly-absent JavaScript values). -/
def truthyJson : Option Json → Option Json
  | some v => if v.truthy then some v else none
  | none => none

/-- `startsWithChars s p`: does `s` start with `p`? -/
def startsWithChars : List Char → List Char → Bool
  | _, [] => true
  | [], _ :: _ => false
  | c :: cs, p :: ps => c = p && startsWithChars cs ps

/-- Model of `String.prototype.startsWith`. -/
def jsStartsWith (s p : String) : Bool := startsWithChars s.data p.data

/-- The per-signature test inside `isValidThoughtSignature`'s loop: a
non-object (or `null`) entry is skipped; otherwise `data` must be a string
of length at least 64, and short strings with base64-UUID-looking starts
(and without the known good starts) are rejected. -/
def sigLoop : List Json → Bool
  | [] => true
  | sig :: rest =>
    match sig with
    | .obj fields =>
      (match lookupF fields "data" with
       | some (.str data) =>
         if data.length < 64 then false
         else if (["Ci", "Ev", "Ch", "Co"].any fun p => jsStartsWith data p) then sigLoop rest
         else if (["ZT", "ND", "MW", "Yz", "OD"].any fun p => jsStartsWith data p) &&
             data.length < 100 then
           false
         else sigLoop rest
       | _ => false)
    | .arr _ =>
      false
    | _ => sigLoop rest

/-- Embedding of `isValidThoughtSignature` (`openaiContentGenerator.ts`,
lines 1222-1276). A nested array entry has `typeof sig === 'object'` and
an undefined `data`, hence rejects. -/
def isValidThoughtSignature (ts : Json) : Bool :=
  if !ts.truthy then false
  else
    sigLoop
      (match ts with
       | .arr l => l
       | v => [v])

/-! ## OpenAI streaming reassembly -/

/-- One entry of a streamed `delta.tool_calls` array: block index, and
optional id / function-name / argument-fragment / thought-signature data
(`thought_signature` may sit on the tool call or on its `function`). -/
structure OAToolCallDelta where
  index : Option Nat
  id : Option String
  name : Option String
  args : Option String
  sigTop : Option Json
  sigFn : Option Json

/-- A streamed choice delta (`choice.delta`). -/
structure OAChoiceDelta where
  content : Option String
  toolCalls : Option (List OAToolCallDelta)

/-- A streamed choice: delta, the `reasoning_details` value (collapsing the
three probed locations `delta.reasoning_details` /
`choice.reasoning_details` / `chunk.reasoning_details` into the first
truthy one) and `finish_reason`. -/
structure OAStreamChoice where
  delta : OAChoiceDelta
  reasoningDetails : Option Json
  finishReason : Option String

/-- A streamed chunk (`chunk.choices[0]` is the only choice read). -/
structure OAChunk where
  choices : List OAStreamChoice
  usage : Option OAUsage

/-- The per-index streaming tool-call accumulator of the OpenAI adapter. -/
structure OAAcc where
  id : Option String
  name : Option String
  args : String
  sig : Option Json

/-- Insertion-ordered map lookup (JavaScript `Map.get`). -/
def mapGet {α : Type} (k : Nat) : List (Nat × α) → Option α
  | [] => none
  | (k2, v) :: rest => if k2 = k then some v else mapGet k rest

/-- Insertion-ordered map update (JavaScript `Map.set`): in-place update
when present, append when absent. -/
def mapSet {α : Type} (k : Nat) (v : α) : List (Nat × α) → List (Nat × α)
  | [] => [(k, v)]
  | (k2, v2) :: rest => if k2 = k then (k, v) :: rest else (k2, v2) :: mapSet k v rest

/-- JavaScript `Map.delete`. -/
def mapDel {α : Type} (k : Nat) : List (Nat × α) → List (Nat × α)
  | [] => []
  | (k2, v2) :: rest => if k2 = k then mapDel k rest else (k2, v2) :: mapDel k rest

/-- The per-adapter-instance streaming state of the OpenAI adapter
(`streamingToolCalls` and `streamingReasoningDetails`). -/
structure OAStreamState where
  calls : List (Nat × OAAcc)
  reasoning : Option Json

/-- Apply one `delta.tool_calls` entry to the accumulator map
(`convertStreamChunkToGeminiFormat`, lines 1713-1742): get or create the
accumulator at `index ?? 0`, then overwrite id/name when truthy, append a
truthy argument fragment, and capture a truthy thought signature. -/
def applyToolCallDelta (m : List (Nat × OAAcc)) (d : OAToolCallDelta) : List (Nat × OAAcc) :=
  let index := d.index.getD 0
  let acc0 := (mapGet index m).getD ⟨none, none, "", none⟩
  let acc1 :=
    match d.id with
    | some s => if s != "" then { acc0 with id := some s } else acc0
    | none => acc0
  let acc2 :=
    match d.name with
    | some s => if s != "" then { acc1 with name := some s } else acc1
    | none => acc1
  let acc3 :=
    match d.args with
    | some s => if s != "" then { acc2 with args := acc2.args ++ s } else acc2
    | none => acc2
  let acc4 :=
    match (truthyJson d.sigTop).orElse fun _ => truthyJson d.sigFn with
    | some v => { acc3 with sig := some v }
    | none => acc3
  mapSet index acc4 m

/-- Number of `functionCall` parts already pushed
(`parts.filter((p) => 'functionCall' in p).length`). -/
def countFC (ps : List GPart) : Nat := ps.countP GPart.isFC

/-- Emission of one accumulated call at stream finish
(`convertStreamChunkToGeminiFormat`, lines 1747-1796): skipped without a
truthy name; arguments parsed leniently (empty buffer yields `{}`); a
`respond_in_schema` call of a JSON-schema request becomes a text part;
otherwise a `functionCall` part whose `thoughtSignature` is the
accumulated one if valid, else the stored stream `reasoning_details` for
the first `functionCall` part only. -/
def emitCall (rep : String → Option String) (isJson : Bool) (reasoning : Option Json)
    (ps : List GPart) (acc : OAAcc) : List GPart :=
  match acc.name with
  | some nm =>
    if nm != "" then
      let args := if acc.args != "" then safeJsonParse rep (some acc.args) (Json.obj []) else Json.obj []
      if isJson && nm == "respond_in_schema" then ps ++ [.text (Json.stringify args)]
      else
        let sig :=
          match truthyJson acc.sig with
          | some v =>
            if isValidThoughtSignature v then some v
            else
              match truthyJson reasoning with
              | some w => if countFC ps = 0 then some w else none
              | none => none
          | none =>
            match truthyJson reasoning with
            | some w => if countFC ps = 0 then some w else none
            | none => none
        ps ++ [.functionCall acc.id nm args sig]
    else ps
  | none => ps

/-- Embedding of `convertStreamChunkToGeminiFormat`
(`openaiContentGenerator.ts`, lines 1678-1860), restricted to the state
transition and the emitted candidate parts: a truthy text delta is
emitted immediately; tool-call deltas only update the accumulator map; on
a truthy `finish_reason` every accumulated call with a name is emitted
and the accumulators are cleared. A chunk without choices contributes no
parts. -/
def processChunk (rep : String → Option String) (isJson : Bool) (st : OAStreamState)
    (chunk : OAChunk) : OAStreamState × List GPart :=
  match chunk.choices.head? with
  | none => (st, [])
  | some choice =>
    let parts0 : List GPart :=
      match choice.delta.content with
      | some s => if s != "" then [.text s] else []
      | none => []
    let st1 :=
      match truthyJson choice.reasoningDetails with
      | some v => if isValidThoughtSignature v then { st with reasoning := some v } else st
      | none => st
    let st2 :=
      match choice.delta.toolCalls with
      | some ds => { st1 with calls := ds.foldl applyToolCallDelta st1.calls }
      | none => st1
    if (choice.finishReason.getD "") != "" then
      let emitted := st2.calls.foldl (fun ps p => emitCall rep isJson st2.reasoning ps p.2) parts0
      (⟨[], none⟩, emitted)
    else (st2, parts0)

/-- One iteration of the OpenAI `streamGenerator` loop: convert the chunk
from the current state and emit its parts. -/
def openaiStep (rep : String → Option String) (isJson : Bool)
    (st : OAStreamState × List (List GPart)) (c : OAChunk) :
    OAStreamState × List (List GPart) :=
  let r := processChunk rep isJson st.1 c
  (r.1, st.2 ++ [r.2])

/-- Embedding of the OpenAI `streamGenerator` (lines 663-674): clear the
accumulators, then convert each chunk in order; the result is the list of
emitted part-lists, one per chunk. -/
def openaiStreamRun (rep : String → Option String) (isJson : Bool)
    (chunks : List OAChunk) : List (List GPart) :=
  (chunks.foldl (openaiStep rep isJson) ((⟨[], none⟩, []) : OAStreamState × List (List GPart))).2

/-! ## Bedrock streaming reassembly (both revisions) -/

/-- The `toolUse` payload of a `contentBlockStart` event. -/
structure BRStart where
  toolUseId : Option String
  name : Option String

/-- The payload of a `contentBlockDelta` event: optional text, and an
optional `toolUse` member with an optional `input` fragment. -/
structure BRDelta where
  text : Option String
  toolUse : Option (Option String)

/-- A Bedrock converse-stream event (the fields each handler reads). -/
inductive BREvent where
  | contentBlockStart (index : Option Nat) (toolUse : Option BRStart) : BREvent
  | contentBlockDelta (index : Option Nat) (delta : Option BRDelta) : BREvent
  | contentBlockStop (index : Option Nat) : BREvent
  | messageStop (stopReason : Option String) : BREvent
  | metadata (usage : Option (Option Nat × Option Nat × Option Nat)) : BREvent

/-- A per-index Bedrock streaming tool-call accumulator. -/
structure BRAcc where
  id : Option String
  name : Option String
  input : String

/-- Bedrock usage metadata (prompt, candidates, total). -/
structure BUsage where
  promptTokenCount : Nat
  candidatesTokenCount : Nat
  totalTokenCount : Nat

/-- One canonical incremental response of a Bedrock stream: candidate
parts, its finish reason (`UNSPECIFIED` both for the V2 default and for
the V1 usage-only responses that carry no candidate at all) and optional
usage metadata. -/
structure BResp where
  parts : List GPart
  finish : FinishReason
  usage : Option BUsage

/-- State of the V2 `streamGenerator` (`bedrockContentGenerator.ts`,
lines 1197-1270): accumulator map plus the usage counters. -/
structure BRState where
  calls : List (Nat × BRAcc)
  inTok : Nat
  outTok : Nat

/-- One event step of the V2 `streamGenerator` (else-if chain): block
start registers a tool-use accumulator; a truthy text delta is emitted
immediately, else a `toolUse` delta appends to an existing accumulator; a
block stop emits the accumulated call (when it has a truthy name) with
`safeJsonParse`-parsed arguments and deletes the accumulator; message
stop emits the mapped stop reason with the read usage counters; metadata
stores the usage counters. -/
def bedrockV2Step (rep : String → Option String) (st : BRState) (e : BREvent) :
    BRState × List BResp :=
  match e with
  | .contentBlockStart idx tu =>
    match tu with
    | some t => ({ st with calls := mapSet (idx.getD 0) ⟨t.toolUseId, t.name, ""⟩ st.calls }, [])
    | none => (st, [])
  | .contentBlockDelta idx d =>
    match d with
    | some dd =>
      if (dd.text.getD "") != "" then (st, [⟨[.text (dd.text.getD "")], .UNSPECIFIED, none⟩])
      else
        match dd.toolUse with
        | some inp =>
          let index := idx.getD 0
          (match mapGet index st.calls with
           | some acc =>
             ({ st with calls := mapSet index { acc with input := acc.input ++ inp.getD "" } st.calls },
               [])
           | none => (st, []))
        | none => (st, [])
    | none => (st, [])
  | .contentBlockStop idx =>
    let index := idx.getD 0
    (match mapGet index st.calls with
     | some acc =>
       if (acc.name.getD "") != "" then
         let args := safeJsonParse rep (some acc.input) (Json.obj [])
         ({ st with calls := mapDel index st.calls },
           [⟨[.functionCall acc.id (acc.name.getD "") args none], .STOP, none⟩])
       else (st, [])
     | none => (st, []))
  | .messageStop r =>
    (st, [⟨[], mapStopReason r, some ⟨st.inTok, st.outTok, st.inTok + st.outTok⟩⟩])
  | .metadata usage =>
    ({ st with
        inTok := (usage.bind Prod.fst).getD 0,
        outTok := (usage.bind fun u => u.2.1).getD 0 }, [])

/-- Run the V2 `streamGenerator` over an event list (the accumulator map
is cleared at stream start). -/
def bedrockV2Go (rep : String → Option String) : BRState → List BREvent → List BResp
  | _, [] => []
  | st, e :: rest =>
    let r := bedrockV2Step rep st e
    r.2 ++ bedrockV2Go rep r.1 rest

/-- The V2 Bedrock stream reassembler on a whole stream. -/
def bedrockV2Run (rep : String → Option String) (events : List BREvent) : List BResp :=
  bedrockV2Go rep ⟨[], 0, 0⟩ events

/-- State of the V1 `streamGenerator` (`bedrockContentGenerator.ts`,
lines 249-399): accumulator map plus `currentBlockIndex`. -/
structure V1State where
  calls : List (Nat × BRAcc)
  curIdx : Nat

/-- One event step of the V1 `streamGenerator` (independent ifs). Unlike
V2 it tracks `currentBlockIndex` as the index fallback, requires both a
truthy `toolUseId` and name to finalize, strict-parses the buffered input
with `JSON.parse(input || '{}')` and escalates a parse failure to an
error that aborts the stream (`throw new Error('Invalid JSON in tool call
...')`, modelled as `Except.error` carrying the tool name); its text
responses carry finish reason `STOP`, and usage is emitted from the
metadata event itself. -/
def bedrockV1Step (st : V1State) (e : BREvent) : Except String (V1State × List BResp) :=
  match e with
  | .contentBlockStart idx tu =>
    let st := { st with curIdx := idx.getD 0 }
    match tu with
    | some t => .ok ({ st with calls := mapSet st.curIdx ⟨t.toolUseId, t.name, ""⟩ st.calls }, [])
    | none => .ok (st, [])
  | .contentBlockDelta idx d =>
    match d with
    | some dd =>
      let index := idx.getD st.curIdx
      let st1 :=
        match dd.toolUse with
        | some inp =>
          (match mapGet index st.calls with
           | some acc =>
             if (inp.getD "") != "" then
               { st with calls := mapSet index { acc with input := acc.input ++ inp.getD "" } st.calls }
             else st
           | none => st)
        | none => st
      if (dd.text.getD "") != "" then .ok (st1, [⟨[.text (dd.text.getD "")], .STOP, none⟩])
      else .ok (st1, [])
    | none => .ok (st, [])
  | .contentBlockStop idx =>
    let index := idx.getD st.curIdx
    (match mapGet index st.calls with
     | some acc =>
       if (acc.id.getD "") != "" && (acc.name.getD "") != "" then
         match parseJson (if acc.input = "" then "{}" else acc.input) with
         | some args =>
           .ok ({ st with calls := mapDel index st.calls },
             [⟨[.functionCall acc.id (acc.name.getD "") args none], .STOP, none⟩])
         | none => .error ("Invalid JSON in tool call " ++ acc.name.getD "")
       else .ok (st, [])
     | none => .ok (st, []))
  | .messageStop _ => .ok (st, [])
  | .metadata usage =>
    match usage with
    | some u =>
      .ok (st, [⟨[], .UNSPECIFIED, some ⟨(u.1).getD 0, (u.2.1).getD 0, (u.2.2).getD 0⟩⟩])
    | none => .ok (st, [])

/-- Run the V1 `streamGenerator`: a thrown parse error aborts the whole
stream. -/
def bedrockV1Go : V1State → List BREvent → Except String (List BResp)
  | _, [] => .ok []
  | st, e :: rest =>
    match bedrockV1Step st e with
    | .error msg => .error msg
    | .ok (st2, out) =>
      match bedrockV1Go st2 rest with
      | .error msg => .error msg
      | .ok outs => .ok (out ++ outs)

/-- The V1 Bedrock stream reassembler on a whole stream (accumulators
cleared at stream start). -/
def bedrockV1Run (events : List BREvent) : Except String (List BResp) :=
  bedrockV1Go ⟨[], 0⟩ events

/-! ## OpenAI blocking-response decoding and request tool selection -/

/-- A tool call of a blocking OpenAI completion (`type` is always
`'function'` here): id, function name, raw argument string and possible
thought-signature locations (`thought_signature`/`thoughtSignature`
collapsed into `sigTop`, `function.thought_signature` as `sigFn`). -/
structure OARespToolCall where
  id : String
  name : String
  args : Option String
  sigTop : Option Json
  sigFn : Option Json

/-- The message of a blocking completion choice. -/
structure OARespMsg where
  content : Option String
  toolCalls : Option (List OARespToolCall)
  reasoningDetails : Option Json

/-- A blocking completion choice. -/
structure OARespChoice where
  message : OARespMsg
  finishReason : Option String

/-- A decoded canonical response: candidate parts, finish reason (the
value `mapFinishReason` actually produces), usage. -/
structure GeminiResp where
  parts : List GPart
  finish : JsFinishValue
  usage : Option UsageMeta

/-- Attach `reasoning_details` to the first `functionCall` part when that
part has no `thoughtSignature` yet (`convertToGeminiFormat`,
lines 1615-1622). -/
def attachReasoning (rd : Json) : List GPart → List GPart
  | [] => []
  | p :: rest =>
    match p with
    | .functionCall id nm args sig =>
      (match truthyJson sig with
       | none => GPart.functionCall id nm args (some rd)
       | some _ => p) :: rest
    | _ => p :: attachReasoning rd rest

/-- Decoding of one blocking tool call into parts (`convertToGeminiFormat`,
lines 1561-1603). -/
def decodeRespToolCall (rep : String → Option String) (isJson : Bool) (ps : List GPart)
    (tc : OARespToolCall) : List GPart :=
  let args :=
    match tc.args with
    | some a => if a != "" then safeJsonParse rep (some a) (Json.obj []) else Json.obj []
    | none => Json.obj []
  if isJson && tc.name == "respond_in_schema" then ps ++ [.text (Json.stringify args)]
  else
    let sig :=
      match (truthyJson tc.sigTop).orElse fun _ => truthyJson tc.sigFn with
      | some v => if isValidThoughtSignature v then some v else none
      | none => none
    ps ++ [.functionCall (some tc.id) tc.name args sig]

/-- Embedding of the blocking `convertToGeminiFormat`
(`openaiContentGenerator.ts`, lines 1546-1676), restricted to the parts,
finish reason and usage of the produced candidate (the function reads
`choices[0]`, passed here directly). -/
def convertToGeminiFormatResp (rep : String → Option String) (isJson : Bool)
    (choice : OARespChoice) (usage : Option OAUsage) : GeminiResp :=
  let parts0 : List GPart :=
    match choice.message.content with
    | some s => if s != "" then [.text s] else []
    | none => []
  let parts1 :=
    match choice.message.toolCalls with
    | some tcs => tcs.foldl (decodeRespToolCall rep isJson) parts0
    | none => parts0
  let parts2 :=
    match truthyJson choice.message.reasoningDetails with
    | some v => if isValidThoughtSignature v then attachReasoning v parts1 else parts1
    | none => parts1
  { parts := parts2
    finish :=
      mapFinishReason
        (some (if choice.finishReason.getD "" = "" then "stop" else choice.finishReason.getD ""))
    usage := usage.map normalizeOpenAIUsage }

/-- A canonical tool (function) declaration as consumed by the converters:
name, description (absent modelled as `""`, matching the truthiness
checks) and optional parameter schema. -/
structure FuncDecl where
  name : String
  description : String
  parameters : Option Json

/-- An OpenAI tool declaration (`type: 'function'`). -/
structure OAToolDecl where
  name : String
  description : String
  parameters : Json

/-- `func.parameters || {}`. -/
def paramsOrEmpty (p : Option Json) : Json := (truthyJson p).getD (Json.obj [])

/-- `convertGeminiParametersToOpenAI` on an arbitrary value: schema
objects take the main path; any other value takes the
`!parameters || typeof parameters !== 'object'` guard default (arrays,
which never arise as `func.parameters`, are mapped to the default too). -/
def convertParamsOrDefault (v : Json) : Json :=
  match v with
  | .obj fields => convertGeminiParametersToOpenAI fields
  | _ => .obj [("type", .str "object"), ("properties", .obj [])]

/-- Embedding of `convertGeminiToolsToOpenAI` (lines 940-980) over the
already-resolved function declarations (resolution of `CallableTool`s is
external I/O): declarations with truthy name and description are
converted, with sanitized parameters. -/
def convertGeminiToolsToOpenAI (decls : List FuncDecl) : List OAToolDecl :=
  decls.foldr
    (fun f acc =>
      if f.name != "" && f.description != "" then
        ⟨f.name, f.description, convertParamsOrDefault (paramsOrEmpty f.parameters)⟩ :: acc
      else acc)
    []

/-- The synthetic schema-response tool declaration built by
`generateContent` for JSON-schema requests (lines 274-285): named
`respond_in_schema`, a fixed description, and the caller's schema taken
verbatim as its parameter schema. -/
def respondInSchemaDecl (schema : Json) : OAToolDecl :=
  ⟨"respond_in_schema", "Provide the response in the specified JSON schema format", schema⟩

/-- The tool-declaration selection of `generateContent` (lines 268-291):
a truthy `responseJsonSchema` together with the JSON mime type yields
exactly the synthetic declaration; otherwise a present `tools` config is
converted; otherwise no `tools` parameter is set. -/
def buildRequestTools (responseJsonSchema : Option Json) (responseMimeType : Option String)
    (tools : Option (List FuncDecl)) : Option (List OAToolDecl) :=
  if jsTruthyOpt responseJsonSchema && responseMimeType == some "application/json" then
    some [respondInSchemaDecl (responseJsonSchema.getD .null)]
  else
    match tools with
    | some ds => some (convertGeminiToolsToOpenAI ds)
    | none => none

/-! ## Canonical request parts and per-turn part bucketing -/

/-- A canonical `FunctionCall` (`@google/genai`): optional id, name, args. -/
structure FunctionCallG where
  id : Option String
  name : Option String
  args : Option Json

/-- A canonical `FunctionResponse`: optional id and a response value. -/
structure FunctionRespG where
  id : Option String
  response : Json

/-- A canonical request `Part`: a bare string, a text part (with the
internal-reasoning `thought` flag and a possible `thoughtSignature`), a
function call (with a possible `thoughtSignature`), or a function
response. -/
inductive GemPart where
  | strPart (s : String) : GemPart
  | textPart (text : String) (thought : Bool) (sig : Option Json) : GemPart
  | funcCallPart (fc : FunctionCallG) (sig : Option Json) : GemPart
  | funcRespPart (fr : FunctionRespG) : GemPart

/-- The reasoning-details marker (`REASONING_DETAILS_MARKER`). -/
def rdMarker : String := "__OPENROUTER_REASONING_DETAILS__:"

/-- Substring test (model of `String.prototype.includes`). -/
def containsSub : List Char → List Char → Bool
  | [], sub => startsWithChars [] sub
  | c :: rest, sub => startsWithChars (c :: rest) sub || containsSub rest sub

/-- Model of `s.includes(sub)`. -/
def jsIncludes (s sub : String) : Bool := containsSub s.data sub.data

/-- Split at newline characters (model of `s.split('\n')`). -/
def splitNl : List Char → List (List Char)
  | [] => [[]]
  | c :: rest =>
    if c = '\n' then [] :: splitNl rest
    else
      match splitNl rest with
      | l :: ls => (c :: l) :: ls
      | [] => [[c]]

/-- `s.split('\n')` as strings. -/
def jsSplitLines (s : String) : List String := (splitNl s.data).map String.mk

/-- `lines.join('\n')`. -/
def joinNl : List String → String
  | [] => ""
  | [s] => s
  | s :: rest => s ++ "\n" ++ joinNl rest

/-- `s.slice(n)` on character counts. -/
def stringDrop (s : String) (n : Nat) : String := String.mk (s.data.drop n)

/-- Embedding of `filterReasoningDetailsMarker` (lines 1306-1316): remove
the lines containing the marker, then trim. -/
def filterReasoningDetailsMarker (text : String) : String :=
  if !jsIncludes text rdMarker then text
  else jsTrim (joinNl ((jsSplitLines text).filter fun line => !jsIncludes line rdMarker))

/-- The part buckets collected by `convertToOpenAIFormat` for one turn. -/
structure OABucket where
  textParts : List String
  functionCalls : List FunctionCallG
  functionResponses : List FunctionRespG
  reasoningDetails : Option Json

/-- One step of the per-part bucketing loop of `convertToOpenAIFormat`
(lines 1044-1089): bare strings are marker-filtered into text; truthy text
parts become reasoning details when thought-flagged and marker-prefixed,
are marker-filtered into text when not thought-flagged, and are dropped
otherwise; function calls are collected (their valid `thoughtSignature`
may become the reasoning details when none are set yet); function
responses are collected. -/
def openaiBucketStep (st : OABucket) (p : GemPart) : OABucket :=
  match p with
  | .strPart s =>
    let cleaned := filterReasoningDetailsMarker s
    if cleaned != "" then { st with textParts := st.textParts ++ [cleaned] } else st
  | .textPart text thought _ =>
    if text != "" then
      if thought && jsStartsWith text rdMarker then
        match parseJson (stringDrop text rdMarker.length) with
        | some v => { st with reasoningDetails := some v }
        | none => st
      else if !thought then
        let cleaned := filterReasoningDetailsMarker text
        if cleaned != "" then { st with textParts := st.textParts ++ [cleaned] } else st
      else st
    else st
  | .funcCallPart fc sig =>
    let st1 := { st with functionCalls := st.functionCalls ++ [fc] }
    (match truthyJson sig with
     | some v =>
       if !jsTruthyOpt st1.reasoningDetails && isValidThoughtSignature v then
         { st1 with reasoningDetails := some v }
       else st1
     | none => st1)
  | .funcRespPart fr => { st with functionResponses := st.functionResponses ++ [fr] }

/-- The per-turn part bucketing of `convertToOpenAIFormat`
(array-of-contents path). -/
def openaiBucket (parts : List GemPart) : OABucket :=
  parts.foldl openaiBucketStep ⟨[], [], [], none⟩

/-- `funcResponse.response` rendered as wire text (string pass-through,
`JSON.stringify` otherwise). -/
def respToText (v : Json) : String :=
  match v with
  | .str s => s
  | other => other.stringify

/-- The part buckets of the V2 `convertToBedrockFormat`. -/
structure B2Bucket where
  contentBlocks : List String
  toolResults : List (String × String)
  functionCalls : List FunctionCallG

/-- One step of the per-part bucketing loop of the V2
`convertToBedrockFormat` (`bedrockContentGenerator.ts`, lines 1429-1450):
bare strings become text blocks; truthy, non-thought text parts become
text blocks; function calls are collected; function responses become tool
results keyed by `id || ''`. -/
def bedrockBucketStep (st : B2Bucket) (p : GemPart) : B2Bucket :=
  match p with
  | .strPart s => { st with contentBlocks := st.contentBlocks ++ [s] }
  | .textPart text thought _ =>
    if text != "" && !thought then { st with contentBlocks := st.contentBlocks ++ [text] }
    else st
  | .funcCallPart fc _ => { st with functionCalls := st.functionCalls ++ [fc] }
  | .funcRespPart fr =>
    { st with toolResults := st.toolResults ++ [(fr.id.getD "", respToText fr.response)] }

/-- The per-turn part bucketing of the V2 `convertToBedrockFormat`. -/
def bedrockBucket (parts : List GemPart) : B2Bucket :=
  parts.foldl bedrockBucketStep ⟨[], [], []⟩

/-! ## The Anthropic adapter -/

/-- An Anthropic content block parameter. -/
inductive ABlock where
  | textB (s : String) : ABlock
  | toolUseB (id : String) (name : String) (input : Json) : ABlock
  | toolResultB (toolUseId : String) (content : String) : ABlock

/-- Embedding of `AnthropicContentGenerator.processContentParts`
(`src/unnamed/part_005`, lines 172-208), content-block part: bare strings
and truthy text parts become text blocks (note: with no check of the
`thought` flag), function calls become `tool_use` blocks (`fallbackId`
abstracts the `call_${Date.now()}` placeholder id), and function
responses are appended afterwards as `tool_result` blocks. -/
def anthropicProcessParts (fallbackId : String) (parts : List GemPart) : List ABlock :=
  let step := fun (st : List ABlock × List FunctionRespG) (p : GemPart) =>
    match p with
    | .strPart s => (st.1 ++ [.textB s], st.2)
    | .textPart text _ _ => if text != "" then (st.1 ++ [.textB text], st.2) else st
    | .funcCallPart fc _ =>
      (st.1 ++
          [.toolUseB (if fc.id.getD "" = "" then fallbackId else fc.id.getD "")
            (fc.name.getD "") ((truthyJson fc.args).getD (Json.obj []))],
        st.2)
    | .funcRespPart fr => (st.1, st.2 ++ [fr])
  let r := parts.foldl step ([], [])
  r.1 ++ r.2.map (fun fr => ABlock.toolResultB (fr.id.getD "") (respToText fr.response))

/-- An Anthropic message role. -/
inductive ARole where
  | user : ARole
  | assistant : ARole
deriving DecidableEq

/-- Anthropic message content: a bare string or content blocks. -/
inductive AContent where
  | strC (s : String) : AContent
  | blocksC (bs : List ABlock) : AContent

/-- An Anthropic `MessageParam`. -/
structure AMsg where
  role : ARole
  content : AContent

/-- Content as a block array (`ensureAlternatingMessages` merge arm). -/
def AContent.asBlocks : AContent → List ABlock
  | .strC s => [.textB s]
  | .blocksC bs => bs

/-- Merging of two same-role message contents inside
`ensureAlternatingMessages` (lines 218-230): two strings are joined with a
newline, otherwise both are coerced to block arrays and concatenated. -/
def mergeAContent : AContent → AContent → AContent
  | .strC a, .strC b => .strC (a ++ "\n" ++ b)
  | a, b => .blocksC (a.asBlocks ++ b.asBlocks)

/-- Left-associative merge of adjacent same-role messages (the main loop
of `ensureAlternatingMessages`, lines 215-234). -/
def mergeSameRole : List AMsg → List AMsg
  | [] => []
  | [m] => [m]
  | m1 :: m2 :: rest =>
    if m1.role = m2.role then mergeSameRole (⟨m1.role, mergeAContent m1.content m2.content⟩ :: rest)
    else m1 :: mergeSameRole (m2 :: rest)
termination_by ms => ms.length

/-- Embedding of `ensureAlternatingMessages` (lines 210-242): merge
consecutive same-role messages, then prepend a `Continue.` user message
when the first message is not from the user. -/
def ensureAlternatingMessages (messages : List AMsg) : List AMsg :=
  match messages with
  | [] => []
  | _ =>
    let merged := mergeSameRole messages
    match merged with
    | m :: _ => if m.role ≠ .user then ⟨.user, .strC "Continue."⟩ :: merged else merged
    | [] => []

/-- A conversation turn (`Content`): role and parts. -/
structure GemContent where
  role : String
  parts : List GemPart

/-- An entry of a canonical `contents` array: a bare string or a turn. -/
inductive GemEntry where
  | strE (s : String) : GemEntry
  | contentE (c : GemContent) : GemEntry

/-- A system-instruction item (string or `Content`). -/
inductive SysItem where
  | strI (s : String) : SysItem
  | contentI (c : GemContent) : SysItem

/-- The `systemInstruction` union: string, `Content`, or an array. -/
inductive SysInstr where
  | strS (s : String) : SysInstr
  | oneS (c : GemContent) : SysInstr
  | listS (items : List SysItem) : SysInstr

/-- Truthiness of a `systemInstruction` value (only a bare string can be
falsy). -/
def sysTruthy : SysInstr → Bool
  | .strS s => s != ""
  | _ => true

/-- The text of one part as read by `extractSystemInstruction`
(`'text' in p ? p.text : ''`; bare strings cannot carry a `text`
property). -/
def partTextOrEmpty : GemPart → String
  | .textPart t _ _ => t
  | _ => ""

/-- Embedding of `extractSystemInstruction` (lines 149-170). -/
def extractSystemInstruction : SysInstr → String
  | .strS s => s
  | .oneS c => joinNl (c.parts.map partTextOrEmpty)
  | .listS items =>
    joinNl
      (items.map fun it =>
        match it with
        | .strI s => s
        | .contentI c => joinNl (c.parts.map partTextOrEmpty))

/-- The canonical request as consumed by the Anthropic adapter: contents,
optional system instruction, optional (already-resolved) tool
declarations and request-level sampling parameters. -/
structure ARequest where
  contents : List GemEntry
  systemInstruction : Option SysInstr
  tools : Option (List FuncDecl)
  temperature : Option ℚ
  topP : Option ℚ
  maxOutputTokens : Option Nat

/-- Adapter-level sampling-parameter overrides
(`config.getContentGeneratorConfig()?.samplingParams`). -/
structure SamplingCfg where
  temperature : Option ℚ
  top_p : Option ℚ
  max_tokens : Option Nat

/-- Embedding of the Anthropic `buildSamplingParameters` (lines 332-344):
config overrides request for each of temperature, max_tokens, top_p. -/
def buildSamplingAnthropic (cfg : SamplingCfg) (req : ARequest) :
    Option ℚ × Option Nat × Option ℚ :=
  (cfg.temperature.orElse fun _ => req.temperature,
    cfg.max_tokens.orElse fun _ => req.maxOutputTokens,
    cfg.top_p.orElse fun _ => req.topP)

/-- Embedding of `convertGeminiToolsToAnthropic` (lines 244-273) over
already-resolved declarations: declarations with truthy names are kept,
with `input_schema` the unsanitized parameters (defaulted when falsy). -/
def convertGeminiToolsToAnthropic (decls : List FuncDecl) : List (String × String × Json) :=
  decls.foldr
    (fun f acc =>
      if f.name != "" then
        (f.name, f.description,
          (truthyJson f.parameters).getD
            (Json.obj [("type", .str "object"), ("properties", .obj [])])) :: acc
      else acc)
    []

/-- Embedding of `convertToAnthropicFormat` (lines 119-147): a truthy
system instruction is extracted; each array entry becomes a user string
message or a processed turn (dropped when it produces no content blocks);
finally the alternation repair runs. `fallbackId` abstracts the
`Date.now()`-based placeholder tool-use id. -/
def convertToAnthropicFormat (fallbackId : String) (req : ARequest) :
    Option String × List AMsg :=
  let systemMessage :=
    match req.systemInstruction with
    | some si => if sysTruthy si then some (extractSystemInstruction si) else none
    | none => none
  let messages :=
    req.contents.foldl
      (fun acc e =>
        match e with
        | .strE s => acc ++ [⟨.user, .strC s⟩]
        | .contentE c =>
          let blocks := anthropicProcessParts fallbackId c.parts
          if blocks.isEmpty then acc
          else acc ++ [⟨if c.role = "model" then .assistant else .user, .blocksC blocks⟩])
      []
  (systemMessage, ensureAlternatingMessages messages)

/-- The Anthropic `MessageCreateParams` actually sent (lines 70-82):
model, `max_tokens || 4096`, messages, and the optional system message /
temperature / top-p / tools. -/
structure ACreateParams where
  model : String
  maxTokens : Nat
  messages : List AMsg
  system : Option String
  temperature : Option ℚ
  topP : Option ℚ
  tools : Option (List (String × String × Json))

/-- Build the create parameters of `generateContent` (lines 65-82). -/
def buildACreateParams (cfg : SamplingCfg) (model : String) (fallbackId : String)
    (req : ARequest) : ACreateParams :=
  let conv := convertToAnthropicFormat fallbackId req
  let sampling := buildSamplingAnthropic cfg req
  { model := model
    maxTokens :=
      match sampling.2.1 with
      | some n => if n = 0 then 4096 else n
      | none => 4096
    messages := conv.2
    system :=
      match conv.1 with
      | some s => if s != "" then some s else none
      | none => none
    temperature := sampling.1
    topP := sampling.2.2
    tools := req.tools.map convertGeminiToolsToAnthropic }

/-- A content block of an Anthropic response message. -/
inductive ARespBlock where
  | textR (s : String) : ARespBlock
  | toolUseR (id : String) (name : String) (input : Json) : ARespBlock

/-- An Anthropic response `Message`: content blocks, stop reason, usage. -/
structure AMessage where
  content : List ARespBlock
  stopReason : Option String
  inputTokens : Nat
  outputTokens : Nat

/-- A canonical response decoded from an Anthropic message. -/
structure ARespOut where
  parts : List GPart
  finish : FinishReason
  usage : BUsage

/-- Embedding of the Anthropic `convertToGeminiFormat` (lines 275-315). -/
def anthropicConvertToGeminiFormat (m : AMessage) : ARespOut :=
  { parts :=
      m.content.map fun b =>
        match b with
        | .textR s => GPart.text s
        | .toolUseR id name input => GPart.functionCall (some id) name input none
    finish := anthropicMapStopReason m.stopReason
    usage := ⟨m.inputTokens, m.outputTokens, m.inputTokens + m.outputTokens⟩ }

/-- Embedding of `AnthropicContentGenerator.generateContent`
(lines 61-90): convert the request, call the provider (the network call
`client.messages.create` is the oracle `provider`), decode the result. -/
def anthropicGenerateContent (provider : ACreateParams → AMessage) (cfg : SamplingCfg)
    (model : String) (fallbackId : String) (req : ARequest) : ARespOut :=
  anthropicConvertToGeminiFormat (provider (buildACreateParams cfg model fallbackId req))

/-- Embedding of `AnthropicContentGenerator.generateContentStream`
(lines 92-104): a one-element generator wrapping the blocking call. -/
def anthropicGenerateContentStream (provider : ACreateParams → AMessage) (cfg : SamplingCfg)
    (model : String) (fallbackId : String) (req : ARequest) : List ARespOut :=
  [anthropicGenerateContent provider cfg model fallbackId req]

/-! ## Theorems -/

/-- C5 (amended): the Bedrock-style `mapStopReason` is total into the
canonical enumeration with the claimed table
(`end_turn`/`stop_sequence`/`tool_use` to `STOP`, `max_tokens` to
`MAX_TOKENS`, `content_filtered`/`guardrail_intervened` to `SAFETY`,
everything else to `FINISH_REASON_UNSPECIFIED`); the OpenAI-style
`mapFinishReason` sends `stop` to `STOP`, `length` to `MAX_TOKENS`,
`content_filter` to `SAFETY` and `tool_calls`/`function_call` to `STOP`,
and sends every other reason string to `FINISH_REASON_UNSPECIFIED`
except the `Object.prototype` property names, for which the object
lookup yields the truthy inherited (non-enumeration) value. -/
theorem finish_reason_mapping_tables :
    (mapFinishReason (some "stop") = .enum .STOP ∧
      mapFinishReason (some "length") = .enum .MAX_TOKENS ∧
      mapFinishReason (some "content_filter") = .enum .SAFETY ∧
      mapFinishReason (some "tool_calls") = .enum .STOP ∧
      mapFinishReason (some "function_call") = .enum .STOP ∧
      mapFinishReason none = .enum .UNSPECIFIED) ∧
    (mapStopReason (some "end_turn") = .STOP ∧
      mapStopReason (some "stop_sequence") = .STOP ∧
      mapStopReason (some "tool_use") = .STOP ∧
      mapStopReason (some "max_tokens") = .MAX_TOKENS ∧
      mapStopReason (some "content_filtered") = .SAFETY ∧
      mapStopReason (some "guardrail_intervened") = .SAFETY ∧
      mapStopReason none = .UNSPECIFIED) ∧
    (∀ r : String,
      r ∉ (["end_turn", "tool_use", "max_tokens", "stop_sequence", "content_filtered",
            "guardrail_intervened"] : List String) →
      mapStopReason (some r) = .UNSPECIFIED) ∧
    (∀ r : String,
      r ∉ (["stop", "length", "content_filter", "function_call", "tool_calls"] : List String) →
      r ∉ objectProtoKeys →
      mapFinishReason (some r) = .enum .UNSPECIFIED) ∧
    (∀ r ∈ objectProtoKeys, mapFinishReason (some r) = .inherited r) := by
  refine ⟨⟨rfl, rfl, rfl, rfl, rfl, rfl⟩, ⟨rfl, rfl, rfl, rfl, rfl, rfl, rfl⟩, ?_, ?_, ?_⟩
  · intro r hr
    simp only [mapStopReason]
    split_ifs <;> simp_all
  · intro r hr hp
    simp only [mapFinishReason]
    split_ifs <;> simp_all
  · intro r hr
    simp only [objectProtoKeys, List.mem_cons, List.mem_singleton, List.not_mem_nil] at hr
    rcases hr with rfl | rfl | rfl | rfl | rfl | rfl | rfl | rfl | rfl | rfl | rfl | rfl | h
    · rfl
    · rfl
    · rfl
    · rfl
    · rfl
    · rfl
    · rfl
    · rfl
    · rfl
    · rfl
    · rfl
    · rfl
    · exact h.elim

/-- Witness for C5: the default clauses at an undocumented reason string,
and the prototype clause at `constructor`. -/
theorem finish_reason_mapping_tables_witness :
    mapStopReason (some "flagged_by_moderator") = .UNSPECIFIED ∧
      mapFinishReason (some "flagged_by_moderator") = .enum .UNSPECIFIED ∧
      mapFinishReason (some "constructor") = .inherited "constructor" :=
  ⟨finish_reason_mapping_tables.2.2.1 "flagged_by_moderator" (by decide),
    finish_reason_mapping_tables.2.2.2.1 "flagged_by_moderator" (by decide) (by decide),
    finish_reason_mapping_tables.2.2.2.2 "constructor" (by decide)⟩

/-- C5 counterexample: bracket lookup on the object literal traverses the
prototype chain, so a finish reason naming an `Object.prototype` property
(`constructor`, `toString`, `__proto__`, ...) makes
`mapping[openaiReason]` a truthy inherited value that `||` passes
through: the function returns a non-member of the canonical enumeration
instead of `FINISH_REASON_UNSPECIFIED`. -/
theorem finish_reason_prototype_leak :
    mapFinishReason (some "constructor") = .inherited "constructor" ∧
    mapFinishReason (some "toString") = .inherited "toString" ∧
    mapFinishReason (some "__proto__") = .inherited "__proto__" ∧
    ∀ f : FinishReason, mapFinishReason (some "constructor") ≠ .enum f :=
  ⟨rfl, rfl, rfl, fun _ h => JsFinishValue.noConfusion h⟩

/-- C8: when a provider usage record reports a positive total with zero
(or absent) prompt and completion counts, normalization estimates
`prompt = round(total * 0.7)` and `completion = round(total * 0.3)` with
the total unchanged; a present breakdown passes through unchanged; and
`total_tokens: 100` without breakdown normalizes to
`{prompt: 70, completion: 30, total: 100}`. -/
theorem usage_split_estimation :
    (∀ po co tot ca : Option Nat,
      po.getD 0 = 0 → co.getD 0 = 0 → 0 < tot.getD 0 →
      normalizeOpenAIUsage ⟨po, co, tot, ca⟩ =
        ⟨(mathRound ((tot.getD 0 : ℚ) * (7 / 10))).toNat,
          (mathRound ((tot.getD 0 : ℚ) * (3 / 10))).toNat, tot.getD 0, ca.getD 0⟩) ∧
    (∀ po co tot ca : Option Nat,
      ¬(0 < tot.getD 0 ∧ po.getD 0 = 0 ∧ co.getD 0 = 0) →
      normalizeOpenAIUsage ⟨po, co, tot, ca⟩ = ⟨po.getD 0, co.getD 0, tot.getD 0, ca.getD 0⟩) ∧
    normalizeOpenAIUsage ⟨none, none, some 100, none⟩ = ⟨70, 30, 100, 0⟩ := by
  refine ⟨?_, ?_, ?_⟩
  · intro po co tot ca h1 h2 h3
    simp only [normalizeOpenAIUsage]
    rw [if_pos ⟨h3, h1, h2⟩, if_pos ⟨h3, h1, h2⟩]
  · intro po co tot ca h
    simp only [normalizeOpenAIUsage]
    rw [if_neg h, if_neg h]
  · norm_num [normalizeOpenAIUsage, mathRound]
    decide

/-- Witness for C8: the estimation clause applied at the spec scenario
(`total_tokens: 100`, no breakdown) and the pass-through clause at a
record with a breakdown. -/
theorem usage_split_estimation_witness :
    normalizeOpenAIUsage ⟨none, none, some 100, none⟩ =
      ⟨(mathRound ((100 : ℚ) * (7 / 10))).toNat, (mathRound ((100 : ℚ) * (3 / 10))).toNat,
        100, 0⟩ ∧
      normalizeOpenAIUsage ⟨some 11, some 22, some 33, some 4⟩ = ⟨11, 22, 33, 4⟩ :=
  ⟨usage_split_estimation.1 none none (some 100) none rfl rfl (by decide),
    usage_split_estimation.2.1 (some 11) (some 22) (some 33) (some 4) (by decide)⟩

/-- C10: for every provider behaviour and request, the Anthropic
generate-stream operation yields exactly one incremental response, and
that response is the result of the blocking generate operation on the
same request — the stream is a one-element wrapper around the blocking
call. -/
theorem anthropic_stream_wraps_blocking :
    ∀ (provider : ACreateParams → AMessage) (cfg : SamplingCfg) (model fallbackId : String)
      (req : ARequest),
      anthropicGenerateContentStream provider cfg model fallbackId req =
        [anthropicGenerateContent provider cfg model fallbackId req] ∧
      (anthropicGenerateContentStream provider cfg model fallbackId req).length = 1 :=
  fun _ _ _ _ _ => ⟨rfl, rfl⟩

/-- Counterexample for C6: in the V1 Bedrock stream reassembler, a
malformed accumulated argument fragment at block close does not fall back
to an empty object — it aborts the whole stream with an error. -/
theorem bedrock_v1_malformed_json_aborts :
    bedrockV1Run
        [.contentBlockStart (some 0) (some ⟨some "id1", some "mytool"⟩),
          .contentBlockDelta (some 0) (some ⟨none, some (some "\x7bbad")⟩),
          .contentBlockStop (some 0)] =
      .error "Invalid JSON in tool call mytool" := rfl

/-! ### Streaming-scenario builders and helper lemmas -/

/-- Concatenation of the buffered argument fragments. -/
def joinAll : List String → String
  | [] => ""
  | s :: rest => s ++ joinAll rest

/-- A chunk opening a tool-call block: index, id and function name. -/
def mkToolStartChunk (idx : Nat) (id nm : String) : OAChunk :=
  ⟨[⟨⟨none, some [⟨some idx, some id, some nm, none, none, none⟩]⟩, none, none⟩], none⟩

/-- A chunk carrying one argument fragment for a block. -/
def mkToolFragChunk (idx : Nat) (f : String) : OAChunk :=
  ⟨[⟨⟨none, some [⟨some idx, none, none, some f, none, none⟩]⟩, none, none⟩], none⟩

/-- A chunk carrying only a finish reason. -/
def mkFinishChunk (r : String) : OAChunk := ⟨[⟨⟨none, none⟩, none, some r⟩], none⟩

/-- A chunk carrying only a text delta. -/
def mkTextChunk (t : String) : OAChunk := ⟨[⟨⟨some t, none⟩, none, none⟩], none⟩

/-- A Bedrock event opening a tool-use block. -/
def mkBRStart (idx : Nat) (id nm : String) : BREvent :=
  .contentBlockStart (some idx) (some ⟨some id, some nm⟩)

/-- A Bedrock event carrying one tool-input fragment. -/
def mkBRFrag (idx : Nat) (f : String) : BREvent :=
  .contentBlockDelta (some idx) (some ⟨none, some (some f)⟩)

/-- A Bedrock event closing a content block. -/
def mkBRStop (idx : Nat) : BREvent := .contentBlockStop (some idx)

/-- A Bedrock event carrying only a text delta. -/
def mkBRText (t : String) : BREvent := .contentBlockDelta none (some ⟨some t, none⟩)

theorem processChunk_frag (rep : String → Option String) (isJson : Bool) (idx : Nat)
    (f : String) (acc : OAAcc) :
    processChunk rep isJson ⟨[(idx, acc)], none⟩ (mkToolFragChunk idx f) =
      (⟨[(idx, { acc with args := acc.args ++ f })], none⟩, []) := by
  by_cases hf : f = ""
  · subst hf
    simp [processChunk, mkToolFragChunk, applyToolCallDelta, mapGet, mapSet, truthyJson,
      String.append_empty]
  · simp [processChunk, mkToolFragChunk, applyToolCallDelta, mapGet, mapSet, truthyJson, hf]

theorem openaiRun_frags (rep : String → Option String) (isJson : Bool) (idx : Nat)
    (acc : OAAcc) (outs : List (List GPart)) (frags : List String) :
    (frags.map (mkToolFragChunk idx)).foldl (openaiStep rep isJson) (⟨[(idx, acc)], none⟩, outs) =
      (⟨[(idx, { acc with args := acc.args ++ joinAll frags })], none⟩,
        outs ++ List.replicate frags.length []) := by
  induction frags generalizing acc outs with
  | nil => simp [joinAll, String.append_empty]
  | cons f fs ih =>
    simp only [List.map_cons, List.foldl_cons, openaiStep, processChunk_frag]
    rw [ih]
    simp [joinAll, String.append_assoc, List.replicate_succ]

theorem emitArgs_safeJsonParse (rep : String → Option String) (s : String) :
    (if s != "" then safeJsonParse rep (some s) (Json.obj []) else Json.obj []) =
      safeJsonParse rep (some s) (Json.obj []) := by
  by_cases hs : s = ""
  · subst hs
    simp [safeJsonParse]
  · simp [hs]

theorem processChunk_start (rep : String → Option String) (isJson : Bool) (idx : Nat)
    (id nm : String) (hid : id ≠ "") (hnm : nm ≠ "") :
    processChunk rep isJson ⟨[], none⟩ (mkToolStartChunk idx id nm) =
      (⟨[(idx, ⟨some id, some nm, "", none⟩)], none⟩, []) := by
  simp [processChunk, mkToolStartChunk, applyToolCallDelta, mapGet, mapSet, truthyJson, hid, hnm]

theorem processChunk_finish (rep : String → Option String) (idx : Nat) (id : Option String)
    (nm args r : String) (hr : r ≠ "") (hnm : nm ≠ "") :
    processChunk rep false ⟨[(idx, ⟨id, some nm, args, none⟩)], none⟩ (mkFinishChunk r) =
      (⟨[], none⟩, [.functionCall id nm (safeJsonParse rep (some args) (Json.obj [])) none]) := by
  simp only [processChunk, mkFinishChunk, List.head?_cons, Option.getD_some, emitCall,
    truthyJson, countFC, List.foldl_cons, List.foldl_nil]
  rw [emitArgs_safeJsonParse rep args]
  simp [hr, hnm]

theorem processChunk_text (rep : String → Option String) (isJson : Bool) (st : OAStreamState)
    (t : String) (ht : t ≠ "") :
    processChunk rep isJson st (mkTextChunk t) = (st, [.text t]) := by
  simp [processChunk, mkTextChunk, truthyJson, ht]

theorem openaiRun_texts (rep : String → Option String) (isJson : Bool) (st : OAStreamState)
    (outs : List (List GPart)) (texts : List String) (h : ∀ t ∈ texts, t ≠ "") :
    (texts.map mkTextChunk).foldl (openaiStep rep isJson) (st, outs) =
      (st, outs ++ texts.map fun t => [GPart.text t]) := by
  induction texts generalizing outs with
  | nil => simp
  | cons t ts ih =>
    have hstep : openaiStep rep isJson (st, outs) (mkTextChunk t) = (st, outs ++ [[GPart.text t]]) := by
      simp [openaiStep, processChunk_text rep isJson st t (h t (List.mem_cons_self t ts))]
    simp only [List.map_cons, List.foldl_cons, hstep]
    rw [ih (outs ++ [[GPart.text t]]) (fun x hx => h x (List.mem_cons_of_mem t hx))]
    simp

theorem bedrockV2Step_frag (rep : String → Option String) (idx : Nat) (acc : BRAcc)
    (i o : Nat) (f : String) :
    bedrockV2Step rep ⟨[(idx, acc)], i, o⟩ (mkBRFrag idx f) =
      (⟨[(idx, { acc with input := acc.input ++ f })], i, o⟩, []) := by
  simp [bedrockV2Step, mkBRFrag, mapGet, mapSet]

theorem bedrockV2Go_frags (rep : String → Option String) (idx : Nat) (acc : BRAcc)
    (i o : Nat) (frags : List String) (rest : List BREvent) :
    bedrockV2Go rep ⟨[(idx, acc)], i, o⟩ (frags.map (mkBRFrag idx) ++ rest) =
      bedrockV2Go rep ⟨[(idx, { acc with input := acc.input ++ joinAll frags })], i, o⟩ rest := by
  induction frags generalizing acc with
  | nil => simp [joinAll, String.append_empty]
  | cons f fs ih =>
    simp only [List.map_cons, List.cons_append, bedrockV2Go, bedrockV2Step_frag,
      List.nil_append, List.append_eq]
    rw [ih]
    simp [joinAll, String.append_assoc]

theorem bedrockV2Run_texts (rep : String → Option String) (st : BRState)
    (texts : List String) (h : ∀ t ∈ texts, t ≠ "") :
    bedrockV2Go rep st (texts.map mkBRText) =
      texts.map fun t => ⟨[GPart.text t], .UNSPECIFIED, none⟩ := by
  induction texts with
  | nil => simp [bedrockV2Go]
  | cons t ts ih =>
    have ht : t ≠ "" := h t (by simp)
    simp only [List.map_cons, bedrockV2Go, bedrockV2Step, mkBRText]
    simp [ht, ih (fun x hx => h x (by simp [hx]))]

theorem safeJsonParse_fail (rep : String → Option String) (s : String) (fb : Json)
    (h1 : parseJson s = none) (h2 : (rep s).bind parseJson = none) :
    safeJsonParse rep (some s) fb = fb := by
  by_cases hs : s = ""
  · subst hs
    simp [safeJsonParse]
  · simp only [safeJsonParse, if_neg hs, h1]
    cases hr : rep s with
    | none => rfl
    | some r =>
      rw [hr] at h2
      replace h2 : parseJson r = none := h2
      simp [h2]

theorem openaiRun_tool_scenario (rep : String → Option String) (idx : Nat) (id nm : String)
    (frags : List String) (hid : id ≠ "") (hnm : nm ≠ "") :
    openaiStreamRun rep false
        (mkToolStartChunk idx id nm :: frags.map (mkToolFragChunk idx) ++
          [mkFinishChunk "tool_calls"]) =
      List.replicate (frags.length + 1) [] ++
        [[.functionCall (some id) nm (safeJsonParse rep (some (joinAll frags)) (Json.obj []))
            none]] := by
  have h0 : openaiStep rep false (⟨[], none⟩, []) (mkToolStartChunk idx id nm) =
      (⟨[(idx, ⟨some id, some nm, "", none⟩)], none⟩, [[]]) := by
    simp [openaiStep, processChunk_start rep false idx id nm hid hnm]
  have h1 := openaiRun_frags rep false idx ⟨some id, some nm, "", none⟩ [[]] frags
  rw [String.empty_append] at h1
  show (List.foldl (openaiStep rep false)
      (openaiStep rep false (⟨[], none⟩, []) (mkToolStartChunk idx id nm))
      (frags.map (mkToolFragChunk idx) ++ [mkFinishChunk "tool_calls"])).2 = _
  rw [h0, List.foldl_append, h1, List.foldl_cons, List.foldl_nil]
  have h2 : openaiStep rep false
      (⟨[(idx, ⟨some id, some nm, joinAll frags, none⟩)], none⟩,
        [[]] ++ List.replicate frags.length []) (mkFinishChunk "tool_calls") =
      (⟨[], none⟩, ([[]] ++ List.replicate frags.length []) ++
        [[.functionCall (some id) nm (safeJsonParse rep (some (joinAll frags)) (Json.obj []))
            none]]) := by
    simp [openaiStep,
      processChunk_finish rep idx (some id) nm (joinAll frags) "tool_calls" (by decide) hnm]
  rw [h2]
  simp [List.replicate_succ]

theorem bedrockV2Run_tool_scenario (rep : String → Option String) (idx : Nat) (id nm : String)
    (frags : List String) (hnm : nm ≠ "") :
    bedrockV2Run rep (mkBRStart idx id nm :: frags.map (mkBRFrag idx) ++ [mkBRStop idx]) =
      [⟨[.functionCall (some id) nm (safeJsonParse rep (some (joinAll frags)) (Json.obj []))
            none], .STOP, none⟩] := by
  have h0 : bedrockV2Step rep ⟨[], 0, 0⟩ (mkBRStart idx id nm) =
      (⟨[(idx, ⟨some id, some nm, ""⟩)], 0, 0⟩, []) := by
    simp [bedrockV2Step, mkBRStart, mapSet]
  show bedrockV2Go rep ⟨[], 0, 0⟩
      (mkBRStart idx id nm :: (frags.map (mkBRFrag idx) ++ [mkBRStop idx])) = _
  rw [bedrockV2Go, h0]
  simp only [List.nil_append]
  rw [bedrockV2Go_frags rep idx ⟨some id, some nm, ""⟩ 0 0 frags [mkBRStop idx]]
  have heq : ({ id := some id, name := some nm, input := "" : BRAcc }.input ++ joinAll frags) =
      joinAll frags := String.empty_append _
  rw [show ({ (⟨some id, some nm, ""⟩ : BRAcc) with input :=
      (⟨some id, some nm, ""⟩ : BRAcc).input ++ joinAll frags }) =
      (⟨some id, some nm, joinAll frags⟩ : BRAcc) by rw [heq]]
  have h2 : bedrockV2Step rep ⟨[(idx, ⟨some id, some nm, joinAll frags⟩)], 0, 0⟩
      (mkBRStop idx) =
      (⟨[], 0, 0⟩,
        [⟨[.functionCall (some id) nm (safeJsonParse rep (some (joinAll frags)) (Json.obj []))
            none], .STOP, none⟩]) := by
    simp [bedrockV2Step, mkBRStop, mapGet, mapDel, hnm]
  rw [bedrockV2Go, h2]
  simp [bedrockV2Go]

/-- C1: for every stream in which a tool-use block is opened and receives
argument fragments as deltas followed by the provider's block-stop (V2
Bedrock reassembler) or the overall finish-reason chunk (OpenAI-style
reassembler), exactly one canonical tool-call part is emitted for that
block — at the close, never earlier (every chunk before the close
contributes no parts) — and its arguments are the (lenient) JSON parse of
the concatenated fragment buffer; text deltas are emitted immediately in
arrival order; concretely, fragments `{"pat` + `h": "` + `/src"}`
concatenate and parse to `{"path": "/src"}`. -/
theorem streaming_tool_call_reassembly :
    (∀ (rep : String → Option String) (idx : Nat) (id nm : String) (frags : List String),
      id ≠ "" → nm ≠ "" →
      openaiStreamRun rep false
          (mkToolStartChunk idx id nm :: frags.map (mkToolFragChunk idx) ++
            [mkFinishChunk "tool_calls"]) =
        List.replicate (frags.length + 1) [] ++
          [[.functionCall (some id) nm (safeJsonParse rep (some (joinAll frags)) (Json.obj []))
              none]]) ∧
    (∀ (rep : String → Option String) (texts : List String), (∀ t ∈ texts, t ≠ "") →
      openaiStreamRun rep false (texts.map mkTextChunk) = texts.map fun t => [GPart.text t]) ∧
    (∀ (rep : String → Option String) (idx : Nat) (id nm : String) (frags : List String),
      nm ≠ "" →
      bedrockV2Run rep (mkBRStart idx id nm :: frags.map (mkBRFrag idx) ++ [mkBRStop idx]) =
        [⟨[.functionCall (some id) nm (safeJsonParse rep (some (joinAll frags)) (Json.obj []))
              none], .STOP, none⟩]) ∧
    (∀ (rep : String → Option String) (texts : List String), (∀ t ∈ texts, t ≠ "") →
      bedrockV2Run rep (texts.map mkBRText) =
        texts.map fun t => ⟨[GPart.text t], .UNSPECIFIED, none⟩) ∧
    (joinAll ["\x7b\"pat", "h\": \"", "/src\"\x7d"] = "\x7b\"path\": \"/src\"\x7d" ∧
      ∀ rep : String → Option String,
        safeJsonParse rep (some "\x7b\"path\": \"/src\"\x7d") (Json.obj []) =
          Json.obj [("path", Json.str "/src")]) := by
  refine ⟨?_, ?_, ?_, ?_, rfl, fun rep => rfl⟩
  · exact fun rep idx id nm frags hid hnm => openaiRun_tool_scenario rep idx id nm frags hid hnm
  · intro rep texts h
    simp only [openaiStreamRun]
    rw [openaiRun_texts rep false ⟨[], none⟩ [] texts h]
    simp
  · exact fun rep idx id nm frags hnm => bedrockV2Run_tool_scenario rep idx id nm frags hnm
  · intro rep texts h
    exact bedrockV2Run_texts rep ⟨[], 0, 0⟩ texts h

/-- Witness for C1: the spec's concrete streaming scenario on both
reassemblers (three fragments, then the close), plus interleaved text
deltas. -/
theorem streaming_tool_call_reassembly_witness :
    openaiStreamRun (fun _ => none) false
        (mkToolStartChunk 0 "call_1" "list_dir" ::
          ["\x7b\"pat", "h\": \"", "/src\"\x7d"].map (mkToolFragChunk 0) ++
            [mkFinishChunk "tool_calls"]) =
      List.replicate 4 [] ++
        [[.functionCall (some "call_1") "list_dir"
            (safeJsonParse (fun _ => none) (some (joinAll ["\x7b\"pat", "h\": \"", "/src\"\x7d"]))
              (Json.obj []))
            none]] ∧
      bedrockV2Run (fun _ => none)
          (mkBRStart 0 "id1" "list_dir" ::
            ["\x7b\"pat", "h\": \"", "/src\"\x7d"].map (mkBRFrag 0) ++ [mkBRStop 0]) =
        [⟨[.functionCall (some "id1") "list_dir"
              (safeJsonParse (fun _ => none)
                (some (joinAll ["\x7b\"pat", "h\": \"", "/src\"\x7d"])) (Json.obj []))
              none], .STOP, none⟩] ∧
      openaiStreamRun (fun _ => none) false (["Hello", " world"].map mkTextChunk) =
        [[GPart.text "Hello"], [GPart.text " world"]] :=
  ⟨streaming_tool_call_reassembly.1 (fun _ => none) 0 "call_1" "list_dir"
      ["\x7b\"pat", "h\": \"", "/src\"\x7d"] (by decide) (by decide),
    streaming_tool_call_reassembly.2.2.1 (fun _ => none) 0 "id1" "list_dir"
      ["\x7b\"pat", "h\": \"", "/src\"\x7d"] (by decide),
    streaming_tool_call_reassembly.2.1 (fun _ => none) ["Hello", " world"] (by decide)⟩

theorem bedrockV1Run_malformed (idx : Nat) (id nm s : String) (hid : id ≠ "") (hnm : nm ≠ "")
    (hs : s ≠ "") (hp : parseJson s = none) :
    bedrockV1Run [mkBRStart idx id nm, mkBRFrag idx s, mkBRStop idx] =
      .error ("Invalid JSON in tool call " ++ nm) := by
  have e1 : bedrockV1Step ⟨[], 0⟩ (mkBRStart idx id nm) =
      .ok (⟨[(idx, ⟨some id, some nm, ""⟩)], idx⟩, []) := by
    simp [bedrockV1Step, mkBRStart, mapSet]
  have e2 : bedrockV1Step ⟨[(idx, ⟨some id, some nm, ""⟩)], idx⟩ (mkBRFrag idx s) =
      .ok (⟨[(idx, ⟨some id, some nm, s⟩)], idx⟩, []) := by
    simp [bedrockV1Step, mkBRFrag, mapGet, mapSet, hs, String.empty_append]
  have e3 : bedrockV1Step ⟨[(idx, ⟨some id, some nm, s⟩)], idx⟩ (mkBRStop idx) =
      .error ("Invalid JSON in tool call " ++ nm) := by
    simp [bedrockV1Step, mkBRStop, mapGet, hid, hnm, hs, hp]
  simp [bedrockV1Run, bedrockV1Go, e1, e2, e3]

/-- C6 (amended): `safeJsonParse` returns its fallback for non-string,
empty, and unparseable-even-after-repair inputs and never throws (it is
total); at block close the OpenAI-style reassembler and the V2
Bedrock-style reassembler parse the buffered arguments with
`safeJsonParse` and therefore yield an empty-object argument instead of
throwing when parse and repair both fail; the V1 Bedrock-style handler,
however, strict-parses the buffer and aborts the stream on malformed
input (an empty buffer still yields `{}`). -/
theorem tool_argument_parse_fallback :
    (∀ (rep : String → Option String) (fb : Json), safeJsonParse rep none fb = fb) ∧
    (∀ (rep : String → Option String) (fb : Json), safeJsonParse rep (some "") fb = fb) ∧
    (∀ (rep : String → Option String) (s : String) (fb : Json),
      parseJson s = none → (rep s).bind parseJson = none →
      safeJsonParse rep (some s) fb = fb) ∧
    (∀ (rep : String → Option String) (idx : Nat) (id nm s : String),
      nm ≠ "" → parseJson s = none → (rep s).bind parseJson = none →
      bedrockV2Run rep [mkBRStart idx id nm, mkBRFrag idx s, mkBRStop idx] =
        [⟨[.functionCall (some id) nm (Json.obj []) none], .STOP, none⟩]) ∧
    (∀ (rep : String → Option String) (idx : Nat) (id nm s : String),
      id ≠ "" → nm ≠ "" → parseJson s = none → (rep s).bind parseJson = none →
      openaiStreamRun rep false
          [mkToolStartChunk idx id nm, mkToolFragChunk idx s, mkFinishChunk "tool_calls"] =
        [[], [], [.functionCall (some id) nm (Json.obj []) none]]) ∧
    (∀ (idx : Nat) (id nm s : String),
      id ≠ "" → nm ≠ "" → s ≠ "" → parseJson s = none →
      bedrockV1Run [mkBRStart idx id nm, mkBRFrag idx s, mkBRStop idx] =
        .error ("Invalid JSON in tool call " ++ nm)) := by
  refine ⟨fun rep fb => rfl, fun rep fb => rfl, safeJsonParse_fail, ?_, ?_, ?_⟩
  · intro rep idx id nm s hnm hp hb
    have h := bedrockV2Run_tool_scenario rep idx id nm [s] hnm
    rw [show joinAll [s] = s by simp [joinAll, String.append_empty]] at h
    rw [safeJsonParse_fail rep s (Json.obj []) hp hb] at h
    simpa using h
  · intro rep idx id nm s hid hnm hp hb
    have h := openaiRun_tool_scenario rep idx id nm [s] hid hnm
    rw [show joinAll [s] = s by simp [joinAll, String.append_empty]] at h
    rw [safeJsonParse_fail rep s (Json.obj []) hp hb] at h
    simpa [List.replicate_succ] using h
  · exact fun idx id nm s hid hnm hs hp => bedrockV1Run_malformed idx id nm s hid hnm hs hp

/-- Witness for C6: at the malformed buffer `{bad` (with a repair oracle
that throws), `safeJsonParse` yields the fallback, the V2 Bedrock and
OpenAI reassemblers emit the call with empty-object arguments, and the V1
handler aborts. -/
theorem tool_argument_parse_fallback_witness :
    safeJsonParse (fun _ => none) (some "\x7bbad") (Json.obj []) = Json.obj [] ∧
      bedrockV2Run (fun _ => none) [mkBRStart 0 "id1" "mytool", mkBRFrag 0 "\x7bbad",
          mkBRStop 0] =
        [⟨[.functionCall (some "id1") "mytool" (Json.obj []) none], .STOP, none⟩] ∧
      openaiStreamRun (fun _ => none) false
          [mkToolStartChunk 0 "call_1" "mytool", mkToolFragChunk 0 "\x7bbad",
            mkFinishChunk "tool_calls"] =
        [[], [], [.functionCall (some "call_1") "mytool" (Json.obj []) none]] ∧
      bedrockV1Run [mkBRStart 0 "id1" "mytool", mkBRFrag 0 "\x7bbad", mkBRStop 0] =
        .error "Invalid JSON in tool call mytool" :=
  ⟨tool_argument_parse_fallback.2.2.1 (fun _ => none) "\x7bbad" (Json.obj []) rfl rfl,
    tool_argument_parse_fallback.2.2.2.1 (fun _ => none) 0 "id1" "mytool" "\x7bbad"
      (by decide) rfl rfl,
    tool_argument_parse_fallback.2.2.2.2.1 (fun _ => none) 0 "call_1" "mytool" "\x7bbad"
      (by decide) (by decide) rfl rfl,
    tool_argument_parse_fallback.2.2.2.2.2 0 "id1" "mytool" "\x7bbad" (by decide) (by decide)
      (by decide) rfl⟩

theorem decodeArgs_eq (rep : String → Option String) (a : Option String) :
    (match a with
      | some x => if x != "" then safeJsonParse rep (some x) (Json.obj []) else Json.obj []
      | none => Json.obj []) = safeJsonParse rep (some (a.getD "")) (Json.obj []) := by
  cases a with
  | none => rfl
  | some x => exact emitArgs_safeJsonParse rep x

/-- C7: a request carrying a truthy `responseJsonSchema` with the JSON
mime type makes the converter emit exactly one tool declaration — the
synthetic `respond_in_schema` declaration whose parameter schema is the
caller's schema verbatim — regardless of the request's own tools; and
decoding a response whose message calls that synthetic tool yields a
single text part containing the JSON serialization of the parsed
arguments and zero tool-call parts (concretely, arguments `{"x":5}`
decode to the text part `{"x":5}`). -/
theorem json_schema_synthetic_tool_roundtrip :
    (∀ (schema : Json) (tools : Option (List FuncDecl)), schema.truthy = true →
      buildRequestTools (some schema) (some "application/json") tools =
        some [⟨"respond_in_schema", "Provide the response in the specified JSON schema format",
            schema⟩]) ∧
    (∀ (rep : String → Option String) (id : String) (argStr : Option String)
        (fr : Option String) (usage : Option OAUsage),
      (convertToGeminiFormatResp rep true
          ⟨⟨none, some [⟨id, "respond_in_schema", argStr, none, none⟩], none⟩, fr⟩
          usage).parts =
        [.text (Json.stringify (safeJsonParse rep (some (argStr.getD "")) (Json.obj [])))] ∧
      ((convertToGeminiFormatResp rep true
          ⟨⟨none, some [⟨id, "respond_in_schema", argStr, none, none⟩], none⟩, fr⟩
          usage).parts.countP GPart.isFC = 0)) ∧
    (∀ rep : String → Option String,
      Json.stringify (safeJsonParse rep (some "\x7b\"x\":5\x7d") (Json.obj [])) =
        "\x7b\"x\":5\x7d") := by
  refine ⟨?_, ?_, fun rep => rfl⟩
  · intro schema tools hschema
    simp [buildRequestTools, jsTruthyOpt, hschema, respondInSchemaDecl]
  · intro rep id argStr fr usage
    have hparts : (convertToGeminiFormatResp rep true
        ⟨⟨none, some [⟨id, "respond_in_schema", argStr, none, none⟩], none⟩, fr⟩
        usage).parts =
        [.text (Json.stringify (safeJsonParse rep (some (argStr.getD "")) (Json.obj [])))] := by
      simp only [convertToGeminiFormatResp, decodeRespToolCall, List.foldl_cons, List.foldl_nil,
        truthyJson]
      rw [decodeArgs_eq rep argStr]
      rfl
    exact ⟨hparts, by rw [hparts]; rfl⟩

/-- Witness for C7: the spec scenario — the schema
`{type: "object", properties: {x: {type: "integer"}}}`
yields exactly the synthetic declaration, and a response calling it with
`{"x":5}` decodes to the text part `{"x":5}` with zero
tool-call parts. -/
theorem json_schema_synthetic_tool_roundtrip_witness :
    buildRequestTools
        (some (Json.obj [("type", .str "object"),
          ("properties", .obj [("x", .obj [("type", .str "integer")])])]))
        (some "application/json")
        (some [⟨"other_tool", "another tool", none⟩]) =
      some [⟨"respond_in_schema", "Provide the response in the specified JSON schema format",
          Json.obj [("type", .str "object"),
            ("properties", .obj [("x", .obj [("type", .str "integer")])])]⟩] ∧
      (convertToGeminiFormatResp (fun _ => none) true
          ⟨⟨none, some [⟨"call_1", "respond_in_schema", some "\x7b\"x\":5\x7d", none, none⟩],
            none⟩, some "tool_calls"⟩ none).parts =
        [.text (Json.stringify
          (safeJsonParse (fun _ => none) (some ((some "\x7b\"x\":5\x7d").getD ""))
            (Json.obj [])))] :=
  ⟨json_schema_synthetic_tool_roundtrip.1
      (Json.obj [("type", .str "object"),
        ("properties", .obj [("x", .obj [("type", .str "integer")])])])
      (some [⟨"other_tool", "another tool", none⟩]) rfl,
    (json_schema_synthetic_tool_roundtrip.2.1 (fun _ => none) "call_1"
      (some "\x7b\"x\":5\x7d") (some "tool_calls") none).1⟩

/-- Is the part a thought-flagged text part? -/
def GemPart.isThoughtText : GemPart → Bool
  | .textPart _ th _ => th
  | _ => false

/-- The ordinary-text contribution of one part in the OpenAI bucketing. -/
def openaiTextContrib : GemPart → List String
  | .strPart s =>
    if filterReasoningDetailsMarker s != "" then [filterReasoningDetailsMarker s] else []
  | .textPart t thought _ =>
    if t != "" && !thought && filterReasoningDetailsMarker t != "" then
      [filterReasoningDetailsMarker t]
    else []
  | _ => []

theorem openaiBucketStep_textParts (st : OABucket) (p : GemPart) :
    (openaiBucketStep st p).textParts = st.textParts ++ openaiTextContrib p := by
  cases p with
  | strPart s =>
    by_cases h : filterReasoningDetailsMarker s = "" <;>
      simp [openaiBucketStep, openaiTextContrib, h]
  | textPart t th sig =>
    by_cases ht : t = ""
    · simp [openaiBucketStep, openaiTextContrib, ht]
    · cases th with
      | true =>
        by_cases hstart : jsStartsWith t rdMarker
        · cases hp : parseJson (stringDrop t rdMarker.length) <;>
            simp [openaiBucketStep, openaiTextContrib, ht, hstart, hp]
        · simp [openaiBucketStep, openaiTextContrib, ht, hstart]
      | false =>
        by_cases hcl : filterReasoningDetailsMarker t = "" <;>
          simp [openaiBucketStep, openaiTextContrib, ht, hcl]
  | funcCallPart fc sig =>
    cases htj : truthyJson sig with
    | none => simp [openaiBucketStep, openaiTextContrib, htj]
    | some v =>
      simp only [openaiBucketStep, openaiTextContrib, htj]
      split_ifs <;> simp
  | funcRespPart fr => simp [openaiBucketStep, openaiTextContrib]

theorem openaiBucket_textParts_general (st : OABucket) (parts : List GemPart) :
    (parts.foldl openaiBucketStep st).textParts =
      st.textParts ++ parts.flatMap openaiTextContrib := by
  induction parts generalizing st with
  | nil => simp
  | cons p ps ih =>
    simp only [List.foldl_cons, List.flatMap_cons, ih, openaiBucketStep_textParts]
    simp [List.append_assoc]

/-- The text-block contribution of one part in the V2 Bedrock bucketing. -/
def bedrockTextContrib : GemPart → List String
  | .strPart s => [s]
  | .textPart t thought _ => if t != "" && !thought then [t] else []
  | _ => []

theorem bedrockBucketStep_blocks (st : B2Bucket) (p : GemPart) :
    (bedrockBucketStep st p).contentBlocks = st.contentBlocks ++ bedrockTextContrib p := by
  cases p with
  | strPart s => simp [bedrockBucketStep, bedrockTextContrib]
  | textPart t th sig =>
    simp only [bedrockBucketStep, bedrockTextContrib]
    split_ifs <;> simp
  | funcCallPart fc sig => simp [bedrockBucketStep, bedrockTextContrib]
  | funcRespPart fr => simp [bedrockBucketStep, bedrockTextContrib]

theorem bedrockBucket_blocks_general (st : B2Bucket) (parts : List GemPart) :
    (parts.foldl bedrockBucketStep st).contentBlocks =
      st.contentBlocks ++ parts.flatMap bedrockTextContrib := by
  induction parts generalizing st with
  | nil => simp
  | cons p ps ih =>
    simp only [List.foldl_cons, List.flatMap_cons, ih, bedrockBucketStep_blocks]
    simp [List.append_assoc]

theorem flatMap_filter_thought (contrib : GemPart → List String)
    (hc : ∀ t sig, contrib (.textPart t true sig) = []) (parts : List GemPart) :
    parts.flatMap contrib = (parts.filter fun p => !p.isThoughtText).flatMap contrib := by
  induction parts with
  | nil => rfl
  | cons p ps ih =>
    cases p with
    | textPart t th sig =>
      cases th with
      | true => simp [GemPart.isThoughtText, hc, ih]
      | false => simp [GemPart.isThoughtText, ih]
    | strPart s => simp [GemPart.isThoughtText, ih]
    | funcCallPart fc sig => simp [GemPart.isThoughtText, ih]
    | funcRespPart fr => simp [GemPart.isThoughtText, ih]

/-- C9 (amended): in the OpenAI converter's per-turn part bucketing and in
the V2 Bedrock converter's bucketing, thought-flagged text parts never
contribute to the ordinary text buckets (removing them leaves the text
buckets unchanged); the Anthropic adapter's `processContentParts`, by
contrast, emits the text of a thought-flagged part as an ordinary text
block. -/
theorem reasoning_text_bucketing :
    (∀ parts : List GemPart,
      (openaiBucket parts).textParts =
        (openaiBucket (parts.filter fun p => !p.isThoughtText)).textParts) ∧
    (∀ parts : List GemPart,
      (bedrockBucket parts).contentBlocks =
        (bedrockBucket (parts.filter fun p => !p.isThoughtText)).contentBlocks) ∧
    (∀ (fallbackId t : String) (sig : Option Json), t ≠ "" →
      anthropicProcessParts fallbackId [.textPart t true sig] = [.textB t]) := by
  refine ⟨?_, ?_, ?_⟩
  · intro parts
    rw [show openaiBucket parts = parts.foldl openaiBucketStep ⟨[], [], [], none⟩ from rfl]
    rw [show openaiBucket (parts.filter fun p => !p.isThoughtText) =
      (parts.filter fun p => !p.isThoughtText).foldl openaiBucketStep ⟨[], [], [], none⟩ from rfl]
    rw [openaiBucket_textParts_general, openaiBucket_textParts_general]
    rw [flatMap_filter_thought openaiTextContrib (fun t sig => by simp [openaiTextContrib])]
  · intro parts
    rw [show bedrockBucket parts = parts.foldl bedrockBucketStep ⟨[], [], []⟩ from rfl]
    rw [show bedrockBucket (parts.filter fun p => !p.isThoughtText) =
      (parts.filter fun p => !p.isThoughtText).foldl bedrockBucketStep ⟨[], [], []⟩ from rfl]
    rw [bedrockBucket_blocks_general, bedrockBucket_blocks_general]
    rw [flatMap_filter_thought bedrockTextContrib (fun t sig => by simp [bedrockTextContrib])]
  · intro fallbackId t sig ht
    simp [anthropicProcessParts, ht]

/-- Counterexample for C9: the Anthropic adapter emits a thought-flagged
text part as ordinary message text (here an assistant turn whose single
part is internal reasoning becomes a `text` content block carrying it). -/
theorem anthropic_emits_thought_text :
    anthropicProcessParts "fallback" [.textPart "internal reasoning" true none] =
      [.textB "internal reasoning"] := rfl

/-- Witness for C9: the Anthropic inclusion clause at a concrete thought
part, and both exclusion clauses at a mixed concrete part list. -/
theorem reasoning_text_bucketing_witness :
    anthropicProcessParts "fb" [.textPart "secret" true none] = [.textB "secret"] ∧
      (openaiBucket [.textPart "secret" true none, .textPart "visible" false none]).textParts =
        (openaiBucket [.textPart "visible" false none]).textParts :=
  ⟨reasoning_text_bucketing.2.2 "fb" "secret" none (by decide),
    by
      have h := reasoning_text_bucketing.1
        [.textPart "secret" true none, .textPart "visible" false none]
      simpa using h⟩

/-! ### Schema-normalization invariants (C4) -/

theorem char_ofNat_toNat (n : Nat) (h : n.isValidChar) : (Char.ofNat n).toNat = n := by
  simp only [Char.ofNat, h, dif_pos, Char.ofNatAux, Char.toNat, UInt32.ofNat']
  rfl

theorem toLower_toNat_not_upper (c : Char) :
    ¬(65 ≤ c.toLower.toNat ∧ c.toLower.toNat ≤ 90) := by
  simp only [Char.toLower]
  split
  · next h =>
    have hv : (c.toNat + 32).isValidChar := by
      constructor
      omega
    rw [char_ofNat_toNat _ hv]
    omega
  · next h => omega

theorem char_toLower_idem (c : Char) : c.toLower.toLower = c.toLower := by
  have h := toLower_toNat_not_upper c
  show (if c.toLower.toNat ≥ 65 ∧ c.toLower.toNat ≤ 90 then
    Char.ofNat (c.toLower.toNat + 32) else c.toLower) = c.toLower
  rw [if_neg (by omega)]

theorem jsToLower_idem (s : String) : jsToLower (jsToLower s) = jsToLower s := by
  simp [jsToLower, List.map_map, Function.comp_def, char_toLower_idem]

/-- The schema keys with numeric-coercion handling in the OpenAI variant. -/
def numericKeys : List String :=
  ["minimum", "maximum", "multipleOf", "minLength", "maxLength", "minItems", "maxItems"]

mutual

/-- Well-formed parameter-schema tree: every `type` value is null, an
array or a string, numeric-constraint keys hold non-container values, and
these conditions hold at every nesting depth. -/
def wfJson : Json → Bool
  | .obj fields => wfFields fields
  | .arr es => wfElems es
  | _ => true

/-- Well-formedness of object members. -/
def wfFields : List (String × Json) → Bool
  | [] => true
  | (k, v) :: rest =>
    (if k = "type" then
      match v with
      | .null => true
      | .arr _ => true
      | .str _ => true
      | _ => false
    else if k ∈ numericKeys then
      match v with
      | .obj _ => false
      | .arr _ => false
      | _ => true
    else wfJson v) && wfFields rest

/-- Well-formedness of array elements. -/
def wfElems : List Json → Bool
  | [] => true
  | e :: rest => wfJson e && wfElems rest

end

/-- Well-formedness of one object member. -/
def wfEntry (k : String) (v : Json) : Bool :=
  if k = "type" then
    match v with
    | .null => true
    | .arr _ => true
    | .str _ => true
    | _ => false
  else if k ∈ numericKeys then
    match v with
    | .obj _ => false
    | .arr _ => false
    | _ => true
  else wfJson v

theorem wfFields_cons (k : String) (v : Json) (rest : List (String × Json)) :
    wfFields ((k, v) :: rest) = (wfEntry k v && wfFields rest) := rfl

/-- The per-object property/type condition of the sanitized dialect: a
truthy `properties` member requires a truthy lowercase-string `type`. -/
def goodProps (fields : List (String × Json)) : Bool :=
  if jsTruthyOpt (lookupF fields "properties") then
    match lookupF fields "type" with
    | some (.str s) => s != "" && (jsToLower s == s)
    | _ => false
  else true

mutual

/-- Sanitized-dialect invariant: every `type` member is a single
lowercase string, and every object with truthy `properties` has a truthy
lowercase-string `type`, at every nesting depth. -/
def goodJson : Json → Bool
  | .obj fields => goodProps fields && goodFields fields
  | .arr es => goodElems es
  | _ => true

/-- Sanitized-dialect invariant over object members. -/
def goodFields : List (String × Json) → Bool
  | [] => true
  | (k, v) :: rest =>
    (if k = "type" then
      match v with
      | .str s => jsToLower s == s
      | _ => false
    else goodJson v) && goodFields rest

/-- Sanitized-dialect invariant over array elements. -/
def goodElems : List Json → Bool
  | [] => true
  | e :: rest => goodJson e && goodElems rest

end

/-- Sanitized-dialect invariant for one object member. -/
def goodEntry (k : String) (v : Json) : Bool :=
  if k = "type" then
    match v with
    | .str s => jsToLower s == s
    | _ => false
  else goodJson v

theorem goodFields_cons (k : String) (v : Json) (rest : List (String × Json)) :
    goodFields ((k, v) :: rest) = (goodEntry k v && goodFields rest) := rfl

/-- Root conformance: the tree is an object with a truthy
lowercase-string `type` and a present `properties` member. -/
def rootOk (j : Json) : Bool :=
  match j.getField "type", j.getField "properties" with
  | some (.str s), some _ => s != "" && (jsToLower s == s)
  | _, _ => false

theorem lookupF_setField_self (l : List (String × Json)) (k : String) (v : Json) :
    lookupF (setField l k v) k = some v := by
  induction l with
  | nil => simp [setField, lookupF]
  | cons p rest ih =>
    rcases p with ⟨k2, v2⟩
    by_cases h : k2 = k
    · simp [setField, h, lookupF]
    · simp [setField, h, lookupF, ih]

theorem lookupF_setField_ne (l : List (String × Json)) (k k2 : String) (v : Json)
    (h : k2 ≠ k) : lookupF (setField l k v) k2 = lookupF l k2 := by
  induction l with
  | nil => simp [setField, lookupF, Ne.symm h]
  | cons p rest ih =>
    rcases p with ⟨k3, v3⟩
    by_cases hp : k3 = k
    · subst hp
      simp [setField, lookupF, Ne.symm h]
    · by_cases hk2 : k3 = k2
      · subst hk2
        simp [setField, hp, lookupF]
      · simp [setField, hp, lookupF, hk2, ih]

theorem goodFields_setField (l : List (String × Json)) (k : String) (v : Json)
    (hl : goodFields l = true) (hv : goodEntry k v = true) :
    goodFields (setField l k v) = true := by
  induction l with
  | nil =>
    show goodFields [(k, v)] = true
    rw [goodFields_cons]
    exact band_intro hv rfl
  | cons p rest ih =>
    rcases p with ⟨k2, v2⟩
    rw [goodFields_cons] at hl
    by_cases h : k2 = k
    · simp only [setField, if_pos h]
      rw [goodFields_cons]
      exact band_intro hv (band_right hl)
    · simp only [setField, if_neg h]
      rw [goodFields_cons]
      exact band_intro (band_left hl) (ih (band_right hl))

/-- Is the value a legal `type` value shape (null, array or string)? -/
def isTypeLike (v : Json) : Bool :=
  match v with
  | .null => true
  | .arr _ => true
  | .str _ => true
  | _ => false

theorem convertTypeValue_lower (v : Json) (h : isTypeLike v = true) :
    ∃ s, convertTypeValue v = .str s ∧ jsToLower s = s := by
  cases v with
  | null => exact ⟨"object", rfl, rfl⟩
  | str s => exact ⟨jsToLower s, rfl, jsToLower_idem s⟩
  | arr es =>
    simp only [convertTypeValue]
    cases hf : es.find? (fun t =>
      match t with
      | .str s => jsToLower s ≠ "null"
      | _ => false) with
    | none => exact ⟨"object", rfl, rfl⟩
    | some v0 =>
      cases v0 with
      | str s => exact ⟨jsToLower s, rfl, jsToLower_idem s⟩
      | null => exact ⟨"object", rfl, rfl⟩
      | bool b => exact ⟨"object", rfl, rfl⟩
      | num n => exact ⟨"object", rfl, rfl⟩
      | arr l2 => exact ⟨"object", rfl, rfl⟩
      | obj l2 => exact ⟨"object", rfl, rfl⟩
  | bool b => simp [isTypeLike] at h
  | num n => simp [isTypeLike] at h
  | obj l => simp [isTypeLike] at h

theorem wf_lookup_type (l : List (String × Json)) (v : Json) (hl : wfFields l = true)
    (hv : lookupF l "type" = some v) : isTypeLike v = true := by
  induction l with
  | nil => simp [lookupF] at hv
  | cons p rest ih =>
    rcases p with ⟨k2, v2⟩
    rw [wfFields_cons] at hl
    simp only [lookupF] at hv
    by_cases h : k2 = "type"
    · rw [if_pos h] at hv
      subst h
      have h2 := band_left hl
      cases hv
      unfold wfEntry at h2
      simpa [isTypeLike] using h2
    · rw [if_neg h] at hv
      exact ih (band_right hl) hv

/-- The value transformation applied to one object member by the OpenAI
`convertTypes`. -/
def convEntryValO (k : String) (v : Json) : Json :=
  if k = "type" then convertTypeValue v
  else if k = "minimum" ∨ k = "maximum" ∨ k = "multipleOf" then numCoerce v
  else if k = "minLength" ∨ k = "maxLength" ∨ k = "minItems" ∨ k = "maxItems" then numCoerce v
  else if isObjectTypeof v then convTypesO v
  else v

theorem convFieldsO_cons (k : String) (v : Json) (rest : List (String × Json)) :
    convFieldsO ((k, v) :: rest) = (k, convEntryValO k v) :: convFieldsO rest := rfl

/-- The value transformation applied to one object member by the Bedrock
`convertTypes`. -/
def convEntryValB (k : String) (v : Json) : Json :=
  if k = "type" then convertTypeValue v
  else if isObjectTypeof v then convTypesB v
  else v

theorem convFieldsB_cons (k : String) (v : Json) (rest : List (String × Json)) :
    convFieldsB ((k, v) :: rest) = (k, convEntryValB k v) :: convFieldsB rest := rfl

theorem convTypesO_obj (fields : List (String × Json)) :
    convTypesO (.obj fields) =
      .obj
        (if jsTruthyOpt (lookupF (convFieldsO fields) "properties") &&
            !jsTruthyOpt (lookupF (convFieldsO fields) "type") then
          setField (convFieldsO fields) "type" (.str "object")
        else convFieldsO fields) := rfl

theorem convTypesB_obj (fields : List (String × Json)) :
    convTypesB (.obj fields) =
      .obj
        (if jsTruthyOpt (lookupF (convFieldsB fields) "properties") &&
            !jsTruthyOpt (lookupF (convFieldsB fields) "type") then
          setField (convFieldsB fields) "type" (.str "object")
        else convFieldsB fields) := rfl

theorem lookupF_convFields_general (tf : String → Json → Json)
    (cf : List (String × Json) → List (String × Json))
    (hcf : ∀ k v rest, cf ((k, v) :: rest) = (k, tf k v) :: cf rest) (hnil : cf [] = [])
    (l : List (String × Json)) (k : String) :
    lookupF (cf l) k = (lookupF l k).map (tf k) := by
  induction l with
  | nil => simp [hnil, lookupF]
  | cons p rest ih =>
    rcases p with ⟨k2, v2⟩
    rw [hcf]
    by_cases h : k2 = k
    · subst h
      simp [lookupF]
    · simp [lookupF, h, ih]

theorem lookupF_convFieldsO (l : List (String × Json)) (k : String) :
    lookupF (convFieldsO l) k = (lookupF l k).map (convEntryValO k) :=
  lookupF_convFields_general convEntryValO convFieldsO convFieldsO_cons rfl l k

theorem lookupF_convFieldsB (l : List (String × Json)) (k : String) :
    lookupF (convFieldsB l) k = (lookupF l k).map (convEntryValB k) :=
  lookupF_convFields_general convEntryValB convFieldsB convFieldsB_cons rfl l k

theorem convEntryValO_type (v : Json) : convEntryValO "type" v = convertTypeValue v := rfl

theorem convEntryValB_type (v : Json) : convEntryValB "type" v = convertTypeValue v := rfl

theorem truthy_convTypesO (v : Json) : (convTypesO v).truthy = v.truthy := by
  cases v <;> rfl

theorem truthy_convTypesB (v : Json) : (convTypesB v).truthy = v.truthy := by
  cases v <;> rfl

theorem truthy_convEntryValO_props (v : Json) :
    (convEntryValO "properties" v).truthy = v.truthy := by
  show (if ("properties" : String) = "type" then convertTypeValue v
    else if ("properties" : String) = "minimum" ∨ ("properties" : String) = "maximum" ∨
        ("properties" : String) = "multipleOf" then numCoerce v
    else if ("properties" : String) = "minLength" ∨ ("properties" : String) = "maxLength" ∨
        ("properties" : String) = "minItems" ∨ ("properties" : String) = "maxItems" then
      numCoerce v
    else if isObjectTypeof v then convTypesO v
    else v).truthy = v.truthy
  rw [if_neg (by decide), if_neg (by decide), if_neg (by decide)]
  by_cases h : isObjectTypeof v = true
  · rw [if_pos h]
    exact truthy_convTypesO v
  · rw [if_neg h]

theorem truthy_convEntryValB_props (v : Json) :
    (convEntryValB "properties" v).truthy = v.truthy := by
  show (if ("properties" : String) = "type" then convertTypeValue v
    else if isObjectTypeof v then convTypesB v
    else v).truthy = v.truthy
  rw [if_neg (by decide)]
  by_cases h : isObjectTypeof v = true
  · rw [if_pos h]
    exact truthy_convTypesB v
  · rw [if_neg h]

mutual

theorem convTypesO_good : ∀ j, wfJson j = true → goodJson (convTypesO j) = true
  | .null, _ => rfl
  | .bool _, _ => rfl
  | .num _, _ => rfl
  | .str _, _ => rfl
  | .arr es, h => convElemsO_good es h
  | .obj fields, h => by
    have h' : wfFields fields = true := h
    have hgf : goodFields (convFieldsO fields) = true := convFieldsO_good fields h'
    rw [convTypesO_obj]
    by_cases hc : (jsTruthyOpt (lookupF (convFieldsO fields) "properties") &&
        !jsTruthyOpt (lookupF (convFieldsO fields) "type")) = true
    · rw [if_pos hc]
      show (goodProps (setField (convFieldsO fields) "type" (.str "object")) &&
        goodFields (setField (convFieldsO fields) "type" (.str "object"))) = true
      refine band_intro ?_ (goodFields_setField _ _ _ hgf (by decide))
      unfold goodProps
      rw [lookupF_setField_ne _ _ _ _ (by decide), lookupF_setField_self]
      rw [Bool.and_eq_true] at hc
      rw [if_pos hc.1]
      decide
    · rw [if_neg hc]
      show (goodProps (convFieldsO fields) && goodFields (convFieldsO fields)) = true
      refine band_intro ?_ hgf
      unfold goodProps
      by_cases hp : jsTruthyOpt (lookupF (convFieldsO fields) "properties") = true
      · rw [if_pos hp]
        have ht : jsTruthyOpt (lookupF (convFieldsO fields) "type") = true := by
          by_contra hq
          apply hc
          rw [Bool.and_eq_true]
          refine ⟨hp, ?_⟩
          cases hx : jsTruthyOpt (lookupF (convFieldsO fields) "type") with
          | false => rfl
          | true => exact absurd hx hq
        obtain ⟨v0, hv0⟩ : ∃ v0, lookupF fields "type" = some v0 := by
          rcases hlk : lookupF fields "type" with _ | v0
          · rw [lookupF_convFieldsO, hlk] at ht
            exact Bool.noConfusion ht
          · exact ⟨v0, rfl⟩
        obtain ⟨s, heq, hlow⟩ := convertTypeValue_lower v0 (wf_lookup_type fields v0 h' hv0)
        have hmap : lookupF (convFieldsO fields) "type" = some (.str s) := by
          rw [lookupF_convFieldsO, hv0]
          show some (convEntryValO "type" v0) = some (.str s)
          rw [convEntryValO_type, heq]
        rw [hmap] at ht ⊢
        have hs : (s != "") = true := ht
        show (s != "" && (jsToLower s == s)) = true
        rw [hs, hlow]
        simp
      · rw [if_neg hp]

theorem convFieldsO_good : ∀ l, wfFields l = true → goodFields (convFieldsO l) = true
  | [], _ => rfl
  | (k, v) :: rest, h => by
    have h1 : wfEntry k v = true := band_left h
    have h2 : wfFields rest = true := band_right h
    rw [convFieldsO_cons]
    show (goodEntry k (convEntryValO k v) && goodFields (convFieldsO rest)) = true
    refine band_intro ?_ (convFieldsO_good rest h2)
    unfold convEntryValO
    by_cases hk : k = "type"
    · rw [if_pos hk]
      unfold wfEntry at h1
      rw [if_pos hk] at h1
      have hTL : isTypeLike v = true := by
        cases v with
        | null => rfl
        | arr es => rfl
        | str s => rfl
        | bool b => exact Bool.noConfusion h1
        | num n => exact Bool.noConfusion h1
        | obj f => exact Bool.noConfusion h1
      obtain ⟨s, heq, hlow⟩ := convertTypeValue_lower v hTL
      rw [heq]
      unfold goodEntry
      rw [if_pos hk]
      simp [hlow]
    · rw [if_neg hk]
      unfold wfEntry at h1
      rw [if_neg hk] at h1
      by_cases hm1 : k = "minimum" ∨ k = "maximum" ∨ k = "multipleOf"
      · have hmem : k ∈ numericKeys := by
          rcases hm1 with h3 | h3 | h3 <;> simp [numericKeys, h3]
        rw [if_pos hm1]
        rw [if_pos hmem] at h1
        unfold goodEntry
        rw [if_neg hk]
        cases v with
        | obj f => exact Bool.noConfusion h1
        | arr es => exact Bool.noConfusion h1
        | str s =>
          cases hds : decStrToInt s <;> simp only [numCoerce, hds] <;> rfl
        | null => rfl
        | bool b => rfl
        | num n => rfl
      · rw [if_neg hm1]
        by_cases hm2 : k = "minLength" ∨ k = "maxLength" ∨ k = "minItems" ∨ k = "maxItems"
        · have hmem : k ∈ numericKeys := by
            rcases hm2 with h3 | h3 | h3 | h3 <;> simp [numericKeys, h3]
          rw [if_pos hm2]
          rw [if_pos hmem] at h1
          unfold goodEntry
          rw [if_neg hk]
          cases v with
          | obj f => exact Bool.noConfusion h1
          | arr es => exact Bool.noConfusion h1
          | str s =>
            cases hds : decStrToInt s <;> simp only [numCoerce, hds] <;> rfl
          | null => rfl
          | bool b => rfl
          | num n => rfl
        · have hnmem : k ∉ numericKeys := by
            intro hmem
            simp only [numericKeys, List.mem_cons, List.mem_singleton,
              List.not_mem_nil] at hmem
            rcases hmem with h3 | h3 | h3 | h3 | h3 | h3 | h3 | h3
            · exact hm1 (Or.inl h3)
            · exact hm1 (Or.inr (Or.inl h3))
            · exact hm1 (Or.inr (Or.inr h3))
            · exact hm2 (Or.inl h3)
            · exact hm2 (Or.inr (Or.inl h3))
            · exact hm2 (Or.inr (Or.inr (Or.inl h3)))
            · exact hm2 (Or.inr (Or.inr (Or.inr h3)))
            · exact h3.elim
          rw [if_neg hm2]
          rw [if_neg hnmem] at h1
          unfold goodEntry
          rw [if_neg hk]
          by_cases ho : isObjectTypeof v = true
          · rw [if_pos ho]
            exact convTypesO_good v h1
          · rw [if_neg ho]
            cases v with
            | null => exact absurd rfl ho
            | arr es => exact absurd rfl ho
            | obj f => exact absurd rfl ho
            | bool b => rfl
            | num n => rfl
            | str s => rfl

theorem convElemsO_good : ∀ l, wfElems l = true → goodElems (convElemsO l) = true
  | [], _ => rfl
  | e :: rest, h => by
    show (goodJson (convTypesO e) && goodElems (convElemsO rest)) = true
    exact band_intro (convTypesO_good e (band_left h)) (convElemsO_good rest (band_right h))

end

mutual

theorem convTypesB_good : ∀ j, wfJson j = true → goodJson (convTypesB j) = true
  | .null, _ => rfl
  | .bool _, _ => rfl
  | .num _, _ => rfl
  | .str _, _ => rfl
  | .arr es, h => convElemsB_good es h
  | .obj fields, h => by
    have h' : wfFields fields = true := h
    have hgf : goodFields (convFieldsB fields) = true := convFieldsB_good fields h'
    rw [convTypesB_obj]
    by_cases hc : (jsTruthyOpt (lookupF (convFieldsB fields) "properties") &&
        !jsTruthyOpt (lookupF (convFieldsB fields) "type")) = true
    · rw [if_pos hc]
      show (goodProps (setField (convFieldsB fields) "type" (.str "object")) &&
        goodFields (setField (convFieldsB fields) "type" (.str "object"))) = true
      refine band_intro ?_ (goodFields_setField _ _ _ hgf (by decide))
      unfold goodProps
      rw [lookupF_setField_ne _ _ _ _ (by decide), lookupF_setField_self]
      rw [Bool.and_eq_true] at hc
      rw [if_pos hc.1]
      decide
    · rw [if_neg hc]
      show (goodProps (convFieldsB fields) && goodFields (convFieldsB fields)) = true
      refine band_intro ?_ hgf
      unfold goodProps
      by_cases hp : jsTruthyOpt (lookupF (convFieldsB fields) "properties") = true
      · rw [if_pos hp]
        have ht : jsTruthyOpt (lookupF (convFieldsB fields) "type") = true := by
          by_contra hq
          apply hc
          rw [Bool.and_eq_true]
          refine ⟨hp, ?_⟩
          cases hx : jsTruthyOpt (lookupF (convFieldsB fields) "type") with
          | false => rfl
          | true => exact absurd hx hq
        obtain ⟨v0, hv0⟩ : ∃ v0, lookupF fields "type" = some v0 := by
          rcases hlk : lookupF fields "type" with _ | v0
          · rw [lookupF_convFieldsB, hlk] at ht
            exact Bool.noConfusion ht
          · exact ⟨v0, rfl⟩
        obtain ⟨s, heq, hlow⟩ := convertTypeValue_lower v0 (wf_lookup_type fields v0 h' hv0)
        have hmap : lookupF (convFieldsB fields) "type" = some (.str s) := by
          rw [lookupF_convFieldsB, hv0]
          show some (convEntryValB "type" v0) = some (.str s)
          rw [convEntryValB_type, heq]
        rw [hmap] at ht ⊢
        have hs : (s != "") = true := ht
        show (s != "" && (jsToLower s == s)) = true
        rw [hs, hlow]
        simp
      · rw [if_neg hp]

theorem convFieldsB_good : ∀ l, wfFields l = true → goodFields (convFieldsB l) = true
  | [], _ => rfl
  | (k, v) :: rest, h => by
    have h1 : wfEntry k v = true := band_left h
    have h2 : wfFields rest = true := band_right h
    rw [convFieldsB_cons]
    show (goodEntry k (convEntryValB k v) && goodFields (convFieldsB rest)) = true
    refine band_intro ?_ (convFieldsB_good rest h2)
    unfold convEntryValB
    by_cases hk : k = "type"
    · rw [if_pos hk]
      unfold wfEntry at h1
      rw [if_pos hk] at h1
      have hTL : isTypeLike v = true := by
        cases v with
        | null => rfl
        | arr es => rfl
        | str s => rfl
        | bool b => exact Bool.noConfusion h1
        | num n => exact Bool.noConfusion h1
        | obj f => exact Bool.noConfusion h1
      obtain ⟨s, heq, hlow⟩ := convertTypeValue_lower v hTL
      rw [heq]
      unfold goodEntry
      rw [if_pos hk]
      simp [hlow]
    · rw [if_neg hk]
      unfold wfEntry at h1
      rw [if_neg hk] at h1
      unfold goodEntry
      rw [if_neg hk]
      by_cases ho : isObjectTypeof v = true
      · rw [if_pos ho]
        apply convTypesB_good v
        by_cases hmem : k ∈ numericKeys
        · rw [if_pos hmem] at h1
          cases v with
          | null => rfl
          | arr es => exact Bool.noConfusion h1
          | obj f => exact Bool.noConfusion h1
          | bool b => exact Bool.noConfusion ho
          | num n => exact Bool.noConfusion ho
          | str s => exact Bool.noConfusion ho
        · rw [if_neg hmem] at h1
          exact h1
      · rw [if_neg ho]
        cases v with
        | null => exact absurd rfl ho
        | arr es => exact absurd rfl ho
        | obj f => exact absurd rfl ho
        | bool b => rfl
        | num n => rfl
        | str s => rfl

theorem convElemsB_good : ∀ l, wfElems l = true → goodElems (convElemsB l) = true
  | [], _ => rfl
  | e :: rest, h => by
    show (goodJson (convTypesB e) && goodElems (convElemsB rest)) = true
    exact band_intro (convTypesB_good e (band_left h)) (convElemsB_good rest (band_right h))

end

/-- The `type` member is a truthy lowercase string (the provider-side
requirement at the root of a converted parameter schema). -/
def typeOkF (l : List (String × Json)) : Bool :=
  match lookupF l "type" with
  | some (.str s) => s != "" && (jsToLower s == s)
  | _ => false

/-- First root fixup shared by both parameter converters: a falsy or
array-valued root `type` is replaced by `'object'`. -/
def rootF1O (l : List (String × Json)) : List (String × Json) :=
  if !jsTruthyOpt (lookupF l "type") ||
      (match lookupF l "type" with | some (.arr _) => true | _ => false) then
    setField l "type" (.str "object")
  else l

/-- Second root fixup of the OpenAI parameter converter: a string `type`
that lowercases to `'object'` is normalized to `'object'`. -/
def rootF2O (l : List (String × Json)) : List (String × Json) :=
  match lookupF l "type" with
  | some (.str s) =>
    if s ≠ "object" ∧ jsToLower s = "object" then setField l "type" (.str "object")
    else l
  | _ => l

/-- Last root fixup shared by both parameter converters: a falsy
`properties` member is replaced by the empty object. -/
def rootF3 (l : List (String × Json)) : List (String × Json) :=
  if !jsTruthyOpt (lookupF l "properties") then setField l "properties" (.obj [])
  else l

theorem goodFields_lookup (l : List (String × Json)) (k : String) (v : Json)
    (hgf : goodFields l = true) (hv : lookupF l k = some v) : goodEntry k v = true := by
  induction l with
  | nil => exact Option.noConfusion hv
  | cons p rest ih =>
    rcases p with ⟨k2, v2⟩
    rw [goodFields_cons] at hgf
    simp only [lookupF] at hv
    by_cases h : k2 = k
    · rw [if_pos h] at hv
      subst h
      cases hv
      exact band_left hgf
    · rw [if_neg h] at hv
      exact ih (band_right hgf) hv

theorem jsTruthyOpt_some {o : Option Json} (h : jsTruthyOpt o = true) :
    ∃ v, o = some v ∧ v.truthy = true := by
  cases o with
  | none => exact Bool.noConfusion h
  | some v => exact ⟨v, rfl, h⟩

theorem typeOk_of_truthy (l : List (String × Json)) (hgf : goodFields l = true)
    (ht : jsTruthyOpt (lookupF l "type") = true) : typeOkF l = true := by
  obtain ⟨v, hv, htr⟩ := jsTruthyOpt_some ht
  have hge := goodFields_lookup l "type" v hgf hv
  unfold goodEntry at hge
  rw [if_pos rfl] at hge
  unfold typeOkF
  rw [hv]
  cases v with
  | str s =>
    show (s != "" && (jsToLower s == s)) = true
    exact band_intro htr hge
  | null => exact Bool.noConfusion hge
  | bool b => exact Bool.noConfusion hge
  | num n => exact Bool.noConfusion hge
  | arr es => exact Bool.noConfusion hge
  | obj f => exact Bool.noConfusion hge

theorem goodProps_of_typeOk (l : List (String × Json)) (ht : typeOkF l = true) :
    goodProps l = true := by
  unfold goodProps
  unfold typeOkF at ht
  by_cases hp : jsTruthyOpt (lookupF l "properties") = true
  · rw [if_pos hp]
    exact ht
  · rw [if_neg hp]

theorem typeOk_setField (l : List (String × Json)) :
    typeOkF (setField l "type" (.str "object")) = true := by
  unfold typeOkF
  rw [lookupF_setField_self]
  decide

theorem rootF1O_inv (l : List (String × Json)) (hgf : goodFields l = true) :
    goodFields (rootF1O l) = true ∧ typeOkF (rootF1O l) = true := by
  unfold rootF1O
  by_cases hc : (!jsTruthyOpt (lookupF l "type") ||
      (match lookupF l "type" with | some (.arr _) => true | _ => false)) = true
  · rw [if_pos hc]
    exact ⟨goodFields_setField l "type" (.str "object") hgf (by decide), typeOk_setField l⟩
  · rw [if_neg hc]
    refine ⟨hgf, ?_⟩
    have ht : jsTruthyOpt (lookupF l "type") = true := by
      cases hx : jsTruthyOpt (lookupF l "type") with
      | true => rfl
      | false =>
        exfalso
        apply hc
        rw [hx]
        rfl
    exact typeOk_of_truthy l hgf ht

theorem rootF2O_inv (l : List (String × Json)) (hgf : goodFields l = true)
    (ht : typeOkF l = true) :
    goodFields (rootF2O l) = true ∧ typeOkF (rootF2O l) = true := by
  unfold rootF2O
  split
  · rename_i s heqt
    by_cases hcond : s ≠ "object" ∧ jsToLower s = "object"
    · rw [if_pos hcond]
      exact ⟨goodFields_setField l "type" (.str "object") hgf (by decide), typeOk_setField l⟩
    · rw [if_neg hcond]
      exact ⟨hgf, ht⟩
  · exact ⟨hgf, ht⟩

theorem rootF3_inv (l : List (String × Json)) (hgf : goodFields l = true)
    (ht : typeOkF l = true) :
    goodFields (rootF3 l) = true ∧ typeOkF (rootF3 l) = true ∧
      ∃ v, lookupF (rootF3 l) "properties" = some v := by
  unfold rootF3
  by_cases hc : (!jsTruthyOpt (lookupF l "properties")) = true
  · rw [if_pos hc]
    refine ⟨goodFields_setField l "properties" (.obj []) hgf (by decide), ?_,
      ⟨.obj [], lookupF_setField_self l "properties" (.obj [])⟩⟩
    unfold typeOkF at ht ⊢
    rw [lookupF_setField_ne l "properties" "type" (.obj []) (by decide)]
    exact ht
  · rw [if_neg hc]
    have hp : jsTruthyOpt (lookupF l "properties") = true := by
      cases hx : jsTruthyOpt (lookupF l "properties") with
      | true => rfl
      | false =>
        exfalso
        apply hc
        rw [hx]
        rfl
    obtain ⟨v, hv, _⟩ := jsTruthyOpt_some hp
    exact ⟨hgf, ht, v, hv⟩

theorem getField_obj (l : List (String × Json)) (k : String) :
    (Json.obj l).getField k = lookupF l k := rfl

theorem rootOk_of_inv (l : List (String × Json)) (ht : typeOkF l = true)
    (hp : ∃ v, lookupF l "properties" = some v) : rootOk (.obj l) = true := by
  obtain ⟨v, hv⟩ := hp
  unfold rootOk
  rw [getField_obj, getField_obj, hv]
  unfold typeOkF at ht
  rcases hlk : lookupF l "type" with _ | v2
  · rw [hlk] at ht
    exact Bool.noConfusion ht
  · rw [hlk] at ht
    cases v2 with
    | str s => exact ht
    | null => exact Bool.noConfusion ht
    | bool b => exact Bool.noConfusion ht
    | num n => exact Bool.noConfusion ht
    | arr es => exact Bool.noConfusion ht
    | obj f => exact Bool.noConfusion ht

theorem convertGeminiParametersToOpenAI_eq (fields : List (String × Json)) :
    convertGeminiParametersToOpenAI fields =
      .obj (rootF3 (rootF2O (rootF1O
        (if jsTruthyOpt (lookupF (convFieldsO fields) "properties") &&
            !jsTruthyOpt (lookupF (convFieldsO fields) "type") then
          setField (convFieldsO fields) "type" (.str "object")
        else convFieldsO fields)))) := rfl

theorem convertGeminiParametersToBedrock_eq (fields : List (String × Json)) :
    convertGeminiParametersToBedrock fields =
      .obj (rootF3 (rootF1O
        (if jsTruthyOpt (lookupF (convFieldsB fields) "properties") &&
            !jsTruthyOpt (lookupF (convFieldsB fields) "type") then
          setField (convFieldsB fields) "type" (.str "object")
        else convFieldsB fields))) := rfl

theorem convertGeminiParametersToOpenAI_good (fields : List (String × Json))
    (h : wfFields fields = true) :
    goodJson (convertGeminiParametersToOpenAI fields) = true ∧
      rootOk (convertGeminiParametersToOpenAI fields) = true := by
  have hg : goodJson (convTypesO (.obj fields)) = true := convTypesO_good (.obj fields) h
  rw [convTypesO_obj] at hg
  rw [convertGeminiParametersToOpenAI_eq]
  generalize hl0 : (if jsTruthyOpt (lookupF (convFieldsO fields) "properties") &&
      !jsTruthyOpt (lookupF (convFieldsO fields) "type") then
    setField (convFieldsO fields) "type" (.str "object")
  else convFieldsO fields) = l0
  rw [hl0] at hg
  have hgf : goodFields l0 = true := band_right hg
  have h1 := rootF1O_inv l0 hgf
  have h2 := rootF2O_inv (rootF1O l0) h1.1 h1.2
  obtain ⟨hgf3, ht3, hex⟩ := rootF3_inv (rootF2O (rootF1O l0)) h2.1 h2.2
  constructor
  · show (goodProps (rootF3 (rootF2O (rootF1O l0))) &&
      goodFields (rootF3 (rootF2O (rootF1O l0)))) = true
    exact band_intro (goodProps_of_typeOk _ ht3) hgf3
  · exact rootOk_of_inv _ ht3 hex

theorem convertGeminiParametersToBedrock_good (fields : List (String × Json))
    (h : wfFields fields = true) :
    goodJson (convertGeminiParametersToBedrock fields) = true ∧
      rootOk (convertGeminiParametersToBedrock fields) = true := by
  have hg : goodJson (convTypesB (.obj fields)) = true := convTypesB_good (.obj fields) h
  rw [convTypesB_obj] at hg
  rw [convertGeminiParametersToBedrock_eq]
  generalize hl0 : (if jsTruthyOpt (lookupF (convFieldsB fields) "properties") &&
      !jsTruthyOpt (lookupF (convFieldsB fields) "type") then
    setField (convFieldsB fields) "type" (.str "object")
  else convFieldsB fields) = l0
  rw [hl0] at hg
  have hgf : goodFields l0 = true := band_right hg
  have h1 := rootF1O_inv l0 hgf
  obtain ⟨hgf3, ht3, hex⟩ := rootF3_inv (rootF1O l0) h1.1 h1.2
  constructor
  · show (goodProps (rootF3 (rootF1O l0)) && goodFields (rootF3 (rootF1O l0))) = true
    exact band_intro (goodProps_of_typeOk _ ht3) hgf3
  · exact rootOk_of_inv _ ht3 hex

/-- Sample schema used to witness the C4 theorem: it contains a
`type: null` member at the root and an array-valued `type` member
(`["STRING", "null"]`) at nesting depth two. -/
def c4SampleSchema : List (String × Json) :=
  [("type", .null),
    ("properties",
      .obj [("a",
        .obj [("type", .arr [.str "STRING", .str "null"]), ("properties", .obj [])])])]

/-- C4 (amended): for every well-formed parameter-schema tree (each `type`
value is null, an array or a string, and numeric-constraint keys hold
non-container values, at every depth), both `convertGeminiParametersToOpenAI`
and `convertGeminiParametersToBedrock` produce a tree in which every `type`
member is a single lowercase string, every object with a truthy `properties`
member also has a truthy lowercase-string `type`, and the root object has a
truthy lowercase-string `type` together with a `properties` member. -/
theorem schema_type_normalization (fields : List (String × Json))
    (h : wfFields fields = true) :
    (goodJson (convertGeminiParametersToOpenAI fields) = true ∧
      rootOk (convertGeminiParametersToOpenAI fields) = true) ∧
    (goodJson (convertGeminiParametersToBedrock fields) = true ∧
      rootOk (convertGeminiParametersToBedrock fields) = true) :=
  ⟨convertGeminiParametersToOpenAI_good fields h,
    convertGeminiParametersToBedrock_good fields h⟩

theorem schema_type_normalization_witness :
    wfFields c4SampleSchema = true ∧
      ((goodJson (convertGeminiParametersToOpenAI c4SampleSchema) = true ∧
        rootOk (convertGeminiParametersToOpenAI c4SampleSchema) = true) ∧
      (goodJson (convertGeminiParametersToBedrock c4SampleSchema) = true ∧
        rootOk (convertGeminiParametersToBedrock c4SampleSchema) = true)) :=
  ⟨by decide, schema_type_normalization c4SampleSchema (by decide)⟩

/-- C4 counterexample: the claim fails as stated for `sanitizeJsonSchema`
(cited by the claim): a root array-valued `type` causes the schema to be
wrapped without traversal so the array-valued `type` survives in the
output; a nested `type: null` member is left unchanged; the array-`type`
fix of the traversal defaults to `"string"`, not `"object"`; and the
OpenAI parameter converter keeps a non-`"object"` string `type` on a
nested object that declares `properties`. -/
theorem sanitizeJsonSchema_keeps_bad_types :
    sanitizeJsonSchema [("type", .arr [.str "string", .str "null"])] =
      .obj [("type", .str "object"),
        ("properties", .obj [("value", .obj [("type", .arr [.str "string", .str "null"])])]),
        ("required", .arr [.str "value"])] ∧
    sanitizeJsonSchema
        [("type", .str "object"), ("properties", .obj [("a", .obj [("type", .null)])])] =
      .obj [("type", .str "object"), ("properties", .obj [("a", .obj [("type", .null)])])] ∧
    findNonNullType [.str "null"] = .str "string" ∧
    convertGeminiParametersToOpenAI
        [("type", .str "object"),
          ("properties",
            .obj [("a", .obj [("type", .str "string"), ("properties", .obj [])])])] =
      .obj [("type", .str "object"),
        ("properties",
          .obj [("a", .obj [("type", .str "string"), ("properties", .obj [])])])] :=
  ⟨rfl, rfl, rfl, rfl⟩

/-- C2 (amended): in the output of `cleanOrphanedToolCalls`, every kept
assistant message with a `tool_calls` array has a nonempty array in which
every call has a truthy id matched by a kept tool-result message; every
kept tool-result message with a truthy `tool_call_id` matches some kept
assistant tool call; the truthy kept result ids are pairwise distinct; and
an assistant message whose calls are all orphaned keeps its text with the
calls stripped when it has non-blank text and is dropped otherwise, while
a duplicate result for an already-kept id is dropped (first kept). Results
with a falsy (empty) `tool_call_id` are exempt: they pass through the
hygiene unconditionally. -/
theorem tool_call_hygiene (ms : List OAMsg) :
    (∀ c l rd, OAMsg.assistant c (some l) rd ∈ cleanOrphanedToolCalls ms →
      l ≠ [] ∧ ∀ tc ∈ l, tc.id ≠ "" ∧
        tc.id ∈ toolResponseIdsOf (cleanOrphanedToolCalls ms)) ∧
    (∀ id content, OAMsg.tool id content ∈ cleanOrphanedToolCalls ms → id ≠ "" →
      id ∈ toolCallIdsOf (cleanOrphanedToolCalls ms)) ∧
    (toolResponseIdsOf (cleanOrphanedToolCalls ms)).Nodup ∧
    cleanOrphanedToolCalls [.assistant (some "hi") (some [⟨"call_1", "t", ""⟩]) none] =
      [.assistant (some "hi") none none] ∧
    cleanOrphanedToolCalls [.assistant none (some [⟨"call_1", "t", ""⟩]) none] = [] ∧
    cleanOrphanedToolCalls
        [.assistant none (some [⟨"call_1", "t", ""⟩]) none, .tool "call_1" "r1",
          .tool "call_1" "r2"] =
      [.assistant none (some [⟨"call_1", "t", ""⟩]) none, .tool "call_1" "r1"] := by
  refine ⟨?_, ?_, clean_nodup ms, rfl, rfl, rfl⟩
  · intro c l rd h
    exact clean_assistant_calls h
  · intro id content h hne
    exact clean_tool_matched h hne

theorem tool_call_hygiene_witness :
    "c1" ∈ toolCallIdsOf (cleanOrphanedToolCalls
      [.assistant none (some [⟨"c1", "t", ""⟩]) none, .tool "c1" "r1", .tool "c1" "r2"]) ∧
    (toolResponseIdsOf (cleanOrphanedToolCalls
      [.assistant none (some [⟨"c1", "t", ""⟩]) none, .tool "c1" "r1",
        .tool "c1" "r2"])).Nodup := by
  have h := tool_call_hygiene
    [.assistant none (some [⟨"c1", "t", ""⟩]) none, .tool "c1" "r1", .tool "c1" "r2"]
  refine ⟨h.2.1 "c1" "r1" ?_ ?_, h.2.2.1⟩
  · show OAMsg.tool "c1" "r1" ∈
      [OAMsg.assistant none (some [⟨"c1", "t", ""⟩]) none, OAMsg.tool "c1" "r1"]
    simp
  · decide

/-- C2 counterexample: two tool-result messages with an empty (falsy)
`tool_call_id` pass through `cleanOrphanedToolCalls` unchanged even though
no tool call with that id exists, so the output has a result with no
matching call, and two results referencing the same id. -/
theorem empty_id_tool_results_kept :
    cleanOrphanedToolCalls [.tool "" "a", .tool "" "b"] = [.tool "" "a", .tool "" "b"] ∧
    toolCallIdsOf [.tool "" "a", .tool "" "b"] = [] := ⟨rfl, rfl⟩

/-- C3: the conversation hygiene pass (orphan/duplicate cleanup followed
by merging of consecutive assistant messages) is idempotent: applying it
twice yields the same message list as applying it once. -/
theorem hygiene_pass_idempotent (ms : List OAMsg) :
    hygienePass (hygienePass ms) = hygienePass ms := by
  have hA : ∀ c l rd, OAMsg.assistant c (some l) rd ∈ mergeMsgs (cleanOrphanedToolCalls ms) →
      l ≠ [] ∧ ∀ tc ∈ l,
        tc.id ≠ "" ∧ tc.id ∈ toolResponseIdsOf (mergeMsgs (cleanOrphanedToolCalls ms)) := by
    intro c l rd hm
    constructor
    · refine mergeMsgs_no_empty ?_ hm
      intro c0 l0 rd0 hm0
      exact (clean_assistant_calls hm0).1
    · intro tc htc
      obtain ⟨c0, l0, rd0, hm0, htc0⟩ := mergeMsgs_calls_sub hm htc
      have h1 := (clean_assistant_calls hm0).2 tc htc0
      refine ⟨h1.1, ?_⟩
      rw [mergeMsgs_respIds]
      exact h1.2
  have hT : ∀ id content, OAMsg.tool id content ∈ mergeMsgs (cleanOrphanedToolCalls ms) →
      id ≠ "" → id ∈ toolCallIdsOf (mergeMsgs (cleanOrphanedToolCalls ms)) := by
    intro id content hm hne
    rw [mergeMsgs_callIds]
    exact clean_tool_matched (mergeMsgs_tool_mem.mp hm) hne
  have hN : (toolResponseIdsOf (mergeMsgs (cleanOrphanedToolCalls ms))).Nodup := by
    rw [mergeMsgs_respIds]
    exact clean_nodup ms
  show mergeMsgs (cleanOrphanedToolCalls (mergeMsgs (cleanOrphanedToolCalls ms))) =
    mergeMsgs (cleanOrphanedToolCalls ms)
  rw [clean_eq_self hA hT hN]
  exact mergeMsgs_idem _

end Aion
